import Mathlib

/-!
Incognito: a shallow embedding of `src/incognito.c`

The development models the two interceptors of the module, `hijackedGetdents`
(the listing filter) and `hijackedKill` (the signal-coded command channel),
together with the state they read and write.

* A listing buffer is a list of bytes (`List Nat`); a `struct linux_dirent *`
  is an offset into it.  The field offsets are those of the source struct on
  the 64-bit little-endian target of the module: `d_ino` at 0, `d_off` at 8,
  `d_reclen` (16 bits) at 16 and `d_name` from 18.
* The kernel state touched by `hijackedKill` is the record `KState`.
* Calls into the kernel that the source makes through pointers
  (`originalGetdents`, `originalKill`) are parameters.
-/

namespace Incognito

/-! ## Constants -/

/-- Flag bit marking a hidden process: `#define INCOGNITO 0x10000000`. -/
def INCOGNITO : Nat := 0x10000000

/-- Bytes of the string literal `INCOGNITO_PREFIX`, "incognito_secret" (16 bytes, no NUL). -/
def INCOGNITO_PREFIX : List Nat :=
  [105, 110, 99, 111, 103, 110, 105, 116, 111, 95, 115, 101, 99, 114, 101, 116]

/-- Signal to toggle hiding of a process. -/
def SIGHIDE : Int := 31
/-- Signal to toggle the unload protection of the module. -/
def SIGPROTECT : Int := 1
/-- Signal to grant root to the caller. -/
def SIGROOT : Int := 64
/-- Signal to toggle hiding of the module. -/
def SIGMODHIDE : Int := 63
/-- Signal to print the help text. -/
def SIGHELP : Int := 2

/-- Kernel errno `ESRCH` (no such process). -/
def ESRCH : Int := 3
/-- Kernel errno `ENOENT`. -/
def ENOENT : Int := 2
/-- Inode number of the root of procfs (`PROC_ROOT_INO` of `linux/proc_ns.h`). -/
def PROC_ROOT_INO : Nat := 1

/-! ## Byte buffers and `struct linux_dirent` -/

/-- Byte of the buffer at index `i`; bytes past the end read as 0. -/
def rd (buf : List Nat) (i : Nat) : Nat := buf.getD i 0

/-- Little-endian unsigned integer of `n` bytes stored at index `i`. -/
def rdLE : Nat → List Nat → Nat → Nat
  | 0, _, _ => 0
  | n + 1, buf, i => rd buf i + 256 * rdLE n buf (i + 1)

/-- Field `d_ino` (`unsigned long`, offset 0) of the record at offset `p`. -/
def d_ino (buf : List Nat) (p : Nat) : Nat := rdLE 8 buf p
/-- Field `d_off` (`unsigned long`, offset 8) of the record at offset `p`. -/
def d_off (buf : List Nat) (p : Nat) : Nat := rdLE 8 buf (p + 8)
/-- Field `d_reclen` (`unsigned short`, offset 16) of the record at offset `p`. -/
def d_reclen (buf : List Nat) (p : Nat) : Nat := rdLE 2 buf (p + 16)
/-- Field `d_name` (offset 18) of the record at offset `p`, read as a C string:
the bytes up to, not including, the first NUL. -/
def d_name (buf : List Nat) (p : Nat) : List Nat := (buf.drop (p + 18)).takeWhile (fun b => b != 0)

/-- Store to the 16-bit field `d_reclen` of the record at offset `p`; the value
is reduced to 16 bits as an `unsigned short` store does. -/
def set_d_reclen (buf : List Nat) (p v : Nat) : List Nat :=
  (buf.set (p + 16) (v % 256)).set (p + 17) (v / 256 % 256)

/-- Kernel `memcmp(cs, buf + p, |cs|)`: the difference at the first differing byte, else 0. -/
def memcmp : List Nat → List Nat → Nat → Int
  | [], _, _ => 0
  | c :: cs, buf, p =>
    if (c : Int) - (rd buf p : Int) ≠ 0 then (c : Int) - (rd buf p : Int) else memcmp cs buf (p + 1)

/-- Kernel `memmove(buf + dst, buf + src, n)` inside one buffer. -/
def memmove (buf : List Nat) (dst src n : Nat) : List Nat :=
  buf.take dst ++ ((buf.drop src).take n ++ buf.drop (dst + n))

/-- Decimal digit test used by the integer parser. -/
def isDigit (b : Nat) : Bool := decide (48 ≤ b) && decide (b ≤ 57)

/-- Kernel `simple_strtoul(s, NULL, 10)`: the value of the leading decimal digits
of `s`, accumulated in an `unsigned long` (64 bits); 0 when there is no digit.
The function is the kernel's own (lib/vsprintf.c); the source calls it in the
loop test of `hijackedGetdents` and does not define it. -/
def simple_strtoul (s : List Nat) : Nat :=
  (s.takeWhile isDigit).foldl (fun acc b => (acc * 10 + (b - 48)) % 2 ^ 64) 0

/-- Conversion of an `unsigned long` argument to the `pid_t` (32-bit `int`) parameter. -/
def toPid (n : Nat) : Int :=
  if n % 2 ^ 32 < 2 ^ 31 then ((n % 2 ^ 32 : Nat) : Int) else ((n % 2 ^ 32 : Nat) : Int) - 2 ^ 32

/-! ## Processes -/

/-- The two fields of `struct task_struct` the module uses. -/
structure task_struct where
  pid : Int
  flags : Nat
deriving DecidableEq, Repr

/-- Walk of the process list by `fetchTask`: the position of the first task whose
`pid` matches, `none` for `NULL`. -/
def fetchTask : List task_struct → Int → Option Nat
  | [], _ => none
  | t :: ts, pid => if t.pid = pid then some 0 else (fetchTask ts pid).map (fun i => i + 1)

/-- Read of `task->flags` through the pointer returned by `fetchTask`. -/
def task_flags (tasks : List task_struct) (i : Nat) : Nat :=
  match tasks.get? i with
  | some t => t.flags
  | none => 0

/-- Source function `isIncognito`: 1 when `pid` is non-zero and names a task
whose `INCOGNITO` bit is set, else 0. -/
def isIncognito (tasks : List task_struct) (pid : Int) : Int :=
  if pid = 0 then 0
  else
    match fetchTask tasks pid with
    | none => 0
    | some i => if task_flags tasks i &&& INCOGNITO ≠ 0 then 1 else 0

/-! ## The listing filter -/

/-- Outcome of running code that can fault or loop. -/
inductive Run (α : Type) where
  | ok (a : α)
  | nullDeref
  | badMemmove
  | diverges
deriving DecidableEq, Repr

/-- The condition of the `if` in the filter loop for the record at offset `p`. -/
def hideTest (proc : Bool) (tasks : List task_struct) (buf : List Nat) (p : Nat) : Bool :=
  (!proc && decide (memcmp INCOGNITO_PREFIX buf (p + 18) = 0))
    || (proc && decide (isIncognito tasks (toPid (simple_strtoul (buf.drop (p + 18)))) ≠ 0))

/-- The `while (offset < getdents)` loop of `hijackedGetdents`.  The first
argument bounds the number of iterations; `previous` is `none` for `NULL`.
The result is the working buffer and the final value of `getdents`. -/
def filterLoop (proc : Bool) (tasks : List task_struct) :
    Nat → List Nat → Nat → Nat → Option Nat → Run (List Nat × Nat)
  | 0, _, _, _, _ => Run.diverges
  | fuel + 1, buf, getdents, offset, previous =>
    if offset < getdents then
      if hideTest proc tasks buf offset then
        if offset = 0 then
          if d_reclen buf offset ≤ getdents then
            filterLoop proc tasks fuel
              (memmove buf offset (offset + d_reclen buf offset) (getdents - d_reclen buf offset))
              (getdents - d_reclen buf offset) offset previous
          else Run.badMemmove
        else
          match previous with
          | none => Run.nullDeref
          | some q =>
            filterLoop proc tasks fuel
              (set_d_reclen buf q (d_reclen buf q + d_reclen buf offset)) getdents
              (offset + d_reclen (set_d_reclen buf q (d_reclen buf q + d_reclen buf offset)) offset)
              previous
      else filterLoop proc tasks fuel buf getdents (offset + d_reclen buf offset) (some offset)
    else Run.ok (buf, getdents)

/-- What the kernel supplies to one call of `hijackedGetdents`. -/
structure GetdentsEnv where
  /-- The real system call: descriptor, caller buffer and capacity to result and buffer written. -/
  originalGetdents : Nat → List Nat → Nat → Int × List Nat
  /-- Whether `kzalloc` returns `NULL`. -/
  kzallocFails : Bool
  /-- Return value of `copy_from_user`: the number of bytes not copied. -/
  copyFromUserLeft : Nat
  /-- Return value of `copy_to_user`: the number of bytes not copied. -/
  copyToUserLeft : Nat
  /-- Inode number `d_inode->i_ino` of the listed directory, per descriptor. -/
  i_ino : Nat → Nat
  /-- Device major `MAJOR(d_inode->i_rdev)` of the listed directory, per descriptor. -/
  i_rdev_major : Nat → Nat
  /-- The process list walked by `fetchTask`. -/
  tasks : List task_struct

/-- The test `d_inode->i_ino == PROC_ROOT_INO && !MAJOR(d_inode->i_rdev)` that sets `proc`. -/
def isProc (env : GetdentsEnv) (fd : Nat) : Bool :=
  decide (env.i_ino fd = PROC_ROOT_INO) && decide (env.i_rdev_major fd = 0)

/-- Source function `hijackedGetdents`.  The result is the return value and the
content of the caller buffer `dirp` after the call.  The working buffer is the
zeroed allocation of `getdents` bytes overwritten by `copy_from_user`; the loop
is given `getdents + 1` iterations, which it exceeds only when it does not
terminate; a `copy_to_user` that leaves `k` bytes uncopied writes the first
`getdents - k` bytes.  Every path returns `getdents`. -/
def hijackedGetdents (env : GetdentsEnv) (fd : Nat) (dirp : List Nat) (count : Nat) :
    Run (Int × List Nat) :=
  let real := env.originalGetdents fd dirp count
  let getdents : Int := real.1
  let user : List Nat := real.2
  if getdents ≤ 0 then Run.ok (getdents, user)
  else if env.kzallocFails then Run.ok (getdents, user)
  else if env.copyFromUserLeft ≠ 0 then Run.ok (getdents, user)
  else
    let n := getdents.toNat
    let ourDirp := user.take n ++ (List.replicate n 0).drop (user.take n).length
    match filterLoop (isProc env fd) env.tasks (n + 1) ourDirp n 0 none with
    | Run.ok (buf, len) =>
      Run.ok ((len : Int), buf.take (len - env.copyToUserLeft) ++ user.drop (len - env.copyToUserLeft))
    | Run.nullDeref => Run.nullDeref
    | Run.badMemmove => Run.badMemmove
    | Run.diverges => Run.diverges

/-! ## Reading a buffer as a sequence of records -/

/-- A listing record as a reader of the buffer sees it. -/
structure linux_dirent where
  d_ino : Nat
  d_off : Nat
  d_reclen : Nat
  d_name : List Nat
deriving DecidableEq, Repr

/-- The record at offset `p`. -/
def direntAt (buf : List Nat) (p : Nat) : linux_dirent :=
  { d_ino := d_ino buf p, d_off := d_off buf p, d_reclen := d_reclen buf p, d_name := d_name buf p }

/-- Walk of the first `len` bytes by `d_reclen`, starting at offset `p`. -/
def walk (buf : List Nat) (len : Nat) : Nat → Nat → List linux_dirent
  | 0, _ => []
  | fuel + 1, p =>
    if p < len then direntAt buf p :: walk buf len fuel (p + d_reclen buf p) else []

/-- The records a caller obtains from a buffer holding `len` bytes of records. -/
def entries (buf : List Nat) (len : Nat) : List linux_dirent := walk buf len len 0

/-- Check that the bytes from offset `p` to `len` are whole records: each record
holds its 18-byte header and its NUL-terminated name inside its `d_reclen`
bytes, and the records end exactly at `len`. -/
def wfFrom (buf : List Nat) (len : Nat) : Nat → Nat → Bool
  | 0, p => decide (p = len)
  | fuel + 1, p =>
    if p = len then true
    else
      decide (p + d_reclen buf p ≤ len) && decide (19 + (d_name buf p).length ≤ d_reclen buf p)
        && wfFrom buf len fuel (p + d_reclen buf p)

/-- A well-formed listing buffer of `len` bytes. -/
def wellFormed (buf : List Nat) (len : Nat) : Prop :=
  len ≤ buf.length ∧ wfFrom buf len len 0 = true

instance (buf : List Nat) (len : Nat) : Decidable (wellFormed buf len) := by
  unfold wellFormed; infer_instance

/-- The hide predicate on a record: its name starts with the prefix (other
listings), or its name parsed as a decimal pid is hidden (process listing). -/
def hiddenRecord (proc : Bool) (tasks : List task_struct) (r : linux_dirent) : Bool :=
  (!proc && INCOGNITO_PREFIX.isPrefixOf r.d_name)
    || (proc && decide (isIncognito tasks (toPid (simple_strtoul r.d_name)) ≠ 0))

/-- Splice of a record sequence as the filter loop performs it: with no
surviving record yet (`none`) a matching record is dropped; afterwards the
length of a matching record is added to the surviving record before it. -/
def spliceFrom (hid : linux_dirent → Bool) : Option linux_dirent → List linux_dirent → List linux_dirent
  | none, [] => []
  | some c, [] => [c]
  | none, r :: rs => if hid r then spliceFrom hid none rs else spliceFrom hid (some r) rs
  | some c, r :: rs =>
    if hid r then spliceFrom hid (some { c with d_reclen := c.d_reclen + r.d_reclen }) rs
    else c :: spliceFrom hid (some r) rs

/-- The spliced record sequence of a whole listing. -/
def splice (hid : linux_dirent → Bool) (rs : List linux_dirent) : List linux_dirent :=
  spliceFrom hid none rs

/-- Inode, offset and name of a record: every field but the length. -/
def identity (r : linux_dirent) : Nat × Nat × List Nat := (r.d_ino, r.d_off, r.d_name)

/-! ## Building records (for concrete listings) -/

/-- Little-endian bytes of `v` in `n` bytes. -/
def leBytes : Nat → Nat → List Nat
  | 0, _ => []
  | n + 1, v => v % 256 :: leBytes n (v / 256)

/-- Bytes of one record: header, name, NUL, and zero padding up to `reclen`. -/
def mkDirent (ino off reclen : Nat) (name : List Nat) : List Nat :=
  leBytes 8 ino ++ leBytes 8 off ++ leBytes 2 reclen ++ name ++ [0]
    ++ List.replicate (reclen - (19 + name.length)) 0

/-! ## Kernel state used by the command channel -/

/-- The id fields of `struct cred` (the `val` of each). -/
structure cred where
  uid : Nat
  gid : Nat
  suid : Nat
  sgid : Nat
  euid : Nat
  egid : Nat
  fsuid : Nat
  fsgid : Nat
deriving DecidableEq, Repr

/-- Messages the module writes to the kernel log. -/
inductive LogMsg where
  | help
  | nowRoot (pid : Int)
  | incompatibleKernel
  | noTable
  | tableLocated
  | tableAddress (addr : Nat)
  | moduleLoaded
  | moduleRemoved
deriving DecidableEq, Repr

/-- A `struct list_head *` into the kernel list of modules: `NULL`, the list
head, or the node of a module. -/
inductive list_head where
  | null
  | head
  | node (m : Nat)
deriving DecidableEq, Repr

/-- Identifier of the module itself in the list of modules. -/
def THIS_MODULE : Nat := 0

/-- The state read and written by `hijackedKill` and the functions it calls. -/
structure KState where
  /-- Global `int hidden`. -/
  hidden : Int
  /-- Global `int protected`. -/
  protected_ : Int
  /-- The process list walked by `for_each_process`. -/
  tasks : List task_struct
  /-- Field `pid` of `current`. -/
  current_pid : Int
  /-- Credentials of `current`. -/
  current_cred : cred
  /-- The kernel list of modules, in list order. -/
  modules : List Nat
  /-- Global `mod_list`. -/
  mod_list : list_head
  /-- Whether `THIS_MODULE->sect_attrs` is non-`NULL`. -/
  sect_attrs : Bool
  /-- Reference count of the module. -/
  refcnt : Nat
  /-- The kernel log. -/
  dmesg : List LogMsg
deriving DecidableEq, Repr

/-- Value of `m->list.prev` for a module `m` linked in the list. -/
def list_prev : List Nat → Nat → list_head
  | [], _ => list_head.null
  | x :: xs, m =>
    if x = m then list_head.head
    else
      match xs with
      | [] => list_head.null
      | y :: _ => if y = m then list_head.node x else list_prev xs m

/-- Kernel `list_add(new, pos)`: link `new` right after `pos`. -/
def list_add (new : Nat) (pos : list_head) (l : List Nat) : List Nat :=
  match pos with
  | list_head.null => l
  | list_head.head => new :: l
  | list_head.node m =>
    match l.indexOf? m with
    | some i => l.take (i + 1) ++ new :: l.drop (i + 1)
    | none => l

/-- Source function `hide`. -/
def hide (s : KState) : KState :=
  if s.hidden ≠ 0 then s
  else
    { s with
      mod_list := list_prev s.modules THIS_MODULE
      modules := s.modules.erase THIS_MODULE
      sect_attrs := false
      hidden := 1 }

/-- Source function `reveal`. -/
def reveal (s : KState) : KState :=
  if s.hidden = 0 then s
  else { s with modules := list_add THIS_MODULE s.mod_list s.modules, hidden := 0 }

/-- Source function `protect`. -/
def protect (s : KState) : KState :=
  if s.protected_ ≠ 0 then s else { s with refcnt := s.refcnt + 1, protected_ := 1 }

/-- Source function `unprotect`. -/
def unprotect (s : KState) : KState :=
  if s.protected_ = 0 then s else { s with refcnt := s.refcnt - 1, protected_ := 0 }

/-- Source function `root`: the prepared copy of the credentials of `current`
gets `uid`, `euid`, `gid` and `egid` 0 and is committed. -/
def root (s : KState) : KState :=
  { s with
    current_cred := { s.current_cred with uid := 0, euid := 0, gid := 0, egid := 0 }
    dmesg := s.dmesg ++ [LogMsg.nowRoot s.current_pid] }

/-- Source function `printHelp`. -/
def printHelp (s : KState) : KState := { s with dmesg := s.dmesg ++ [LogMsg.help] }

/-- The statement `task->flags ^= INCOGNITO` through the pointer `i`. -/
def toggleIncognito (tasks : List task_struct) (i : Nat) : List task_struct :=
  match tasks.get? i with
  | some t => tasks.set i { t with flags := t.flags ^^^ INCOGNITO }
  | none => tasks

/-- Source function `hijackedKill`; `originalKill` is the real system call, which
may return anything and change the state in any way. -/
def hijackedKill (originalKill : Int → Int → KState → Int × KState) (pid signal : Int)
    (s : KState) : Int × KState :=
  if signal = SIGHIDE then
    match fetchTask s.tasks pid with
    | none => (-ESRCH, s)
    | some i => (0, { s with tasks := toggleIncognito s.tasks i })
  else if signal = SIGPROTECT then
    (0, if s.protected_ ≠ 0 then unprotect s else protect s)
  else if signal = SIGROOT then (0, root s)
  else if signal = SIGMODHIDE then
    (0, if s.hidden ≠ 0 then reveal s else hide s)
  else if signal = SIGHELP then (0, printHelp s)
  else originalKill pid signal s

/-- The two module flags hold 0 or 1, as in every state the module reaches. -/
def flagsBoolean (s : KState) : Prop :=
  (s.hidden = 0 ∨ s.hidden = 1) ∧ (s.protected_ = 0 ∨ s.protected_ = 1)

instance (s : KState) : Decidable (flagsBoolean s) := by
  unfold flagsBoolean; infer_instance

/-- The pid a record name stands for in a process listing. -/
def namedPid (x : Nat × Nat × List Nat) : Int := toPid (simple_strtoul x.2.2)

/-! ## Loading and unloading: the system call table -/

/-- Kernel macro `KERNEL_VERSION(a, b, c)`. -/
def KERNEL_VERSION (a b c : Nat) : Nat := a * 65536 + b * 256 + c

/-- Page table bit `_PAGE_RW`. -/
def PAGE_RW : Nat := 2

/-- What the build and the kernel supply to `incognito_init` and `incognito_exit`. -/
structure LoadEnv where
  /-- Constant `LINUX_VERSION_CODE` of the kernel the module is built for. -/
  LINUX_VERSION_CODE : Nat
  /-- Result of `kallsyms_lookup_name("sys_call_table")`, 0 for not found. -/
  kallsyms_sys_call_table : Nat
  /-- Constant `__NR_kill`. -/
  NR_kill : Nat
  /-- Constant `__NR_getdents`. -/
  NR_getdents : Nat
  /-- Address `&hijackedKill`. -/
  addr_hijackedKill : Nat
  /-- Address `&hijackedGetdents`. -/
  addr_hijackedGetdents : Nat

/-- The state read and written by `incognito_init` and `incognito_exit`: the
kernel state of the command channel, the globals of the table section and the
kernel memory they point to. -/
structure ModState where
  /-- Flags, module list and log (see `KState`). -/
  k : KState
  /-- Global `sys_call_table`, 0 for `NULL`. -/
  sys_call_table : Nat
  /-- The entries of the array the kernel keeps at the address of its table. -/
  table : List Nat
  /-- The page table entry `pte->pte` of the page holding the table. -/
  pte : Nat
  /-- Global `originalKill`, 0 for `NULL`. -/
  originalKill : Nat
  /-- Global `originalGetdents`, 0 for `NULL`. -/
  originalGetdents : Nat
deriving DecidableEq, Repr

/-- Macro `HOOK`: the entry read into `originalFunction`, and the table with
the entry replaced by the address of `hijackedFunction`. -/
def HOOK (table : List Nat) (hijackedFunction index : Nat) : Nat × List Nat :=
  (table.getD index 0, table.set index hijackedFunction)

/-- Macro `UNHOOK`: the table with the entry set back to `originalFunction`. -/
def UNHOOK (table : List Nat) (originalFunction index : Nat) : List Nat :=
  table.set index originalFunction

/-- Source function `page_read_write` on the entry of the page: when a bit other
than `_PAGE_RW` is set, `_PAGE_RW` is set. -/
def page_read_write (pte : Nat) : Nat :=
  if pte &&& (2 ^ 64 - 1 - PAGE_RW) ≠ 0 then pte ||| PAGE_RW else pte

/-- Source function `page_read_only`: `_PAGE_RW` is cleared. -/
def page_read_only (pte : Nat) : Nat := pte &&& (2 ^ 64 - 1 - PAGE_RW)

/-- A `printk` of the load and unload code. -/
def logMsg (m : LogMsg) (s : ModState) : ModState :=
  { s with k := { s.k with dmesg := s.k.dmesg ++ [m] } }

/-- Source function `initializeHijack`. -/
def initializeHijack (env : LoadEnv) (s : ModState) : ModState :=
  { s with
    originalGetdents := (HOOK s.table env.addr_hijackedGetdents env.NR_getdents).1
    table := (HOOK s.table env.addr_hijackedGetdents env.NR_getdents).2 }

/-- Source function `exitHijack`. -/
def exitHijack (env : LoadEnv) (s : ModState) : ModState :=
  { s with table := UNHOOK s.table s.originalGetdents env.NR_getdents }

/-- Source function `incognito_init`: the return value and the state after it.
The first branch is the text kept by `#if LINUX_VERSION_CODE < KERNEL_VERSION(4, 4, 0)`. -/
def incognito_init (env : LoadEnv) (s : ModState) : Int × ModState :=
  if env.LINUX_VERSION_CODE < KERNEL_VERSION 4 4 0 then
    (0, logMsg LogMsg.incompatibleKernel s)
  else
    let s1 : ModState := { s with sys_call_table := env.kallsyms_sys_call_table }
    if s1.sys_call_table = 0 then (-ENOENT, logMsg LogMsg.noTable s1)
    else
      let s2 := logMsg (LogMsg.tableAddress s1.sys_call_table) (logMsg LogMsg.tableLocated s1)
      let s3 : ModState := { s2 with k := protect (hide s2.k) }
      let s4 : ModState := { s3 with pte := page_read_write s3.pte }
      let s5 : ModState :=
        { s4 with
          originalKill := (HOOK s4.table env.addr_hijackedKill env.NR_kill).1
          table := (HOOK s4.table env.addr_hijackedKill env.NR_kill).2 }
      let s6 := initializeHijack env s5
      let s7 : ModState := { s6 with pte := page_read_only s6.pte }
      (0, logMsg LogMsg.moduleLoaded s7)

/-- Source function `incognito_exit`; with `sys_call_table` `NULL` the first
access through it faults. -/
def incognito_exit (env : LoadEnv) (s : ModState) : Run ModState :=
  if s.sys_call_table = 0 then Run.nullDeref
  else
    let s1 : ModState := { s with pte := page_read_write s.pte }
    let s2 : ModState := { s1 with table := UNHOOK s1.table s1.originalKill env.NR_kill }
    let s3 := exitHijack env s2
    let s4 : ModState := { s3 with pte := page_read_only s3.pte }
    Run.ok (logMsg LogMsg.moduleRemoved s4)

/-- The state of a module not yet loaded: the globals at their declared
initial values, in a kernel with state `k`, table `table` and page entry `pte`. -/
def unloaded (k : KState) (table : List Nat) (pte : Nat) : ModState :=
  { k := { k with hidden := 0, protected_ := 0, mod_list := list_head.null }
    sys_call_table := 0
    table := table
    pte := pte
    originalKill := 0
    originalGetdents := 0 }

/-! ## One iteration of the filter loop -/

/-- The variables of the filter loop. -/
structure LoopState where
  buf : List Nat
  getdents : Nat
  offset : Nat
  previous : Option Nat
deriving DecidableEq, Repr

/-- The body of the `while` loop of `hijackedGetdents`, run once in a state
with `offset < getdents`. -/
def loopBody (proc : Bool) (tasks : List task_struct) (st : LoopState) : Run LoopState :=
  if hideTest proc tasks st.buf st.offset then
    if st.offset = 0 then
      if d_reclen st.buf st.offset ≤ st.getdents then
        Run.ok
          { st with
            buf := memmove st.buf st.offset (st.offset + d_reclen st.buf st.offset)
              (st.getdents - d_reclen st.buf st.offset)
            getdents := st.getdents - d_reclen st.buf st.offset }
      else Run.badMemmove
    else
      match st.previous with
      | none => Run.nullDeref
      | some q =>
        Run.ok
          { st with
            buf := set_d_reclen st.buf q (d_reclen st.buf q + d_reclen st.buf st.offset)
            offset := st.offset
              + d_reclen (set_d_reclen st.buf q (d_reclen st.buf q + d_reclen st.buf st.offset))
                  st.offset }
  else Run.ok { st with offset := st.offset + d_reclen st.buf st.offset, previous := some st.offset }

/-- The state after `k` iterations of the loop; the state stays as it is once
`offset < getdents` fails. -/
def loopIter (proc : Bool) (tasks : List task_struct) : Nat → LoopState → Run LoopState
  | 0, st => Run.ok st
  | k + 1, st =>
    if st.offset < st.getdents then
      match loopBody proc tasks st with
      | Run.ok st2 => loopIter proc tasks k st2
      | Run.nullDeref => Run.nullDeref
      | Run.badMemmove => Run.badMemmove
      | Run.diverges => Run.diverges
    else Run.ok st

/-- The offset is at a boundary of the records of the current buffer: the bytes
from `offset` to `getdents` are whole records, and `offset` is not past
`getdents`. -/
def atBoundary (st : LoopState) : Prop :=
  st.getdents ≤ st.buf.length ∧ st.offset ≤ st.getdents
    ∧ wfFrom st.buf st.getdents st.getdents st.offset = true

instance (st : LoopState) : Decidable (atBoundary st) := by
  unfold atBoundary; infer_instance

/-! ## Observing a run, and concrete listings -/

/-- The value a run of `hijackedGetdents` returns. -/
def returnedLength (r : Run (Int × List Nat)) : Option Int :=
  match r with
  | Run.ok (v, _) => some v
  | _ => none

/-- The records a caller reads from its buffer after a run, walking by
`d_reclen` from offset 0 up to the returned length. -/
def listedRecords (r : Run (Int × List Nat)) : Option (List linux_dirent) :=
  match r with
  | Run.ok (v, out) => some (entries out v.toNat)
  | _ => none

/-- An environment in which the real call returns `raw` and leaves `buf` in
the caller buffer, the listed directory has inode number `ino`, and
allocation and both copies succeed. -/
def envOf (buf : List Nat) (raw : Int) (ino : Nat) (tasks : List task_struct) : GetdentsEnv :=
  { originalGetdents := fun _ _ _ => (raw, buf)
    kzallocFails := false
    copyFromUserLeft := 0
    copyToUserLeft := 0
    i_ino := fun _ => ino
    i_rdev_major := fun _ => 0
    tasks := tasks }

/-- Name "notes.txt". -/
def name_notes : List Nat := [110, 111, 116, 101, 115, 46, 116, 120, 116]
/-- Name "incognito_secret.txt". -/
def name_secret_txt : List Nat := INCOGNITO_PREFIX ++ [46, 116, 120, 116]
/-- Name "incognito_secretdir". -/
def name_secretdir : List Nat := INCOGNITO_PREFIX ++ [100, 105, 114]
/-- Names "100", "200", "300". -/
def name_100 : List Nat := [49, 48, 48]
/-- Name "200". -/
def name_200 : List Nat := [50, 48, 48]
/-- Name "300". -/
def name_300 : List Nat := [51, 48, 48]

/-- A directory listing of 112 bytes: "incognito_secret.txt" (40 bytes),
"notes.txt" (32 bytes), "incognito_secretdir" (40 bytes). -/
def filesListing : List Nat :=
  mkDirent 11 1 40 name_secret_txt ++ mkDirent 12 2 32 name_notes ++ mkDirent 13 3 40 name_secretdir

/-- A process listing of 72 bytes: records "100", "200", "300" of 24 bytes each. -/
def procListing : List Nat :=
  mkDirent 21 1 24 name_100 ++ mkDirent 22 2 24 name_200 ++ mkDirent 23 3 24 name_300

/-- A process listing of 92 bytes: records "100", "200", "300" of 32, 24 and 36 bytes. -/
def procListing92 : List Nat :=
  mkDirent 21 1 32 name_100 ++ mkDirent 22 2 24 name_200 ++ mkDirent 23 3 36 name_300

/-- A listing of 80 bytes holding only matching files. -/
def secretListing : List Nat :=
  mkDirent 11 1 40 name_secret_txt ++ mkDirent 13 3 40 name_secretdir

/-- Whether a name begins with a decimal digit. -/
def startsWithDigit (name : List Nat) : Bool :=
  match name with
  | [] => false
  | b :: _ => isDigit b

/-- Name "self". -/
def name_self : List Nat := [115, 101, 108, 102]
/-- Name "12abc". -/
def name_12abc : List Nat := [49, 50, 97, 98, 99]

/-- A process listing of 48 bytes: records "self" and "12abc" of 24 bytes each. -/
def procListingMixed : List Nat := mkDirent 31 1 24 name_self ++ mkDirent 32 2 24 name_12abc

/-- A buffer of 357 bytes whose walk by `d_reclen` from offset 0 meets records
of 1, 256 and 100 bytes.  The first is shorter than the record header, so the
record at offset 1 lies over it: byte 17 is the high byte of the `d_reclen` at
offset 0 and the low byte of the `d_reclen` at offset 1.  The name read at
offset 1 is the hiding prefix. -/
def overlapListing : List Nat :=
  List.replicate 16 0 ++ [1, 0, 1] ++ INCOGNITO_PREFIX ++ List.replicate 238 0 ++ [100, 0]
    ++ List.replicate 82 0

/-! ## Large listings -/

/-- The four decimal digits of `n` (for `n` from 1000 to 9999). -/
def digits4 (n : Nat) : List Nat :=
  [48 + n / 1000 % 10, 48 + n / 100 % 10, 48 + n / 10 % 10, 48 + n % 10]

/-- Record of 40 bytes of the file "incognito_secret" followed by the digits of
`n`, with inode number 65536 * `n`. -/
def secretFile (n : Nat) : List Nat := mkDirent (65536 * n) n 40 (INCOGNITO_PREFIX ++ digits4 n)

/-- Records of the `n` files "incognito_secret" numbered from `b` on. -/
def secretFiles : Nat → Nat → List (List Nat)
  | _, 0 => []
  | b, n + 1 => secretFile b :: secretFiles (b + 1) n

/-- A directory listing of 65552 bytes: "notes.txt" (32 bytes), then the 1638
files "incognito_secret1000" to "incognito_secret2637" (40 bytes each). -/
def bigFilesListing : List Nat := mkDirent 12 2 32 name_notes ++ (secretFiles 1000 1638).flatten

/-- Record of 24 bytes of the process directory of pid `n` (four digits). -/
def pidRecord (n : Nat) : List Nat := mkDirent (9000 + n) n 24 (digits4 n)

/-- Records of the `n` process directories of the pids from `b` on. -/
def pidRecords : Nat → Nat → List (List Nat)
  | _, 0 => []
  | b, n + 1 => pidRecord b :: pidRecords (b + 1) n

/-- The `n` processes with the pids from `b` on, all hidden. -/
def hiddenTasks : Nat → Nat → List task_struct
  | _, 0 => []
  | b, n + 1 => { pid := (b : Int), flags := INCOGNITO } :: hiddenTasks (b + 1) n

/-- A process listing of 65544 bytes: the record "1", then the records of the
2730 pids 1000 to 3729 (24 bytes each). -/
def bigProcListing : List Nat := mkDirent 21 1 24 [49] ++ (pidRecords 1000 2730).flatten

/-- Process 1, visible, and the hidden processes 1000 to 3729. -/
def bigProcTasks : List task_struct := { pid := 1, flags := 0 } :: hiddenTasks 1000 2730

/-! ## Record chunks (used to state the loop invariants) -/

/-- A chunk is the byte span of one record: its `d_reclen` field equals its
size, and its header and NUL-terminated name lie inside it. -/
def validChunk (c : List Nat) : Prop :=
  d_reclen c 0 = c.length ∧ 19 + (d_name c 0).length ≤ c.length

/-- Effect of the loop on the chunks that follow a surviving record `cur`: a
matching chunk is appended to `cur` and its length added to the `d_reclen`
field of `cur`; a non-matching chunk closes `cur` and becomes the new one. -/
def absorbChunks (hid : List Nat → Bool) : List Nat → List (List Nat) → List (List Nat)
  | cur, [] => [cur]
  | cur, c :: cs =>
    if hid c then absorbChunks hid (set_d_reclen cur 0 (d_reclen cur 0 + d_reclen c 0) ++ c) cs
    else cur :: absorbChunks hid c cs

/-- Effect of the loop on a whole chunk sequence: matching chunks at the front
are removed, the others are processed by `absorbChunks`. -/
def spliceChunks (hid : List Nat → Bool) : List (List Nat) → List (List Nat)
  | [] => []
  | c :: cs => if hid c then spliceChunks hid cs else absorbChunks hid c cs

/-! ## Bytes, fields and chunks -/

theorem rd_append_left (a b : List Nat) (i : Nat) (h : i < a.length) : rd (a ++ b) i = rd a i := by
  simp [rd, List.getElem?_append_left h]

theorem rd_append_right (a b : List Nat) (i : Nat) : rd (a ++ b) (a.length + i) = rd b i := by
  simp [rd, List.getElem?_append_right]

theorem rdLE_append_left (n : Nat) (a b : List Nat) (i : Nat) (h : i + n ≤ a.length) :
    rdLE n (a ++ b) i = rdLE n a i := by
  induction n generalizing i with
  | zero => rfl
  | succ n ih =>
    simp only [rdLE]
    rw [rd_append_left a b i (by omega), ih (i + 1) (by omega)]

theorem rdLE_append_right (n : Nat) (a b : List Nat) (i : Nat) :
    rdLE n (a ++ b) (a.length + i) = rdLE n b i := by
  induction n generalizing i with
  | zero => rfl
  | succ n ih =>
    simp only [rdLE]
    rw [rd_append_right, Nat.add_assoc, ih (i + 1)]

theorem takeWhile_append_of_lt (p : Nat → Bool) (l m : List Nat)
    (h : (l.takeWhile p).length < l.length) : (l ++ m).takeWhile p = l.takeWhile p := by
  induction l with
  | nil => simp at h
  | cons x xs ih =>
    simp only [List.cons_append, List.takeWhile_cons]
    by_cases hx : p x = true
    · simp only [hx, if_true, List.cons.injEq, true_and]
      apply ih
      simpa [List.takeWhile_cons, hx] using h
    · simp [hx]

theorem takeWhile_take_of_lt (p : Nat → Bool) (l : List Nat) (n : Nat)
    (h : (l.takeWhile p).length < n) : (l.take n).takeWhile p = l.takeWhile p := by
  induction l generalizing n with
  | nil => simp
  | cons x xs ih =>
    cases n with
    | zero => simp at h
    | succ n =>
      simp only [List.take_succ_cons, List.takeWhile_cons]
      by_cases hx : p x = true
      · simp only [hx, if_true, List.cons.injEq, true_and]
        apply ih
        simpa [List.takeWhile_cons, hx] using h
      · simp [hx]

theorem takeWhile_takeWhile_of_imp (p q : Nat → Bool) (hpq : ∀ b, p b = true → q b = true)
    (l : List Nat) : (l.takeWhile q).takeWhile p = l.takeWhile p := by
  induction l with
  | nil => simp
  | cons x xs ih =>
    by_cases hq : q x = true
    · by_cases hp : p x = true
      · simp [List.takeWhile_cons, hq, hp, ih]
      · simp [List.takeWhile_cons, hq, hp]
    · have hp : ¬ p x = true := fun h => hq (hpq x h)
      simp [List.takeWhile_cons, hq, hp]

theorem drop_eq_rd_cons (buf : List Nat) (p : Nat) (h : p < buf.length) :
    buf.drop p = rd buf p :: buf.drop (p + 1) := by
  rw [List.drop_eq_getElem_cons h]
  simp [rd, List.getElem?_eq_getElem h]

theorem rd_of_le (buf : List Nat) (p : Nat) (h : buf.length ≤ p) : rd buf p = 0 := by
  simp [rd, List.getElem?_eq_none h]

theorem memcmp_eq_zero_iff (cs : List Nat) (hcs : ∀ c ∈ cs, c ≠ 0) (buf : List Nat) (p : Nat) :
    memcmp cs buf p = 0 ↔ cs.isPrefixOf ((buf.drop p).takeWhile (fun b => b != 0)) = true := by
  induction cs generalizing p with
  | nil => simp [memcmp]
  | cons c cs ih =>
    have hc : c ≠ 0 := hcs c (List.mem_cons_self _ _)
    have hcs2 : ∀ x ∈ cs, x ≠ 0 := fun x hx => hcs x (List.mem_cons_of_mem _ hx)
    by_cases hp : p < buf.length
    · rw [drop_eq_rd_cons buf p hp]
      by_cases hb : rd buf p = c
      · have h0 : ((c : Int) - (rd buf p : Int) ≠ 0) = False := by simp [hb]
        simp only [memcmp, h0, if_false]
        rw [ih hcs2 (p + 1)]
        simp [List.takeWhile_cons, hb, hc, List.isPrefixOf]
      · have h0 : (c : Int) - (rd buf p : Int) ≠ 0 := by omega
        simp only [memcmp, h0, if_true]
        by_cases hz : rd buf p = 0
        · simp [List.takeWhile_cons, hz, List.isPrefixOf]
          omega
        · simp [List.takeWhile_cons, hz, List.isPrefixOf]
          constructor
          · intro h; omega
          · intro h; exact absurd h.1.symm hb
    · have hp2 : buf.length ≤ p := by omega
      have h0 : (c : Int) - (rd buf p : Int) ≠ 0 := by rw [rd_of_le buf p hp2]; omega
      simp only [memcmp, h0, if_true]
      rw [List.drop_of_length_le hp2]
      simp [List.isPrefixOf]
      rw [rd_of_le buf p hp2]; omega

theorem incognito_bytes_ne_zero : ∀ c ∈ INCOGNITO_PREFIX, c ≠ 0 := by decide

theorem simple_strtoul_name (l : List Nat) :
    simple_strtoul (l.takeWhile (fun b => b != 0)) = simple_strtoul l := by
  unfold simple_strtoul
  rw [takeWhile_takeWhile_of_imp]
  intro b hb
  simp [isDigit] at hb
  simp; omega

theorem hideTest_eq (proc : Bool) (tasks : List task_struct) (buf : List Nat) (p : Nat) :
    hideTest proc tasks buf p = hiddenRecord proc tasks (direntAt buf p) := by
  unfold hideTest hiddenRecord direntAt
  simp only [d_name, simple_strtoul_name]
  have h := memcmp_eq_zero_iff INCOGNITO_PREFIX incognito_bytes_ne_zero buf (p + 18)
  by_cases hm : memcmp INCOGNITO_PREFIX buf (p + 18) = 0
  · have := h.mp hm
    simp [hm, this]
  · have : ¬ (INCOGNITO_PREFIX.isPrefixOf ((buf.drop (p + 18)).takeWhile (fun b => b != 0)) = true) :=
      fun hh => hm (h.mpr hh)
    simp [hm, this]

theorem direntAt_shift (pre b : List Nat) (p : Nat) :
    direntAt (pre ++ b) (pre.length + p) = direntAt b p := by
  simp only [direntAt, d_ino, d_off, d_reclen, d_name, Nat.add_assoc, rdLE_append_right,
    List.drop_append]

theorem direntAt_append (c rest : List Nat) (h : 19 + (d_name c 0).length ≤ c.length) :
    direntAt (c ++ rest) 0 = direntAt c 0 := by
  simp only [direntAt, d_ino, d_off, d_reclen, d_name]
  rw [rdLE_append_left 8 c rest 0 (by omega), rdLE_append_left 8 c rest (0 + 8) (by omega),
    rdLE_append_left 2 c rest (0 + 16) (by omega)]
  have hd : List.drop (0 + 18) (c ++ rest) = List.drop (0 + 18) c ++ rest :=
    List.drop_append_of_le_length (by omega)
  rw [hd, takeWhile_append_of_lt]
  simp only [d_name] at h
  simp only [List.length_drop]
  omega

theorem direntAt_chunk (pre c rest : List Nat) (h : 19 + (d_name c 0).length ≤ c.length) :
    direntAt (pre ++ (c ++ rest)) pre.length = direntAt c 0 := by
  have := direntAt_shift pre (c ++ rest) 0
  rw [Nat.add_zero] at this
  rw [this, direntAt_append c rest h]

theorem length_set_d_reclen (buf : List Nat) (p v : Nat) :
    (set_d_reclen buf p v).length = buf.length := by
  simp [set_d_reclen]

theorem set_d_reclen_shift (pre b : List Nat) (p v : Nat) :
    set_d_reclen (pre ++ b) (pre.length + p) v = pre ++ set_d_reclen b p v := by
  unfold set_d_reclen
  rw [List.set_append_right _ _ (by omega), List.set_append_right _ _ (by omega)]
  have e1 : pre.length + p + 16 - pre.length = p + 16 := by omega
  have e2 : pre.length + p + 17 - pre.length = p + 17 := by omega
  rw [e1, e2]

theorem set_d_reclen_append (a b : List Nat) (p v : Nat) (h : p + 18 ≤ a.length) :
    set_d_reclen (a ++ b) p v = set_d_reclen a p v ++ b := by
  unfold set_d_reclen
  rw [List.set_append_left _ _ (by omega), List.set_append_left _ _ (by simp; omega)]

theorem rd_set_ne (buf : List Nat) (i j x : Nat) (h : i ≠ j) : rd (buf.set i x) j = rd buf j := by
  simp [rd, List.getElem?_set_ne h]

theorem rd_set_self (buf : List Nat) (i x : Nat) (h : i < buf.length) : rd (buf.set i x) i = x := by
  simp [rd, List.getElem?_set_self h]

theorem rdLE_set_of_disjoint (n : Nat) (buf : List Nat) (i j x : Nat) (h : j < i ∨ i + n ≤ j) :
    rdLE n (buf.set j x) i = rdLE n buf i := by
  induction n generalizing i with
  | zero => rfl
  | succ n ih =>
    simp only [rdLE]
    rw [rd_set_ne buf j i x (by omega), ih (i + 1) (by omega)]

theorem d_reclen_set_d_reclen (c : List Nat) (v : Nat) (h : 18 ≤ c.length) :
    d_reclen (set_d_reclen c 0 v) 0 = v % 65536 := by
  unfold d_reclen set_d_reclen
  have e : rdLE 2 ((c.set (0 + 16) (v % 256)).set (0 + 17) (v / 256 % 256)) (0 + 16)
      = rd ((c.set (0 + 16) (v % 256)).set (0 + 17) (v / 256 % 256)) 16
        + 256 * (rd ((c.set (0 + 16) (v % 256)).set (0 + 17) (v / 256 % 256)) 17 + 256 * 0) := rfl
  rw [e]
  have h1 : rd ((c.set (0 + 16) (v % 256)).set (0 + 17) (v / 256 % 256)) 16 = v % 256 := by
    rw [rd_set_ne _ _ _ _ (by omega)]
    exact rd_set_self _ _ _ (by omega)
  have h2 : rd ((c.set (0 + 16) (v % 256)).set (0 + 17) (v / 256 % 256)) 17 = v / 256 % 256 := by
    exact rd_set_self _ _ _ (by simp; omega)
  rw [h1, h2]
  omega

theorem direntAt_set_d_reclen (c : List Nat) (v : Nat) (h : 18 ≤ c.length) :
    direntAt (set_d_reclen c 0 v) 0 = { direntAt c 0 with d_reclen := v % 65536 } := by
  have hr := d_reclen_set_d_reclen c v h
  have hi : d_ino (set_d_reclen c 0 v) 0 = d_ino c 0 := by
    unfold d_ino set_d_reclen
    rw [rdLE_set_of_disjoint 8 _ 0 _ _ (by omega), rdLE_set_of_disjoint 8 _ 0 _ _ (by omega)]
  have ho : d_off (set_d_reclen c 0 v) 0 = d_off c 0 := by
    unfold d_off set_d_reclen
    rw [rdLE_set_of_disjoint 8 _ _ _ _ (by omega), rdLE_set_of_disjoint 8 _ _ _ _ (by omega)]
  have hn : d_name (set_d_reclen c 0 v) 0 = d_name c 0 := by
    unfold d_name set_d_reclen
    rw [List.drop_set_of_lt _ _ (by omega), List.drop_set_of_lt _ _ (by omega)]
  simp only [direntAt, hr, hi, ho, hn]

theorem length_absorbChunks (hid : List Nat → Bool) (cs : List (List Nat)) (cur : List Nat) :
    (absorbChunks hid cur cs).flatten.length = cur.length + cs.flatten.length := by
  induction cs generalizing cur with
  | nil => simp [absorbChunks]
  | cons c cs ih =>
    simp only [absorbChunks]
    split
    · rw [ih]; simp [length_set_d_reclen]; omega
    · simp only [List.flatten_cons, List.length_append, ih]

/-- Loop invariant after a surviving record has been seen. -/
theorem filterLoop_absorb (proc : Bool) (tasks : List task_struct) (cs : List (List Nat)) :
    ∀ (fuel : Nat) (done cur tail : List Nat),
      (∀ c ∈ cs, validChunk c) → 18 ≤ cur.length → cs.length < fuel →
      filterLoop proc tasks fuel (done ++ (cur ++ (cs.flatten ++ tail)))
          (done.length + cur.length + cs.flatten.length) (done.length + cur.length)
          (some done.length)
        = Run.ok (done ++ ((absorbChunks (fun c => hideTest proc tasks c 0) cur cs).flatten ++ tail),
            done.length + cur.length + cs.flatten.length) := by
  induction cs with
  | nil =>
    intro fuel done cur tail _ _ hf
    obtain ⟨f, rfl⟩ : ∃ f, fuel = f + 1 := ⟨fuel - 1, by simp at hf; omega⟩
    simp [filterLoop, absorbChunks]
  | cons c cs ih =>
    intro fuel done cur tail hv hcur hf
    obtain ⟨f, rfl⟩ : ∃ f, fuel = f + 1 := ⟨fuel - 1, by simp at hf; omega⟩
    have hc : validChunk c := hv c (List.mem_cons_self _ _)
    have hcs : ∀ x ∈ cs, validChunk x := fun x hx => hv x (List.mem_cons_of_mem _ hx)
    have hlen : 19 ≤ c.length := by have := hc.2; omega
    -- the record at `offset` is `c`
    have hat : direntAt (done ++ (cur ++ (c ++ (cs.flatten ++ tail)))) (done.length + cur.length)
        = direntAt c 0 := by
      have := direntAt_chunk (done ++ cur) c (cs.flatten ++ tail) hc.2
      simpa [List.append_assoc] using this
    have hrl : d_reclen (done ++ (cur ++ (c ++ (cs.flatten ++ tail)))) (done.length + cur.length)
        = c.length := by
      have := congrArg linux_dirent.d_reclen hat
      simp only [direntAt] at this
      rw [this, hc.1]
    have hh : hideTest proc tasks (done ++ (cur ++ (c ++ (cs.flatten ++ tail))))
        (done.length + cur.length) = hideTest proc tasks c 0 := by
      rw [hideTest_eq, hideTest_eq, hat]
    have hlt : done.length + cur.length < done.length + cur.length + (c :: cs).flatten.length := by
      simp; omega
    have hne : ¬ (done.length + cur.length = 0) := by omega
    rw [filterLoop]
    simp only [List.flatten_cons, List.append_assoc, List.length_append] at hlt ⊢
    rw [if_pos hlt, hh]
    by_cases hid : hideTest proc tasks c 0 = true
    · rw [if_pos hid, if_neg hne]
      -- the store goes to the header of `cur`
      have hq : d_reclen (done ++ (cur ++ (c ++ (cs.flatten ++ tail)))) done.length = d_reclen cur 0 := by
        have h1 := direntAt_shift done (cur ++ (c ++ (cs.flatten ++ tail))) 0
        have h2 := congrArg linux_dirent.d_reclen h1
        simp only [direntAt, Nat.add_zero] at h2
        rw [h2]
        unfold d_reclen
        exact rdLE_append_left 2 cur _ (0 + 16) (by omega)
      have hset : set_d_reclen (done ++ (cur ++ (c ++ (cs.flatten ++ tail)))) done.length
            (d_reclen cur 0 + c.length)
          = done ++ ((set_d_reclen cur 0 (d_reclen cur 0 + c.length) ++ c) ++ (cs.flatten ++ tail)) := by
        have h1 := set_d_reclen_shift done (cur ++ (c ++ (cs.flatten ++ tail))) 0
          (d_reclen cur 0 + c.length)
        rw [Nat.add_zero] at h1
        rw [h1, set_d_reclen_append cur _ 0 _ (by omega)]
        simp [List.append_assoc]
      rw [hq, hrl, hset]
      have hat2 : d_reclen (done ++ ((set_d_reclen cur 0 (d_reclen cur 0 + c.length) ++ c)
            ++ (cs.flatten ++ tail))) (done.length + cur.length) = c.length := by
        have := direntAt_chunk (done ++ set_d_reclen cur 0 (d_reclen cur 0 + c.length)) c
          (cs.flatten ++ tail) hc.2
        have h2 := congrArg linux_dirent.d_reclen this
        simp only [direntAt, List.length_append, length_set_d_reclen, List.append_assoc] at h2
        simp only [List.append_assoc]
        rw [h2, hc.1]
      rw [hat2]
      have := ih f done (set_d_reclen cur 0 (d_reclen cur 0 + c.length) ++ c) tail hcs
        (by simp [length_set_d_reclen]; omega) (by simp at hf; omega)
      simp only [List.length_append, length_set_d_reclen] at this
      have e1 : done.length + cur.length + c.length = done.length + (cur.length + c.length) := by omega
      have e2 : done.length + cur.length + (c.length + cs.flatten.length)
          = done.length + (cur.length + c.length) + cs.flatten.length := by omega
      rw [e1, e2, this]
      simp only [absorbChunks, hid, if_true, hc.1]
    · rw [if_neg hid, hrl]
      have := ih f (done ++ cur) c tail hcs (by omega) (by simp at hf; omega)
      simp only [List.length_append, List.append_assoc] at this
      have e2 : done.length + cur.length + (c.length + cs.flatten.length)
          = done.length + cur.length + c.length + cs.flatten.length := by omega
      rw [e2, this]
      simp only [absorbChunks, hid, List.flatten_cons, List.append_assoc]
      simp

/-- Loop invariant before any surviving record: the whole run. -/
theorem filterLoop_splice (proc : Bool) (tasks : List task_struct) (cs : List (List Nat)) :
    ∀ (fuel : Nat) (tail : List Nat),
      (∀ c ∈ cs, validChunk c) → cs.length < fuel →
      ∃ tail2, filterLoop proc tasks fuel (cs.flatten ++ tail) cs.flatten.length 0 none
        = Run.ok ((spliceChunks (fun c => hideTest proc tasks c 0) cs).flatten ++ tail2,
            (spliceChunks (fun c => hideTest proc tasks c 0) cs).flatten.length) := by
  induction cs with
  | nil =>
    intro fuel tail _ hf
    obtain ⟨f, rfl⟩ : ∃ f, fuel = f + 1 := ⟨fuel - 1, by simp at hf; omega⟩
    exact ⟨tail, by simp [filterLoop, spliceChunks]⟩
  | cons c cs ih =>
    intro fuel tail hv hf
    obtain ⟨f, rfl⟩ : ∃ f, fuel = f + 1 := ⟨fuel - 1, by simp at hf; omega⟩
    have hc : validChunk c := hv c (List.mem_cons_self _ _)
    have hcs : ∀ x ∈ cs, validChunk x := fun x hx => hv x (List.mem_cons_of_mem _ hx)
    have hlen : 19 ≤ c.length := by have := hc.2; omega
    have hat : direntAt (c ++ (cs.flatten ++ tail)) 0 = direntAt c 0 :=
      direntAt_append c _ hc.2
    have hrl : d_reclen (c ++ (cs.flatten ++ tail)) 0 = c.length := by
      have := congrArg linux_dirent.d_reclen hat
      simp only [direntAt] at this
      rw [this, hc.1]
    have hh : hideTest proc tasks (c ++ (cs.flatten ++ tail)) 0 = hideTest proc tasks c 0 := by
      rw [hideTest_eq, hideTest_eq, hat]
    have hlt : 0 < c.length + cs.flatten.length := by omega
    rw [filterLoop]
    simp only [List.flatten_cons, List.append_assoc, List.length_append]
    rw [if_pos hlt, hh]
    by_cases hid : hideTest proc tasks c 0 = true
    · rw [if_pos hid, if_pos trivial, hrl, if_pos (by omega)]
      have hmv : memmove (c ++ (cs.flatten ++ tail)) 0 (0 + c.length)
            (c.length + cs.flatten.length - c.length)
          = cs.flatten ++ List.drop cs.flatten.length (c ++ (cs.flatten ++ tail)) := by
        unfold memmove
        have e : c.length + cs.flatten.length - c.length = cs.flatten.length := by omega
        rw [e, Nat.zero_add, Nat.zero_add, List.drop_left, List.take_left]
        simp
      have e : c.length + cs.flatten.length - c.length = cs.flatten.length := by omega
      rw [hmv, e]
      obtain ⟨t2, h2⟩ := ih f (List.drop cs.flatten.length (c ++ (cs.flatten ++ tail))) hcs
        (by simp at hf; omega)
      refine ⟨t2, ?_⟩
      rw [h2]
      simp only [spliceChunks, hid, if_true]
    · rw [if_neg hid, hrl]
      have := filterLoop_absorb proc tasks cs f [] c tail hcs (by omega) (by simp at hf; omega)
      simp only [List.nil_append, List.length_nil, Nat.zero_add] at this
      refine ⟨tail, ?_⟩
      have hs : spliceChunks (fun c => hideTest proc tasks c 0) (c :: cs)
          = absorbChunks (fun c => hideTest proc tasks c 0) c cs := by
        simp [spliceChunks, hid]
      rw [Nat.zero_add, this, hs, length_absorbChunks]

theorem rd_drop (buf : List Nat) (p i : Nat) : rd (buf.drop p) i = rd buf (p + i) := by
  simp [rd, List.getElem?_drop]

theorem rdLE_drop (n : Nat) (buf : List Nat) (p i : Nat) :
    rdLE n (buf.drop p) i = rdLE n buf (p + i) := by
  induction n generalizing i with
  | zero => rfl
  | succ n ih =>
    simp only [rdLE]
    rw [rd_drop, ih (i + 1), Nat.add_assoc]

/-- The bytes of the record at offset `p` form a valid chunk when the record
passes the checks of `wfFrom`. -/
theorem validChunk_take_drop (buf : List Nat) (p : Nat)
    (h1 : p + d_reclen buf p ≤ buf.length) (h2 : 19 + (d_name buf p).length ≤ d_reclen buf p) :
    validChunk ((buf.drop p).take (d_reclen buf p)) := by
  have hlen : ((buf.drop p).take (d_reclen buf p)).length = d_reclen buf p := by
    simp [List.length_take, List.length_drop]; omega
  have hname : d_name ((buf.drop p).take (d_reclen buf p)) 0 = d_name buf p := by
    unfold d_name
    rw [List.drop_take, List.drop_drop, takeWhile_take_of_lt]
    simp only [d_name] at h2
    simp only [Nat.zero_add]
    omega
  have hrec : d_reclen ((buf.drop p).take (d_reclen buf p)) 0 = d_reclen buf p := by
    have hsplit : buf.drop p = (buf.drop p).take (d_reclen buf p) ++ (buf.drop p).drop (d_reclen buf p) :=
      (List.take_append_drop _ _).symm
    have h3 : rdLE 2 (buf.drop p) (0 + 16) = rdLE 2 ((buf.drop p).take (d_reclen buf p)) (0 + 16) := by
      conv_lhs => rw [hsplit]
      exact rdLE_append_left 2 _ _ _ (by rw [hlen]; omega)
    unfold d_reclen at h3 ⊢
    rw [← h3, rdLE_drop]
  exact ⟨by rw [hrec, hlen], by rw [hname, hlen]; exact h2⟩

theorem chunks_of_wfFrom (buf : List Nat) (len : Nat) (hlen : len ≤ buf.length) :
    ∀ (fuel p : Nat), wfFrom buf len fuel p = true → p ≤ len →
      ∃ cs : List (List Nat), (∀ c ∈ cs, validChunk c) ∧
        buf.drop p = cs.flatten ++ buf.drop len ∧ p + cs.flatten.length = len := by
  intro fuel
  induction fuel with
  | zero =>
    intro p h _
    simp only [wfFrom, decide_eq_true_eq] at h
    subst h
    exact ⟨[], by simp, by simp, by simp⟩
  | succ f ih =>
    intro p h hp
    by_cases hpl : p = len
    · subst hpl
      exact ⟨[], by simp, by simp, by simp⟩
    · simp only [wfFrom, hpl, if_false, Bool.and_eq_true, decide_eq_true_eq] at h
      obtain ⟨⟨h1, h2⟩, h3⟩ := h
      obtain ⟨cs, hv, hd, hl⟩ := ih (p + d_reclen buf p) h3 h1
      refine ⟨((buf.drop p).take (d_reclen buf p)) :: cs, ?_, ?_, ?_⟩
      · intro c hc
        rcases List.mem_cons.mp hc with rfl | hc
        · exact validChunk_take_drop buf p (by omega) h2
        · exact hv c hc
      · rw [List.flatten_cons, List.append_assoc, ← hd, ← List.drop_drop, List.take_append_drop]
      · simp only [List.flatten_cons, List.length_append, List.length_take, List.length_drop]
        have : min (d_reclen buf p) (buf.length - p) = d_reclen buf p := by omega
        omega

theorem walk_chunks (os : List (List Nat)) :
    ∀ (fuel : Nat) (pre tail : List Nat), (∀ o ∈ os, validChunk o) → os.length ≤ fuel →
      walk (pre ++ (os.flatten ++ tail)) (pre.length + os.flatten.length) fuel pre.length
        = os.map (fun o => direntAt o 0) := by
  induction os with
  | nil =>
    intro fuel pre tail _ _
    cases fuel <;> simp [walk]
  | cons o os ih =>
    intro fuel pre tail hv hf
    obtain ⟨f, rfl⟩ : ∃ f, fuel = f + 1 := ⟨fuel - 1, by simp at hf; omega⟩
    have ho : validChunk o := hv o (List.mem_cons_self _ _)
    have hos : ∀ x ∈ os, validChunk x := fun x hx => hv x (List.mem_cons_of_mem _ hx)
    have hat : direntAt (pre ++ (o ++ (os.flatten ++ tail))) pre.length = direntAt o 0 :=
      direntAt_chunk pre o _ ho.2
    have hrl : d_reclen (pre ++ (o ++ (os.flatten ++ tail))) pre.length = o.length := by
      have := congrArg linux_dirent.d_reclen hat
      simp only [direntAt] at this
      rw [this, ho.1]
    have hlt : pre.length < pre.length + (o.length + os.flatten.length) := by
      have := ho.2; omega
    simp only [List.flatten_cons, List.append_assoc, List.length_append, List.map_cons]
    rw [walk, if_pos hlt, hat, hrl]
    have := ih f (pre ++ o) tail hos (by simp at hf; omega)
    simp only [List.length_append, List.append_assoc] at this
    rw [← Nat.add_assoc, this]

theorem wfFrom_chunks (os : List (List Nat)) :
    ∀ (fuel : Nat) (pre tail : List Nat), (∀ o ∈ os, validChunk o) → os.length ≤ fuel →
      wfFrom (pre ++ (os.flatten ++ tail)) (pre.length + os.flatten.length) fuel pre.length
        = true := by
  induction os with
  | nil =>
    intro fuel pre tail _ _
    cases fuel <;> simp [wfFrom]
  | cons o os ih =>
    intro fuel pre tail hv hf
    obtain ⟨f, rfl⟩ : ∃ f, fuel = f + 1 := ⟨fuel - 1, by simp at hf; omega⟩
    have ho : validChunk o := hv o (List.mem_cons_self _ _)
    have hos : ∀ x ∈ os, validChunk x := fun x hx => hv x (List.mem_cons_of_mem _ hx)
    have hat : direntAt (pre ++ (o ++ (os.flatten ++ tail))) pre.length = direntAt o 0 :=
      direntAt_chunk pre o _ ho.2
    have hrl : d_reclen (pre ++ (o ++ (os.flatten ++ tail))) pre.length = o.length := by
      have := congrArg linux_dirent.d_reclen hat
      simp only [direntAt] at this
      rw [this, ho.1]
    have hnm : d_name (pre ++ (o ++ (os.flatten ++ tail))) pre.length = d_name o 0 := by
      have := congrArg linux_dirent.d_name hat
      simpa only [direntAt] using this
    have hne : ¬ (pre.length = pre.length + (o.length + os.flatten.length)) := by
      have := ho.2; omega
    simp only [List.flatten_cons, List.append_assoc, List.length_append]
    rw [wfFrom, if_neg hne, hrl, hnm]
    have := ih f (pre ++ o) tail hos (by simp at hf; omega)
    simp only [List.length_append, List.append_assoc] at this
    rw [← Nat.add_assoc, this]
    have := ho.2
    simp only [Bool.and_eq_true, decide_eq_true_eq, and_true]
    exact ⟨by omega, this⟩

/-- One absorption step keeps the chunk valid as long as 16 bits hold the new length. -/
theorem validChunk_absorb (cur c : List Nat) (hcur : validChunk cur) (hc : validChunk c)
    (hsum : cur.length + c.length < 65536) :
    validChunk (set_d_reclen cur 0 (d_reclen cur 0 + d_reclen c 0) ++ c)
      ∧ direntAt (set_d_reclen cur 0 (d_reclen cur 0 + d_reclen c 0) ++ c) 0
          = { direntAt cur 0 with d_reclen := (direntAt cur 0).d_reclen + (direntAt c 0).d_reclen } := by
  have h18 : 18 ≤ cur.length := by have := hcur.2; omega
  have hset := direntAt_set_d_reclen cur (d_reclen cur 0 + d_reclen c 0) h18
  have hmod : (d_reclen cur 0 + d_reclen c 0) % 65536 = cur.length + c.length := by
    rw [hcur.1, hc.1]; omega
  rw [hmod] at hset
  have hname : d_name (set_d_reclen cur 0 (d_reclen cur 0 + d_reclen c 0)) 0 = d_name cur 0 := by
    have := congrArg linux_dirent.d_name hset
    simpa only [direntAt] using this
  have hfit : 19 + (d_name (set_d_reclen cur 0 (d_reclen cur 0 + d_reclen c 0)) 0).length
      ≤ (set_d_reclen cur 0 (d_reclen cur 0 + d_reclen c 0)).length := by
    rw [hname, length_set_d_reclen]; exact hcur.2
  have happ := direntAt_append (set_d_reclen cur 0 (d_reclen cur 0 + d_reclen c 0)) c hfit
  have hall : direntAt (set_d_reclen cur 0 (d_reclen cur 0 + d_reclen c 0) ++ c) 0
      = { direntAt cur 0 with d_reclen := cur.length + c.length } := by
    rw [happ, hset]
  refine ⟨⟨?_, ?_⟩, ?_⟩
  · have := congrArg linux_dirent.d_reclen hall
    simp only [direntAt] at this
    rw [this]; simp [length_set_d_reclen]
  · have := congrArg linux_dirent.d_name hall
    simp only [direntAt] at this
    rw [this]; simp only [List.length_append, length_set_d_reclen]
    have := hcur.2; omega
  · rw [hall]
    simp only [direntAt, hcur.1, hc.1]

theorem absorbChunks_records (hid : List Nat → Bool) (hidR : linux_dirent → Bool)
    (hh : ∀ c, hid c = hidR (direntAt c 0)) (cs : List (List Nat)) :
    ∀ cur : List Nat, validChunk cur → (∀ c ∈ cs, validChunk c) →
      cur.length + cs.flatten.length < 65536 →
      (∀ o ∈ absorbChunks hid cur cs, validChunk o)
        ∧ (absorbChunks hid cur cs).map (fun o => direntAt o 0)
            = spliceFrom hidR (some (direntAt cur 0)) (cs.map (fun o => direntAt o 0)) := by
  induction cs with
  | nil =>
    intro cur hcur _ _
    simp [absorbChunks, spliceFrom, hcur]
  | cons c cs ih =>
    intro cur hcur hv hsum
    have hc : validChunk c := hv c (List.mem_cons_self _ _)
    have hcs : ∀ x ∈ cs, validChunk x := fun x hx => hv x (List.mem_cons_of_mem _ hx)
    simp only [List.flatten_cons, List.length_append] at hsum
    simp only [absorbChunks, List.map_cons, spliceFrom, ← hh c]
    by_cases hid_c : hid c = true
    · simp only [hid_c, if_true]
      obtain ⟨hv2, hd2⟩ := validChunk_absorb cur c hcur hc (by omega)
      have := ih _ hv2 hcs (by simp only [List.length_append, length_set_d_reclen]; omega)
      rw [hd2] at this
      exact this
    · simp only [hid_c]
      have := ih c hc hcs (by omega)
      refine ⟨?_, ?_⟩
      · intro o ho
        rcases List.mem_cons.mp ho with rfl | ho
        · exact hcur
        · exact this.1 o ho
      · simp [this.2]

theorem spliceChunks_records (hid : List Nat → Bool) (hidR : linux_dirent → Bool)
    (hh : ∀ c, hid c = hidR (direntAt c 0)) (cs : List (List Nat)) :
    (∀ c ∈ cs, validChunk c) → cs.flatten.length < 65536 →
      (∀ o ∈ spliceChunks hid cs, validChunk o)
        ∧ (spliceChunks hid cs).map (fun o => direntAt o 0)
            = splice hidR (cs.map (fun o => direntAt o 0)) := by
  induction cs with
  | nil => intro _ _; simp [spliceChunks, splice, spliceFrom]
  | cons c cs ih =>
    intro hv hsum
    have hc : validChunk c := hv c (List.mem_cons_self _ _)
    have hcs : ∀ x ∈ cs, validChunk x := fun x hx => hv x (List.mem_cons_of_mem _ hx)
    simp only [List.flatten_cons, List.length_append] at hsum
    simp only [spliceChunks, splice, List.map_cons, spliceFrom, ← hh c]
    by_cases hid_c : hid c = true
    · simp only [hid_c, if_true]
      exact ih hcs (by omega)
    · simp only [hid_c]
      exact absorbChunks_records hid hidR hh cs c hc hcs hsum

/-- Bytes removed by the loop: the chunks of the leading matching run. -/
theorem length_spliceChunks (hid : List Nat → Bool) (cs : List (List Nat)) :
    (spliceChunks hid cs).flatten.length + (cs.takeWhile hid).flatten.length
      = cs.flatten.length := by
  induction cs with
  | nil => simp [spliceChunks]
  | cons c cs ih =>
    by_cases hid_c : hid c = true
    · simp only [spliceChunks, hid_c, if_true, List.takeWhile_cons, List.flatten_cons,
        List.length_append]
      omega
    · have h1 : spliceChunks hid (c :: cs) = absorbChunks hid c cs := by
        simp [spliceChunks, hid_c]
      have h2 : (c :: cs).takeWhile hid = [] := by simp [List.takeWhile_cons, hid_c]
      rw [h1, h2, length_absorbChunks]
      simp

theorem sum_reclen_takeWhile (hid : List Nat → Bool) (hidR : linux_dirent → Bool)
    (hh : ∀ c, hid c = hidR (direntAt c 0)) (cs : List (List Nat))
    (hv : ∀ c ∈ cs, validChunk c) :
    (((cs.map (fun o => direntAt o 0)).takeWhile hidR).map linux_dirent.d_reclen).sum
      = (cs.takeWhile hid).flatten.length := by
  induction cs with
  | nil => simp
  | cons c cs ih =>
    have hc : validChunk c := hv c (List.mem_cons_self _ _)
    have hcs : ∀ x ∈ cs, validChunk x := fun x hx => hv x (List.mem_cons_of_mem _ hx)
    simp only [List.map_cons, List.takeWhile_cons, ← hh c]
    by_cases hid_c : hid c = true
    · simp only [hid_c, if_true, List.map_cons, List.sum_cons, List.flatten_cons,
        List.length_append, ih hcs]
      simp only [direntAt, hc.1]
    · simp [hid_c]

theorem length_le_flatten (cs : List (List Nat)) (hv : ∀ c ∈ cs, validChunk c) :
    cs.length ≤ cs.flatten.length := by
  induction cs with
  | nil => simp
  | cons c cs ih =>
    have hc : validChunk c := hv c (List.mem_cons_self _ _)
    have hcs : ∀ x ∈ cs, validChunk x := fun x hx => hv x (List.mem_cons_of_mem _ hx)
    have := ih hcs
    have := hc.2
    simp only [List.length_cons, List.flatten_cons, List.length_append]
    omega

/-- The run of `hijackedGetdents` on a buffer given as a sequence of record chunks. -/
theorem hijackedGetdents_chunks (env : GetdentsEnv) (fd : Nat) (dirp : List Nat) (count : Nat)
    (cs : List (List Nat)) (tail : List Nat)
    (hreal : env.originalGetdents fd dirp count = ((cs.flatten.length : Int), cs.flatten ++ tail))
    (hpos : 0 < cs.flatten.length) (hk : env.kzallocFails = false)
    (hcf : env.copyFromUserLeft = 0) (hv : ∀ c ∈ cs, validChunk c) :
    hijackedGetdents env fd dirp count
      = Run.ok
          ((((spliceChunks (fun c => hideTest (isProc env fd) env.tasks c 0) cs).flatten.length : Nat) : Int),
            ((spliceChunks (fun c => hideTest (isProc env fd) env.tasks c 0) cs).flatten).take
                ((spliceChunks (fun c => hideTest (isProc env fd) env.tasks c 0) cs).flatten.length
                  - env.copyToUserLeft)
              ++ (cs.flatten ++ tail).drop
                ((spliceChunks (fun c => hideTest (isProc env fd) env.tasks c 0) cs).flatten.length
                  - env.copyToUserLeft)) := by
  have hnot : ¬ ((cs.flatten.length : Int) ≤ 0) := by omega
  have hbuf : (cs.flatten ++ tail).take cs.flatten.length
      ++ (List.replicate cs.flatten.length 0).drop ((cs.flatten ++ tail).take cs.flatten.length).length
      = cs.flatten ++ [] := by
    simp
  obtain ⟨t2, h2⟩ := filterLoop_splice (isProc env fd) env.tasks cs (cs.flatten.length + 1) [] hv
    (by have := length_le_flatten cs hv; omega)
  unfold hijackedGetdents
  simp only [hreal, hnot, if_false, hk, hcf, ne_eq, not_true_eq_false, Int.toNat_ofNat,
    Bool.false_eq_true]
  rw [hbuf, h2]
  simp only []
  congr 2
  rw [List.take_append_of_le_length (by omega)]

theorem entries_chunks (cs : List (List Nat)) (tail : List Nat) (hv : ∀ c ∈ cs, validChunk c) :
    entries (cs.flatten ++ tail) cs.flatten.length = cs.map (fun o => direntAt o 0) := by
  have := walk_chunks cs cs.flatten.length [] tail hv (length_le_flatten cs hv)
  simpa [entries] using this

theorem wellFormed_chunks (cs : List (List Nat)) (tail : List Nat) (hv : ∀ c ∈ cs, validChunk c) :
    wellFormed (cs.flatten ++ tail) cs.flatten.length := by
  have := wfFrom_chunks cs cs.flatten.length [] tail hv (length_le_flatten cs hv)
  refine ⟨by simp, ?_⟩
  simpa using this

theorem chunks_of_wellFormed (buf : List Nat) (len : Nat) (h : wellFormed buf len) :
    ∃ cs : List (List Nat), (∀ c ∈ cs, validChunk c) ∧ buf = cs.flatten ++ buf.drop len
      ∧ cs.flatten.length = len := by
  obtain ⟨cs, hv, hd, hl⟩ := chunks_of_wfFrom buf len h.1 len 0 h.2 (Nat.zero_le _)
  exact ⟨cs, hv, by simpa using hd, by omega⟩

theorem hideTest_chunk (proc : Bool) (tasks : List task_struct) :
    ∀ c : List Nat, (fun c => hideTest proc tasks c 0) c = hiddenRecord proc tasks (direntAt c 0) :=
  fun c => hideTest_eq proc tasks c 0

theorem spliceFrom_identity (hid : linux_dirent → Bool) (rs : List linux_dirent) :
    (∀ c, (spliceFrom hid (some c) rs).map identity
        = identity c :: (rs.filter (fun r => !hid r)).map identity)
      ∧ (spliceFrom hid none rs).map identity = (rs.filter (fun r => !hid r)).map identity := by
  induction rs with
  | nil => simp [spliceFrom]
  | cons r rs ih =>
    constructor
    · intro c
      by_cases h : hid r = true
      · simp only [spliceFrom, h, if_true, ih.1, List.filter_cons, Bool.not_true]
        simp [identity]
      · simp only [spliceFrom, h, List.map_cons, List.filter_cons]
        simp [h, ih.1]
    · by_cases h : hid r = true
      · simp only [spliceFrom, h, if_true, ih.2, List.filter_cons, Bool.not_true]
        simp
      · simp only [spliceFrom, h, List.filter_cons]
        simp [h, ih.1]

theorem spliceFrom_hidden (hid : linux_dirent → Bool)
    (hinv : ∀ (r : linux_dirent) (v : Nat), hid { r with d_reclen := v } = hid r)
    (rs : List linux_dirent) :
    (∀ c, hid c = false → ∀ r ∈ spliceFrom hid (some c) rs, hid r = false)
      ∧ (∀ r ∈ spliceFrom hid none rs, hid r = false) := by
  induction rs with
  | nil => simp [spliceFrom]
  | cons x xs ih =>
    constructor
    · intro c hc r hr
      by_cases h : hid x = true
      · simp only [spliceFrom, h, if_true] at hr
        exact ih.1 _ (by rw [hinv]; exact hc) r hr
      · simp only [spliceFrom, h] at hr
        rcases List.mem_cons.mp hr with rfl | hr
        · exact hc
        · exact ih.1 x (by simpa using h) r hr
    · intro r hr
      by_cases h : hid x = true
      · simp only [spliceFrom, h, if_true] at hr
        exact ih.2 r hr
      · simp only [spliceFrom, h] at hr
        exact ih.1 x (by simpa using h) r hr

theorem hiddenRecord_reclen (proc : Bool) (tasks : List task_struct) (r : linux_dirent) (v : Nat) :
    hiddenRecord proc tasks { r with d_reclen := v } = hiddenRecord proc tasks r := rfl

/-- Records of the output of a run on a well-formed buffer shorter than 64 KiB. -/
theorem hijackedGetdents_entries (env : GetdentsEnv) (fd : Nat) (dirp : List Nat) (count : Nat)
    (raw : Int) (user : List Nat)
    (hreal : env.originalGetdents fd dirp count = (raw, user))
    (hpos : 0 < raw) (hsmall : raw < 65536)
    (hk : env.kzallocFails = false) (hcf : env.copyFromUserLeft = 0)
    (hct : env.copyToUserLeft = 0) (hwf : wellFormed user raw.toNat) :
    ∃ (ret : Nat) (out : List Nat),
      hijackedGetdents env fd dirp count = Run.ok ((ret : Int), out)
        ∧ wellFormed out ret
        ∧ entries out ret
            = splice (hiddenRecord (isProc env fd) env.tasks) (entries user raw.toNat) := by
  obtain ⟨cs, hv, hu, hl⟩ := chunks_of_wellFormed user raw.toNat hwf
  have hraw : raw = (cs.flatten.length : Int) := by omega
  have hreal2 : env.originalGetdents fd dirp count
      = ((cs.flatten.length : Int), cs.flatten ++ user.drop raw.toNat) := by
    rw [hreal, ← hu, hraw]
  have hrun := hijackedGetdents_chunks env fd dirp count cs (user.drop raw.toNat) hreal2
    (by omega) hk hcf hv
  obtain ⟨hv2, hmap⟩ := spliceChunks_records (fun c => hideTest (isProc env fd) env.tasks c 0)
    (hiddenRecord (isProc env fd) env.tasks) (hideTest_chunk _ _) cs hv (by omega)
  have hlen := length_spliceChunks (fun c => hideTest (isProc env fd) env.tasks c 0) cs
  rw [hct, Nat.sub_zero, List.take_length] at hrun
  refine ⟨_, _, hrun, ?_, ?_⟩
  · have := wellFormed_chunks _
      (List.drop (spliceChunks (fun c => hideTest (isProc env fd) env.tasks c 0) cs).flatten.length
        (cs.flatten ++ user.drop raw.toNat)) hv2
    exact this
  · rw [entries_chunks _ _ hv2, hmap]
    conv_rhs => rw [hu, ← hl, entries_chunks cs _ hv]

theorem fetchTask_some (tasks : List task_struct) (pid : Int) :
    ∀ i, fetchTask tasks pid = some i → ∃ t, tasks.get? i = some t ∧ t.pid = pid := by
  induction tasks with
  | nil => intro i h; simp [fetchTask] at h
  | cons x xs ih =>
    intro i h
    by_cases hx : x.pid = pid
    · simp only [fetchTask, hx, if_true, Option.some.injEq] at h
      subst h
      exact ⟨x, rfl, hx⟩
    · simp only [fetchTask, hx, if_false, Option.map_eq_some'] at h
      obtain ⟨j, hj, rfl⟩ := h
      obtain ⟨t, ht, htp⟩ := ih j hj
      exact ⟨t, by simpa using ht, htp⟩

theorem testBit_xor_INCOGNITO (f k : Nat) :
    (f ^^^ 0x10000000).testBit k = if k = 28 then !(f.testBit 28) else f.testBit k := by
  have e : (0x10000000 : Nat) = 2 ^ 28 := by norm_num
  rw [e, Nat.testBit_xor, Nat.testBit_two_pow]
  by_cases hk : k = 28
  · subst hk; simp
  · have : ¬ (28 = k) := fun h => hk h.symm
    simp [hk, this]

/-- The run on a well-formed buffer, in terms of the chunks of its records. -/
theorem hijackedGetdents_wf (env : GetdentsEnv) (fd : Nat) (dirp : List Nat) (count : Nat)
    (raw : Int) (user : List Nat)
    (hreal : env.originalGetdents fd dirp count = (raw, user))
    (hpos : 0 < raw) (hk : env.kzallocFails = false) (hcf : env.copyFromUserLeft = 0)
    (hwf : wellFormed user raw.toNat) :
    ∃ cs : List (List Nat), (∀ c ∈ cs, validChunk c)
      ∧ user = cs.flatten ++ user.drop raw.toNat
      ∧ raw = (cs.flatten.length : Int)
      ∧ entries user raw.toNat = cs.map (fun o => direntAt o 0)
      ∧ hijackedGetdents env fd dirp count
        = Run.ok
          ((((spliceChunks (fun c => hideTest (isProc env fd) env.tasks c 0) cs).flatten.length : Nat) : Int),
            ((spliceChunks (fun c => hideTest (isProc env fd) env.tasks c 0) cs).flatten).take
                ((spliceChunks (fun c => hideTest (isProc env fd) env.tasks c 0) cs).flatten.length
                  - env.copyToUserLeft)
              ++ user.drop
                ((spliceChunks (fun c => hideTest (isProc env fd) env.tasks c 0) cs).flatten.length
                  - env.copyToUserLeft)) := by
  obtain ⟨cs, hv, hu, hl⟩ := chunks_of_wellFormed user raw.toNat hwf
  have hraw : raw = (cs.flatten.length : Int) := by omega
  have hreal2 : env.originalGetdents fd dirp count
      = ((cs.flatten.length : Int), cs.flatten ++ user.drop raw.toNat) := by
    rw [hreal, ← hu, hraw]
  have hrun := hijackedGetdents_chunks env fd dirp count cs (user.drop raw.toNat) hreal2
    (by omega) hk hcf hv
  rw [← hu] at hrun
  refine ⟨cs, hv, hu, hraw, ?_, hrun⟩
  conv_lhs => rw [hu, ← hl, entries_chunks cs _ hv]

theorem spliceChunks_all_hidden (hid : List Nat → Bool) (cs : List (List Nat))
    (h : ∀ c ∈ cs, hid c = true) : spliceChunks hid cs = [] := by
  induction cs with
  | nil => rfl
  | cons c cs ih =>
    simp only [spliceChunks, h c (List.mem_cons_self _ _), if_true]
    exact ih (fun x hx => h x (List.mem_cons_of_mem _ hx))

theorem and_INCOGNITO_eq_zero_iff (f : Nat) : f &&& INCOGNITO = 0 ↔ f.testBit 28 = false := by
  have e : INCOGNITO = 2 ^ 28 := by norm_num [INCOGNITO]
  rw [e]
  constructor
  · intro h
    have := congrArg (fun x => x.testBit 28) h
    simp only [Nat.testBit_and, Nat.testBit_two_pow, Nat.zero_testBit, decide_True,
      Bool.and_true] at this
    exact this
  · intro h
    apply Nat.eq_of_testBit_eq
    intro k
    rw [Nat.testBit_and, Nat.testBit_two_pow]
    by_cases hk : 28 = k
    · subst hk; simp [h]
    · simp [hk]

theorem xor_INCOGNITO_clears (f : Nat) (h : f &&& INCOGNITO ≠ 0) :
    (f ^^^ INCOGNITO) &&& INCOGNITO = 0 := by
  have hb : f.testBit 28 = true := by
    by_contra hc
    exact h ((and_INCOGNITO_eq_zero_iff f).mpr (by simpa using hc))
  rw [and_INCOGNITO_eq_zero_iff]
  have e : INCOGNITO = 2 ^ 28 := by norm_num [INCOGNITO]
  rw [e, Nat.testBit_xor, Nat.testBit_two_pow, hb]
  simp

theorem map_pid_toggleIncognito (tasks : List task_struct) (i : Nat) :
    (toggleIncognito tasks i).map (fun t => t.pid) = tasks.map (fun t => t.pid) := by
  unfold toggleIncognito
  cases h : tasks.get? i with
  | none => rfl
  | some t =>
    simp only []
    apply List.ext_getElem?
    intro j
    have h2 : tasks[i]? = some t := by simpa using h
    by_cases hj : i = j
    · subst hj
      have hi : i < tasks.length := by
        by_contra hc
        rw [List.getElem?_eq_none (by omega)] at h2
        cases h2
      rw [List.getElem?_map, List.getElem?_set_self hi, List.getElem?_map, h2]
      rfl
    · rw [List.getElem?_map, List.getElem?_set_ne hj, List.getElem?_map]

theorem fetchTask_congr (a b : List task_struct)
    (h : a.map (fun t => t.pid) = b.map (fun t => t.pid)) (q : Int) :
    fetchTask a q = fetchTask b q := by
  induction a generalizing b with
  | nil =>
    cases b with
    | nil => rfl
    | cons y ys => simp at h
  | cons x xs ih =>
    cases b with
    | nil => simp at h
    | cons y ys =>
      simp only [List.map_cons, List.cons.injEq] at h
      simp only [fetchTask, h.1, ih ys h.2]

theorem task_flags_toggleIncognito (tasks : List task_struct) (i j : Nat) (hi : i < tasks.length) :
    task_flags (toggleIncognito tasks i) j
      = if j = i then task_flags tasks i ^^^ INCOGNITO else task_flags tasks j := by
  unfold toggleIncognito task_flags
  have h2 : tasks[i]? = some tasks[i] := List.getElem?_eq_getElem hi
  simp only [List.get?_eq_getElem?, h2]
  by_cases hj : j = i
  · subst hj
    simp [List.getElem?_set_self hi, h2]
  · have : i ≠ j := fun h => hj h.symm
    simp [List.getElem?_set_ne this, hj]

/-- Effect of clearing the hidden bit of `p` on `isIncognito`. -/
theorem isIncognito_toggle (tasks : List task_struct) (p : Int) (i : Nat)
    (hfound : fetchTask tasks p = some i) (hbit : task_flags tasks i &&& INCOGNITO ≠ 0)
    (q : Int) :
    isIncognito (toggleIncognito tasks i) q = if q = p then 0 else isIncognito tasks q := by
  obtain ⟨t, ht, htp⟩ := fetchTask_some tasks p i hfound
  have ht2 : tasks[i]? = some t := by simpa using ht
  have hi : i < tasks.length := by
    by_contra hc
    rw [List.getElem?_eq_none (by omega)] at ht2
    cases ht2
  have hf : fetchTask (toggleIncognito tasks i) q = fetchTask tasks q :=
    fetchTask_congr _ _ (map_pid_toggleIncognito tasks i) q
  unfold isIncognito
  rw [hf]
  by_cases hq0 : q = 0
  · subst hq0
    simp
  · simp only [hq0, if_false]
    by_cases hqp : q = p
    · subst hqp
      simp only [hfound, if_true, task_flags_toggleIncognito tasks i i hi,
        xor_INCOGNITO_clears _ hbit]
      simp
    · simp only [hqp, if_false]
      cases hfq : fetchTask tasks q with
      | none => rfl
      | some j =>
        obtain ⟨u, hu, hup⟩ := fetchTask_some tasks q j hfq
        have hji : j ≠ i := by
          intro hji
          subst hji
          rw [ht] at hu
          cases hu
          exact hqp (hup.symm.trans htp)
        simp only [task_flags_toggleIncognito tasks i j hi, hji, if_false]

theorem rdLE_cons (n : Nat) (x : Nat) (xs : List Nat) (i : Nat) :
    rdLE n (x :: xs) (i + 1) = rdLE n xs i := by
  induction n generalizing i with
  | zero => rfl
  | succ n ih => simp only [rdLE, ih (i + 1)]; simp [rd]

theorem length_leBytes (n v : Nat) : (leBytes n v).length = n := by
  induction n generalizing v with
  | zero => rfl
  | succ n ih => simp [leBytes, ih]

theorem rdLE_leBytes (n v : Nat) : rdLE n (leBytes n v) 0 = v % 256 ^ n := by
  induction n generalizing v with
  | zero => simp [rdLE, Nat.mod_one]
  | succ n ih =>
    simp only [rdLE, leBytes, rdLE_cons, ih]
    have h1 : rd (v % 256 :: leBytes n (v / 256)) 0 = v % 256 := by simp [rd]
    rw [h1, Nat.pow_succ, Nat.mul_comm (256 ^ n) 256, Nat.mod_mul]

theorem takeWhile_append_zero (name rest : List Nat) (h : ∀ b ∈ name, b ≠ 0) :
    (name ++ 0 :: rest).takeWhile (fun b => b != 0) = name := by
  induction name with
  | nil => simp
  | cons x xs ih =>
    have hx : x ≠ 0 := h x (List.mem_cons_self _ _)
    simp only [List.cons_append, List.takeWhile_cons]
    simp [hx, ih (fun b hb => h b (List.mem_cons_of_mem _ hb))]

theorem length_mkDirent (ino off reclen : Nat) (name : List Nat)
    (h : 19 + name.length ≤ reclen) : (mkDirent ino off reclen name).length = reclen := by
  simp [mkDirent, length_leBytes]
  omega

theorem direntAt_mkDirent (ino off reclen : Nat) (name : List Nat)
    (hino : ino < 2 ^ 64) (hoff : off < 2 ^ 64) (hrec : reclen < 65536)
    (hname : ∀ b ∈ name, b ≠ 0) :
    direntAt (mkDirent ino off reclen name) 0 = ⟨ino, off, reclen, name⟩ := by
  have hform : mkDirent ino off reclen name
      = leBytes 8 ino ++ (leBytes 8 off ++ (leBytes 2 reclen
          ++ (name ++ 0 :: List.replicate (reclen - (19 + name.length)) 0))) := by
    simp [mkDirent]
  have h1 : d_ino (mkDirent ino off reclen name) 0 = ino := by
    unfold d_ino
    rw [hform, rdLE_append_left 8 _ _ 0 (by simp [length_leBytes]), rdLE_leBytes]
    exact Nat.mod_eq_of_lt (by norm_num; omega)
  have h2 : d_off (mkDirent ino off reclen name) 0 = off := by
    unfold d_off
    rw [hform]
    have := rdLE_append_right 8 (leBytes 8 ino) (leBytes 8 off ++ (leBytes 2 reclen
          ++ (name ++ 0 :: List.replicate (reclen - (19 + name.length)) 0))) 0
    rw [length_leBytes] at this
    rw [this, rdLE_append_left 8 _ _ 0 (by simp [length_leBytes]), rdLE_leBytes]
    exact Nat.mod_eq_of_lt (by norm_num; omega)
  have h3 : d_reclen (mkDirent ino off reclen name) 0 = reclen := by
    unfold d_reclen
    rw [hform]
    have a := rdLE_append_right 2 (leBytes 8 ino) (leBytes 8 off ++ (leBytes 2 reclen
          ++ (name ++ 0 :: List.replicate (reclen - (19 + name.length)) 0))) 8
    have b := rdLE_append_right 2 (leBytes 8 off) (leBytes 2 reclen
          ++ (name ++ 0 :: List.replicate (reclen - (19 + name.length)) 0)) 0
    rw [length_leBytes] at a b
    rw [a, b, rdLE_append_left 2 _ _ 0 (by simp [length_leBytes]), rdLE_leBytes]
    exact Nat.mod_eq_of_lt (by norm_num; omega)
  have h4 : d_name (mkDirent ino off reclen name) 0 = name := by
    unfold d_name
    rw [hform]
    have e : List.drop (0 + 18) (leBytes 8 ino ++ (leBytes 8 off ++ (leBytes 2 reclen
          ++ (name ++ 0 :: List.replicate (reclen - (19 + name.length)) 0))))
        = name ++ 0 :: List.replicate (reclen - (19 + name.length)) 0 := by
      rw [← List.append_assoc, ← List.append_assoc]
      apply List.drop_left'
      simp [length_leBytes]
    rw [e, takeWhile_append_zero name _ hname]
  simp only [direntAt, h1, h2, h3, h4]

theorem validChunk_mkDirent (ino off reclen : Nat) (name : List Nat)
    (hino : ino < 2 ^ 64) (hoff : off < 2 ^ 64) (hrec : reclen < 65536)
    (hname : ∀ b ∈ name, b ≠ 0) (hfit : 19 + name.length ≤ reclen) :
    validChunk (mkDirent ino off reclen name) := by
  have hd := direntAt_mkDirent ino off reclen name hino hoff hrec hname
  have hl := length_mkDirent ino off reclen name hfit
  have h3 := congrArg linux_dirent.d_reclen hd
  have h4 := congrArg linux_dirent.d_name hd
  simp only [direntAt] at h3 h4
  exact ⟨by rw [h3, hl], by rw [h4, hl]; exact hfit⟩

theorem set_d_reclen_twice (buf : List Nat) (p v w : Nat) :
    set_d_reclen (set_d_reclen buf p v) p w = set_d_reclen buf p w := by
  unfold set_d_reclen
  rw [List.set_comm (v / 256 % 256) (w % 256) (buf.set (p + 16) (v % 256))
      (by omega : p + 17 ≠ p + 16), List.set_set, List.set_set]

/-- A run of matching chunks after a surviving record is absorbed whole, and
the length field keeps only the low 16 bits of the sum. -/
theorem absorbChunks_all_hidden (hid : List Nat → Bool) (cs : List (List Nat)) :
    ∀ (c cur : List Nat), (∀ x ∈ c :: cs, hid x = true ∧ validChunk x) → 18 ≤ cur.length →
      ∃ v, absorbChunks hid cur (c :: cs) = [set_d_reclen cur 0 v ++ (c :: cs).flatten]
        ∧ v % 65536 = (d_reclen cur 0 + (c :: cs).flatten.length) % 65536 := by
  induction cs with
  | nil =>
    intro c cur h hcur
    have hc := h c (List.mem_cons_self _ _)
    refine ⟨d_reclen cur 0 + d_reclen c 0, ?_, ?_⟩
    · simp [absorbChunks, hc.1]
    · simp [hc.2.1]
  | cons d ds ih =>
    intro c cur h hcur
    have hc := h c (List.mem_cons_self _ _)
    have hrest : ∀ x ∈ d :: ds, hid x = true ∧ validChunk x :=
      fun x hx => h x (List.mem_cons_of_mem _ hx)
    obtain ⟨v, hv, hmod⟩ := ih d (set_d_reclen cur 0 (d_reclen cur 0 + d_reclen c 0) ++ c) hrest
      (by simp [length_set_d_reclen]; omega)
    refine ⟨v, ?_, ?_⟩
    · rw [absorbChunks, if_pos hc.1, hv,
        set_d_reclen_append _ c 0 v (by simp [length_set_d_reclen]; omega), set_d_reclen_twice]
      simp
    · rw [hmod]
      have h1 : d_reclen (set_d_reclen cur 0 (d_reclen cur 0 + d_reclen c 0) ++ c) 0
          = (d_reclen cur 0 + d_reclen c 0) % 65536 := by
        have := d_reclen_set_d_reclen cur (d_reclen cur 0 + d_reclen c 0) hcur
        unfold d_reclen at this ⊢
        rw [rdLE_append_left 2 _ c (0 + 16) (by simp [length_set_d_reclen]; omega)]
        exact this
      rw [h1, hc.2.1]
      simp only [List.flatten_cons, List.length_append]
      omega

theorem wfFrom_pos (buf : List Nat) (len fuel p : Nat) (hf : 0 < fuel) (hp : p ≠ len)
    (h : wfFrom buf len fuel p = true) : 19 + (d_name buf p).length ≤ d_reclen buf p := by
  obtain ⟨f, rfl⟩ : ∃ f, fuel = f + 1 := ⟨fuel - 1, by omega⟩
  simp only [wfFrom, hp, if_false, Bool.and_eq_true, decide_eq_true_eq] at h
  exact h.1.2

theorem walk_two (buf : List Nat) (len fuel : Nat) (hf : 2 ≤ fuel) (h0 : 0 < len)
    (h1 : d_reclen buf 0 < len) : 2 ≤ (walk buf len fuel 0).length := by
  obtain ⟨f, rfl⟩ : ∃ f, fuel = f + 2 := ⟨fuel - 2, by omega⟩
  simp only [walk, h0, if_true, Nat.zero_add, h1, List.length_cons]
  omega

/-- A surviving record followed only by matching records: the run returns the
whole length and the record's length field holds the low 16 bits of it. -/
theorem hijackedGetdents_absorb_all (env : GetdentsEnv) (fd : Nat) (dirp : List Nat)
    (count : Nat) (a h : List Nat) (hs : List (List Nat))
    (hreal : env.originalGetdents fd dirp count
      = (((a :: h :: hs).flatten.length : Int), (a :: h :: hs).flatten))
    (hk : env.kzallocFails = false) (hcf : env.copyFromUserLeft = 0)
    (hct : env.copyToUserLeft = 0)
    (ha : validChunk a) (hna : hideTest (isProc env fd) env.tasks a 0 = false)
    (hhs : ∀ x ∈ h :: hs, hideTest (isProc env fd) env.tasks x 0 = true ∧ validChunk x) :
    ∃ out, hijackedGetdents env fd dirp count = Run.ok (((a :: h :: hs).flatten.length : Int), out)
      ∧ d_reclen out 0 = (a :: h :: hs).flatten.length % 65536
      ∧ d_name out 0 = d_name a 0
      ∧ out.drop a.length = (h :: hs).flatten := by
  have hv : ∀ c ∈ a :: h :: hs, validChunk c := by
    intro c hc
    rcases List.mem_cons.mp hc with rfl | hc
    · exact ha
    · exact (hhs c hc).2
  have ha18 : 18 ≤ a.length := by have := ha.2; omega
  have hreal2 : env.originalGetdents fd dirp count
      = (((a :: h :: hs).flatten.length : Int), (a :: h :: hs).flatten ++ []) := by
    rw [hreal, List.append_nil]
  have hrun := hijackedGetdents_chunks env fd dirp count (a :: h :: hs) [] hreal2
    (by simp only [List.flatten_cons, List.length_append]; omega) hk hcf hv
  obtain ⟨v, hv1, hv2⟩ := absorbChunks_all_hidden
    (fun c => hideTest (isProc env fd) env.tasks c 0) hs h a hhs ha18
  have hsp : spliceChunks (fun c => hideTest (isProc env fd) env.tasks c 0) (a :: h :: hs)
      = [set_d_reclen a 0 v ++ (h :: hs).flatten] := by
    rw [spliceChunks]
    simp only [hna, Bool.false_eq_true, if_false]
    exact hv1
  have hlen : (set_d_reclen a 0 v ++ (h :: hs).flatten).length = (a :: h :: hs).flatten.length := by
    simp [length_set_d_reclen]
  rw [hsp, hct] at hrun
  simp only [List.flatten_cons, List.flatten_nil, List.append_nil, Nat.sub_zero] at hrun hlen
  rw [List.take_length, hlen, List.drop_length, List.append_nil] at hrun
  refine ⟨_, by simpa using hrun, ?_, ?_, ?_⟩
  · have h1 := d_reclen_set_d_reclen a v ha18
    unfold d_reclen at h1 ⊢
    rw [rdLE_append_left 2 _ _ (0 + 16) (by simp [length_set_d_reclen]; omega), h1, hv2, ha.1]
    simp
  · have h1 := congrArg linux_dirent.d_name (direntAt_set_d_reclen a v ha18)
    simp only [direntAt] at h1
    have h2 := congrArg linux_dirent.d_name
      (direntAt_append (set_d_reclen a 0 v) (h ++ hs.flatten)
        (by rw [h1, length_set_d_reclen]; exact ha.2))
    simp only [direntAt] at h2
    rw [h2, h1]
  · rw [List.flatten_cons]
    exact List.drop_left' (length_set_d_reclen a 0 v)

theorem isPrefixOf_append (l m : List Nat) : l.isPrefixOf (l ++ m) = true := by
  induction l with
  | nil => simp [List.isPrefixOf]
  | cons x xs ih => simp [List.isPrefixOf, ih]

theorem digits4_ne_zero (n : Nat) : ∀ b ∈ digits4 n, b ≠ 0 := by
  intro b hb
  simp only [digits4, List.mem_cons, List.mem_singleton, List.not_mem_nil, or_false] at hb
  omega

theorem simple_strtoul_digits4 (n : Nat) (h1 : 1000 ≤ n) (h2 : n < 10000) :
    simple_strtoul (digits4 n) = n := by
  have d3 : isDigit (48 + n / 1000 % 10) = true := by simp [isDigit]; omega
  have d2 : isDigit (48 + n / 100 % 10) = true := by simp [isDigit]; omega
  have d1 : isDigit (48 + n / 10 % 10) = true := by simp [isDigit]; omega
  have d0 : isDigit (48 + n % 10) = true := by simp [isDigit]; omega
  have hn : n = 1000 * (n / 1000 % 10) + 100 * (n / 100 % 10) + 10 * (n / 10 % 10) + n % 10 := by
    omega
  have ha : n / 1000 % 10 < 10 := Nat.mod_lt _ (by norm_num)
  have hb : n / 100 % 10 < 10 := Nat.mod_lt _ (by norm_num)
  have hc : n / 10 % 10 < 10 := Nat.mod_lt _ (by norm_num)
  have hd : n % 10 < 10 := Nat.mod_lt _ (by norm_num)
  simp only [simple_strtoul, digits4, List.takeWhile_cons, d3, d2, d1, d0, if_true,
    List.takeWhile_nil, List.foldl_cons, List.foldl_nil]
  generalize n / 1000 % 10 = a at hn ha ⊢
  generalize n / 100 % 10 = b at hn hb ⊢
  generalize n / 10 % 10 = c at hn hc ⊢
  generalize n % 10 = d at hn hd ⊢
  have e1 : (0 * 10 + (48 + a - 48)) % 2 ^ 64 = a := by
    rw [Nat.mod_eq_of_lt (by norm_num; omega)]; omega
  have e2 : (a * 10 + (48 + b - 48)) % 2 ^ 64 = a * 10 + b := by
    rw [Nat.mod_eq_of_lt (by norm_num; omega)]; omega
  have e3 : ((a * 10 + b) * 10 + (48 + c - 48)) % 2 ^ 64 = (a * 10 + b) * 10 + c := by
    rw [Nat.mod_eq_of_lt (by norm_num; omega)]; omega
  have e4 : (((a * 10 + b) * 10 + c) * 10 + (48 + d - 48)) % 2 ^ 64
      = ((a * 10 + b) * 10 + c) * 10 + d := by
    rw [Nat.mod_eq_of_lt (by norm_num; omega)]; omega
  rw [e1, e2, e3, e4]
  omega

theorem secretFile_facts (tasks : List task_struct) (n : Nat) (h : n < 10000) :
    hideTest false tasks (secretFile n) 0 = true ∧ validChunk (secretFile n)
      ∧ (secretFile n).length = 40 := by
  have hname : ∀ b ∈ INCOGNITO_PREFIX ++ digits4 n, b ≠ 0 := by
    intro b hb
    rcases List.mem_append.mp hb with hb | hb
    · exact incognito_bytes_ne_zero b hb
    · exact digits4_ne_zero n b hb
  have hlen : 19 + (INCOGNITO_PREFIX ++ digits4 n).length ≤ 40 := by
    simp [INCOGNITO_PREFIX, digits4]
  have hd := direntAt_mkDirent (65536 * n) n 40 (INCOGNITO_PREFIX ++ digits4 n)
    (by norm_num; omega) (by norm_num; omega) (by norm_num) hname
  refine ⟨?_, validChunk_mkDirent _ _ _ _ (by norm_num; omega) (by norm_num; omega)
    (by norm_num) hname hlen, length_mkDirent _ _ _ _ hlen⟩
  rw [hideTest_eq]
  unfold secretFile
  rw [hd]
  simp [hiddenRecord, isPrefixOf_append]

theorem secretFiles_facts (tasks : List task_struct) (n : Nat) :
    ∀ b, b + n ≤ 10000 →
      (∀ x ∈ secretFiles b n, hideTest false tasks x 0 = true ∧ validChunk x)
        ∧ (secretFiles b n).flatten.length = 40 * n := by
  induction n with
  | zero => intro b _; simp [secretFiles]
  | succ n ih =>
    intro b hb
    obtain ⟨h1, h2⟩ := ih (b + 1) (by omega)
    obtain ⟨f1, f2, f3⟩ := secretFile_facts tasks b (by omega)
    refine ⟨?_, ?_⟩
    · intro x hx
      simp only [secretFiles, List.mem_cons] at hx
      rcases hx with rfl | hx
      · exact ⟨f1, f2⟩
      · exact h1 x hx
    · simp only [secretFiles, List.flatten_cons, List.length_append, f3, h2]
      omega

theorem task_flags_cons_succ (x : task_struct) (ts : List task_struct) (i : Nat) :
    task_flags (x :: ts) (i + 1) = task_flags ts i := by
  simp [task_flags]

theorem hiddenTasks_facts (n : Nat) :
    ∀ (b q : Nat), b ≤ q → q < b + n →
      ∃ i, fetchTask (hiddenTasks b n) (q : Int) = some i
        ∧ task_flags (hiddenTasks b n) i = INCOGNITO := by
  induction n with
  | zero => intro b q h1 h2; omega
  | succ n ih =>
    intro b q h1 h2
    by_cases hq : q = b
    · subst hq
      exact ⟨0, by simp [hiddenTasks, fetchTask], by simp [hiddenTasks, task_flags]⟩
    · obtain ⟨i, hi1, hi2⟩ := ih (b + 1) q (by omega) (by omega)
      refine ⟨i + 1, ?_, ?_⟩
      · have : ¬ ((b : Int) = (q : Int)) := by omega
        rw [hiddenTasks, fetchTask, if_neg this, hi1]; rfl
      · rw [hiddenTasks, task_flags_cons_succ]; exact hi2

theorem isIncognito_bigProcTasks (q : Nat) (h1 : 1000 ≤ q) (h2 : q < 3730) :
    isIncognito bigProcTasks (q : Int) = 1 := by
  obtain ⟨i, hi1, hi2⟩ := hiddenTasks_facts 2730 1000 q h1 (by omega)
  have hq0 : ¬ ((q : Int) = 0) := by omega
  have hq1 : ¬ ((1 : Int) = (q : Int)) := by omega
  have hf : fetchTask bigProcTasks (q : Int) = some (i + 1) := by
    rw [bigProcTasks, fetchTask, if_neg hq1, hi1]; rfl
  have hfl : task_flags bigProcTasks (i + 1) = INCOGNITO := by
    rw [bigProcTasks, task_flags_cons_succ]; exact hi2
  simp only [isIncognito, hq0, if_false, hf, hfl]
  decide

theorem toPid_small (n : Nat) (h : n < 10000) : toPid n = (n : Int) := by
  unfold toPid
  have e : n % 2 ^ 32 = n := by
    have : (2 : Nat) ^ 32 = 4294967296 := by norm_num
    omega
  rw [e]
  have h31 : n < 2 ^ 31 := by
    have : (2 : Nat) ^ 31 = 2147483648 := by norm_num
    omega
  rw [if_pos h31]

theorem pidRecord_facts (n : Nat) (h1 : 1000 ≤ n) (h2 : n < 3730) :
    hideTest true bigProcTasks (pidRecord n) 0 = true ∧ validChunk (pidRecord n)
      ∧ (pidRecord n).length = 24 := by
  have hname := digits4_ne_zero n
  have hlen : 19 + (digits4 n).length ≤ 24 := by simp [digits4]
  have hd := direntAt_mkDirent (9000 + n) n 24 (digits4 n)
    (by norm_num; omega) (by norm_num; omega) (by norm_num) hname
  refine ⟨?_, validChunk_mkDirent _ _ _ _ (by norm_num; omega) (by norm_num; omega)
    (by norm_num) hname hlen, length_mkDirent _ _ _ _ hlen⟩
  rw [hideTest_eq]
  unfold pidRecord
  rw [hd]
  simp only [hiddenRecord, Bool.not_true, Bool.false_and, Bool.false_or, Bool.true_and,
    simple_strtoul_digits4 n h1 (by omega), toPid_small n (by omega),
    isIncognito_bigProcTasks n h1 h2]
  decide

theorem pidRecords_facts (n : Nat) :
    ∀ b, 1000 ≤ b → b + n ≤ 3730 →
      (∀ x ∈ pidRecords b n, hideTest true bigProcTasks x 0 = true ∧ validChunk x)
        ∧ (pidRecords b n).flatten.length = 24 * n := by
  induction n with
  | zero => intro b _ _; simp [pidRecords]
  | succ n ih =>
    intro b hb1 hb2
    obtain ⟨h1, h2⟩ := ih (b + 1) (by omega) (by omega)
    obtain ⟨f1, f2, f3⟩ := pidRecord_facts b hb1 (by omega)
    refine ⟨?_, ?_⟩
    · intro x hx
      simp only [pidRecords, List.mem_cons] at hx
      rcases hx with rfl | hx
      · exact ⟨f1, f2⟩
      · exact h1 x hx
    · simp only [pidRecords, List.flatten_cons, List.length_append, f3, h2]
      omega

theorem notes_chunk :
    validChunk (mkDirent 12 2 32 name_notes)
      ∧ hideTest false [] (mkDirent 12 2 32 name_notes) 0 = false
      ∧ (mkDirent 12 2 32 name_notes).length = 32 := by
  refine ⟨validChunk_mkDirent _ _ _ _ (by norm_num) (by norm_num) (by norm_num) (by decide)
    (by decide), by decide, by decide⟩

theorem bigFilesListing_chunks :
    bigFilesListing
        = (mkDirent 12 2 32 name_notes :: secretFile 1000 :: secretFiles 1001 1637).flatten
      ∧ (mkDirent 12 2 32 name_notes :: secretFile 1000 :: secretFiles 1001 1637).flatten.length
        = 65552
      ∧ ∀ x ∈ secretFile 1000 :: secretFiles 1001 1637,
          hideTest false [] x 0 = true ∧ validChunk x := by
  have hs : secretFiles 1000 1638 = secretFile 1000 :: secretFiles 1001 1637 := rfl
  obtain ⟨f1, f2⟩ := secretFiles_facts [] 1638 1000 (by norm_num)
  rw [hs] at f1 f2
  refine ⟨?_, ?_, f1⟩
  · rw [bigFilesListing, hs]; rfl
  · rw [List.flatten_cons, List.length_append, f2, notes_chunk.2.2]

theorem init_chunk :
    validChunk (mkDirent 21 1 24 [49])
      ∧ hideTest true bigProcTasks (mkDirent 21 1 24 [49]) 0 = false
      ∧ (mkDirent 21 1 24 [49]).length = 24
      ∧ (direntAt (mkDirent 21 1 24 [49]) 0).d_name = [49] := by
  refine ⟨validChunk_mkDirent _ _ _ _ (by norm_num) (by norm_num) (by norm_num) (by decide)
    (by decide), by decide, by decide, by decide⟩

theorem bigProcListing_chunks :
    bigProcListing = (mkDirent 21 1 24 [49] :: pidRecord 1000 :: pidRecords 1001 2729).flatten
      ∧ (mkDirent 21 1 24 [49] :: pidRecord 1000 :: pidRecords 1001 2729).flatten.length = 65544
      ∧ ∀ x ∈ pidRecord 1000 :: pidRecords 1001 2729,
          hideTest true bigProcTasks x 0 = true ∧ validChunk x := by
  have hs : pidRecords 1000 2730 = pidRecord 1000 :: pidRecords 1001 2729 := rfl
  obtain ⟨f1, f2⟩ := pidRecords_facts 2730 1000 (by norm_num) (by norm_num)
  rw [hs] at f1 f2
  refine ⟨?_, ?_, f1⟩
  · rw [bigProcListing, hs]; rfl
  · rw [List.flatten_cons, List.length_append, f2, init_chunk.2.2.1]

theorem splice_identity (hid : linux_dirent → Bool) (rs : List linux_dirent) :
    (splice hid rs).map identity = (rs.filter (fun r => !hid r)).map identity :=
  (spliceFrom_identity hid rs).2

theorem walk_stuck (buf : List Nat) (len p : Nat) (h : d_reclen buf p = 0) :
    ∀ fuel, ((walk buf len fuel p).map linux_dirent.d_reclen).sum = 0 := by
  intro fuel
  induction fuel with
  | zero => simp [walk]
  | succ f ih =>
    rw [walk]
    split
    · rw [h, Nat.add_zero, List.map_cons, List.sum_cons, ih]
      simp [direntAt, h]
    · simp

theorem rdLE_leBytes_low (m : Nat) :
    ∀ (n v : Nat) (rest : List Nat), m ≤ n → rdLE m (leBytes n v ++ rest) 0 = v % 256 ^ m := by
  induction m with
  | zero => intro n v rest _; simp [rdLE, Nat.mod_one]
  | succ m ih =>
    intro n v rest hmn
    obtain ⟨k, rfl⟩ : ∃ k, n = k + 1 := ⟨n - 1, by omega⟩
    simp only [rdLE, leBytes, List.cons_append, rdLE_cons, ih k (v / 256) rest (by omega)]
    have h1 : rd (v % 256 :: (leBytes k (v / 256) ++ rest)) 0 = v % 256 := by simp [rd]
    rw [h1, Nat.pow_succ, Nat.mul_comm (256 ^ m) 256, Nat.mod_mul]

theorem mkDirent_low_ino (ino off reclen : Nat) (name rest : List Nat) :
    rdLE 2 (mkDirent ino off reclen name ++ rest) 0 = ino % 65536 := by
  have hform : mkDirent ino off reclen name ++ rest
      = leBytes 8 ino ++ (leBytes 8 off ++ (leBytes 2 reclen
          ++ (name ++ 0 :: List.replicate (reclen - (19 + name.length)) 0)) ++ rest) := by
    simp [mkDirent]
  rw [hform, rdLE_leBytes_low 2 8 ino _ (by norm_num)]
  norm_num

/-- The fields of the state after `incognito_init` when the table is found. -/
theorem incognito_init_found (env : LoadEnv) (s : ModState)
    (hver : KERNEL_VERSION 4 4 0 ≤ env.LINUX_VERSION_CODE)
    (hfound : env.kallsyms_sys_call_table ≠ 0) :
    (incognito_init env s).1 = 0
      ∧ (incognito_init env s).2.table
          = (s.table.set env.NR_kill env.addr_hijackedKill).set env.NR_getdents
              env.addr_hijackedGetdents
      ∧ (incognito_init env s).2.originalKill = s.table.getD env.NR_kill 0
      ∧ (incognito_init env s).2.originalGetdents
          = (s.table.set env.NR_kill env.addr_hijackedKill).getD env.NR_getdents 0
      ∧ (incognito_init env s).2.sys_call_table = env.kallsyms_sys_call_table
      ∧ (incognito_init env s).2.k.hidden = (hide s.k).hidden
      ∧ (incognito_init env s).2.k.protected_ = (protect s.k).protected_ := by
  have hv : ¬ (env.LINUX_VERSION_CODE < KERNEL_VERSION 4 4 0) := by omega
  refine ⟨?_, ?_, ?_, ?_, ?_, ?_, ?_⟩
  · simp [incognito_init, hv, hfound]
  · simp [incognito_init, hv, hfound, logMsg, initializeHijack, HOOK]
  · simp [incognito_init, hv, hfound, logMsg, initializeHijack, HOOK]
  · simp [incognito_init, hv, hfound, logMsg, initializeHijack, HOOK]
  · simp [incognito_init, hv, hfound, logMsg, initializeHijack, HOOK]
  · simp only [incognito_init, hv, hfound, logMsg, initializeHijack, HOOK, if_false, protect, hide]
    by_cases h1 : s.k.hidden = 0 <;> by_cases h2 : s.k.protected_ = 0 <;> simp [h1, h2]
  · simp only [incognito_init, hv, hfound, logMsg, initializeHijack, HOOK, if_false, protect, hide]
    by_cases h1 : s.k.hidden = 0 <;> by_cases h2 : s.k.protected_ = 0 <;> simp [h1, h2]

/-- The table after `incognito_exit`. -/
theorem incognito_exit_table (env : LoadEnv) (s : ModState) (h : s.sys_call_table ≠ 0) :
    ∃ s2, incognito_exit env s = Run.ok s2
      ∧ s2.table = (s.table.set env.NR_kill s.originalKill).set env.NR_getdents
          s.originalGetdents := by
  simp only [incognito_exit, h, if_false]
  exact ⟨_, rfl, by simp [logMsg, exitHijack, UNHOOK]⟩

/-- The loop function as iterations of `loopBody`. -/
theorem filterLoop_succ (proc : Bool) (tasks : List task_struct) (fuel : Nat) (buf : List Nat)
    (getdents offset : Nat) (previous : Option Nat) :
    filterLoop proc tasks (fuel + 1) buf getdents offset previous
      = if offset < getdents then
          match loopBody proc tasks ⟨buf, getdents, offset, previous⟩ with
          | Run.ok st2 => filterLoop proc tasks fuel st2.buf st2.getdents st2.offset st2.previous
          | Run.nullDeref => Run.nullDeref
          | Run.badMemmove => Run.badMemmove
          | Run.diverges => Run.diverges
        else Run.ok (buf, getdents) := by
  conv_lhs => unfold filterLoop
  by_cases h1 : offset < getdents
  · simp only [h1, if_true, loopBody]
    by_cases h2 : hideTest proc tasks buf offset = true
    · simp only [h2, if_true]
      by_cases h3 : offset = 0
      · simp only [h3, if_true]
        by_cases h4 : d_reclen buf 0 ≤ getdents
        · simp only [h4, if_true]
        · simp only [h4, if_false]
      · simp only [h3, if_false]
        cases previous with
        | none => rfl
        | some q => rfl
    · simp only [h2]
      rfl
  · simp only [h1, if_false]

/-- The loop keeps `previous` set whenever `offset` is not 0, so it never
dereferences a null `previous`. -/
theorem filterLoop_previous (proc : Bool) (tasks : List task_struct) :
    ∀ (fuel : Nat) (buf : List Nat) (getdents offset : Nat) (previous : Option Nat),
      (offset ≠ 0 → previous ≠ none) →
      filterLoop proc tasks fuel buf getdents offset previous ≠ Run.nullDeref := by
  intro fuel
  induction fuel with
  | zero => intro buf g off prev _; simp [filterLoop]
  | succ f ih =>
    intro buf g off prev hinv
    rw [filterLoop_succ, loopBody]
    by_cases h1 : off < g
    · simp only [h1, if_true]
      by_cases h2 : hideTest proc tasks buf off = true
      · simp only [h2, if_true]
        by_cases h3 : off = 0
        · simp only [h3, if_true]
          by_cases h4 : d_reclen buf 0 ≤ g
          · simp only [h4, if_true]
            exact ih _ _ _ _ (fun h => absurd rfl h)
          · simp [h4]
        · simp only [h3, if_false]
          cases hp : prev with
          | none => exact absurd hp (hinv h3)
          | some q =>
            simp only []
            exact ih _ _ _ _ (fun _ => by simp)
      · simp only [h2]
        exact ih _ _ _ _ (fun _ => by simp)
    · simp [h1]

theorem loopIter_previous (proc : Bool) (tasks : List task_struct) :
    ∀ (k : Nat) (st : LoopState), (st.offset ≠ 0 → st.previous ≠ none) →
      loopIter proc tasks k st ≠ Run.nullDeref
        ∧ ∀ st2, loopIter proc tasks k st = Run.ok st2 →
            (st2.offset ≠ 0 → st2.previous ≠ none) := by
  intro k
  induction k with
  | zero =>
    intro st hinv
    refine ⟨by simp [loopIter], ?_⟩
    intro st2 h
    simp only [loopIter, Run.ok.injEq] at h
    subst h; exact hinv
  | succ k ih =>
    intro st hinv
    rw [loopIter]
    by_cases h1 : st.offset < st.getdents
    · simp only [h1, if_true, loopBody]
      by_cases h2 : hideTest proc tasks st.buf st.offset = true
      · simp only [h2, if_true]
        by_cases h3 : st.offset = 0
        · simp only [h3, if_true]
          by_cases h4 : d_reclen st.buf 0 ≤ st.getdents
          · simp only [h4, if_true]
            exact ih _ (fun h => absurd rfl h)
          · simp [h4]
        · simp only [h3, if_false]
          cases hp : st.previous with
          | none => exact absurd hp (hinv h3)
          | some q =>
            simp only []
            exact ih _ (fun _ => by simp [hp])
      · simp only [h2]
        exact ih _ (fun _ => by simp)
    · simp only [h1, if_false]
      refine ⟨by simp, ?_⟩
      intro st2 h
      simp only [Run.ok.injEq] at h
      subst h; exact hinv

/-- Whole records from `p` to `len`, given as chunks, pass `wfFrom`. -/
theorem wfFrom_of_drop (buf : List Nat) (len p fuel : Nat) (cs : List (List Nat))
    (hd : buf.drop p = cs.flatten ++ buf.drop len) (hl : p + cs.flatten.length = len)
    (hv : ∀ c ∈ cs, validChunk c) (hf : cs.length ≤ fuel) (hp : p ≤ buf.length) :
    wfFrom buf len fuel p = true := by
  have hb : buf.take p ++ (cs.flatten ++ buf.drop len) = buf := by
    rw [← hd, List.take_append_drop]
  have := wfFrom_chunks cs fuel (buf.take p) (buf.drop len) hv hf
  rw [hb, List.length_take, Nat.min_eq_left hp, hl] at this
  exact this

/-- The chunks of the records from `p` to `len` of a buffer that passes `wfFrom`. -/
theorem chunks_of_boundary (buf : List Nat) (len p fuel : Nat) (hlen : len ≤ buf.length)
    (hp : p ≤ len) (h : wfFrom buf len fuel p = true) :
    ∃ cs : List (List Nat), (∀ c ∈ cs, validChunk c) ∧ buf.drop p = cs.flatten ++ buf.drop len
      ∧ p + cs.flatten.length = len ∧ cs.length ≤ len - p := by
  obtain ⟨cs, hv, hd, hl⟩ := chunks_of_wfFrom buf len hlen fuel p h hp
  have := length_le_flatten cs hv
  exact ⟨cs, hv, hd, hl, by omega⟩

/-- One iteration from a state at a record boundary: the body runs without a
fault, the new state is at a record boundary again, and the distance from
`offset` to `getdents` has decreased. -/
theorem loopBody_step (proc : Bool) (tasks : List task_struct) (st : LoopState)
    (hb : atBoundary st)
    (hprev : st.offset ≠ 0 → ∃ q, st.previous = some q ∧ q + 18 ≤ st.offset)
    (hlt : st.offset < st.getdents) :
    ∃ st2, loopBody proc tasks st = Run.ok st2 ∧ atBoundary st2
      ∧ (st2.offset ≠ 0 → ∃ q, st2.previous = some q ∧ q + 18 ≤ st2.offset)
      ∧ st2.getdents - st2.offset < st.getdents - st.offset := by
  obtain ⟨buf, g, off, prev⟩ := st
  obtain ⟨hlen, hle, hwf⟩ := hb
  simp only at hlen hle hwf hprev hlt
  obtain ⟨cs, hv, hd, hl, hcl⟩ := chunks_of_boundary buf g off g hlen hle hwf
  -- the record at `offset` is the first chunk
  cases cs with
  | nil => simp at hl; omega
  | cons c cs =>
    have hc : validChunk c := hv c (List.mem_cons_self _ _)
    have hcs : ∀ x ∈ cs, validChunk x := fun x hx => hv x (List.mem_cons_of_mem _ hx)
    have hc19 : 19 ≤ c.length := by have := hc.2; omega
    simp only [List.flatten_cons, List.length_append, List.append_assoc, List.length_cons]
      at hl hd hcl
    have hbuf : buf = buf.take off ++ (c ++ (cs.flatten ++ buf.drop g)) := by
      rw [← hd, List.take_append_drop]
    have hoff : (buf.take off).length = off := by
      rw [List.length_take]; omega
    have hat : direntAt buf off = direntAt c 0 := by
      have := direntAt_chunk (buf.take off) c (cs.flatten ++ buf.drop g) hc.2
      rw [← hbuf, hoff] at this
      exact this
    have hrl : d_reclen buf off = c.length := by
      have := congrArg linux_dirent.d_reclen hat
      simp only [direntAt] at this
      rw [this, hc.1]
    have hd2 : buf.drop (off + c.length) = cs.flatten ++ buf.drop g := by
      rw [← List.drop_drop, hd, List.drop_left]
    have hcsl := length_le_flatten cs hcs
    simp only [loopBody]
    by_cases hhid : hideTest proc tasks buf off = true
    · simp only [hhid, if_true]
      by_cases h0 : off = 0
      · subst h0
        have hrg : c.length ≤ g := by omega
        simp only [if_true, hrl, hrg]
        refine ⟨_, rfl, ?_, ?_, ?_⟩
        · have hmv : memmove buf 0 (0 + c.length) (g - c.length)
              = cs.flatten ++ buf.drop (g - c.length) := by
            unfold memmove
            have e : g - c.length = cs.flatten.length := by omega
            rw [hd2, e]
            simp
          have hlen2 : (cs.flatten ++ buf.drop (g - c.length)).length = buf.length := by
            rw [List.length_append, List.length_drop]; omega
          refine ⟨?_, Nat.zero_le _, ?_⟩
          · simp only [hmv, hlen2]; omega
          · simp only [hmv]
            have := wfFrom_chunks cs (g - c.length) [] (buf.drop (g - c.length)) hcs (by omega)
            simp only [List.nil_append, List.length_nil, Nat.zero_add] at this
            have e : cs.flatten.length = g - c.length := by omega
            rw [e] at this
            exact this
        · intro h; exact absurd rfl h
        · simp only; omega
      · obtain ⟨q, hq, hq18⟩ := hprev h0
        simp only [h0, if_false, hq]
        have hrl2 : d_reclen (set_d_reclen buf q (d_reclen buf q + c.length)) off = c.length := by
          unfold d_reclen set_d_reclen
          rw [rdLE_set_of_disjoint 2 _ _ _ _ (by omega), rdLE_set_of_disjoint 2 _ _ _ _ (by omega)]
          exact hrl
        have hdrop : ∀ n, off ≤ n →
            (set_d_reclen buf q (d_reclen buf q + c.length)).drop n = buf.drop n := by
          intro n hn
          unfold set_d_reclen
          rw [List.drop_set_of_lt _ _ (by omega), List.drop_set_of_lt _ _ (by omega)]
        rw [hrl, hrl2]
        refine ⟨_, rfl, ⟨?_, ?_, ?_⟩, ?_, ?_⟩
        · simp only [length_set_d_reclen]; exact hlen
        · simp only; omega
        · simp only
          apply wfFrom_of_drop _ g (off + c.length) g cs
          · rw [hdrop _ (by omega), hdrop _ (by omega), hd2]
          · omega
          · exact hcs
          · omega
          · rw [length_set_d_reclen]; omega
        · intro _; exact ⟨q, rfl, by simp only; omega⟩
        · simp only; omega
    · simp only [hhid, hrl]
      refine ⟨_, rfl, ⟨hlen, ?_, ?_⟩, ?_, ?_⟩
      · simp only; omega
      · simp only
        exact wfFrom_of_drop buf g (off + c.length) g cs hd2 (by omega) hcs (by omega) (by omega)
      · intro _; exact ⟨off, rfl, by simp only; omega⟩
      · simp only; omega

/-- Every state the loop reaches from a state at a record boundary is at a
record boundary. -/
theorem loopIter_boundary (proc : Bool) (tasks : List task_struct) :
    ∀ (k : Nat) (st : LoopState), atBoundary st →
      (st.offset ≠ 0 → ∃ q, st.previous = some q ∧ q + 18 ≤ st.offset) →
      ∃ st2, loopIter proc tasks k st = Run.ok st2 ∧ atBoundary st2
        ∧ (st2.offset ≠ 0 → ∃ q, st2.previous = some q ∧ q + 18 ≤ st2.offset) := by
  intro k
  induction k with
  | zero => intro st hb hp; exact ⟨st, rfl, hb, hp⟩
  | succ k ih =>
    intro st hb hp
    rw [loopIter]
    by_cases hlt : st.offset < st.getdents
    · obtain ⟨st2, h1, h2, h3, _⟩ := loopBody_step proc tasks st hb hp hlt
      simp only [hlt, if_true, h1]
      exact ih st2 h2 h3
    · simp only [hlt, if_false]
      exact ⟨st, rfl, hb, hp⟩

/-- The surviving record of `hijackedGetdents_absorb_all` as the caller reads it. -/
theorem hijackedGetdents_absorb_all_record (env : GetdentsEnv) (fd : Nat) (dirp : List Nat)
    (count : Nat) (a h : List Nat) (hs : List (List Nat))
    (hreal : env.originalGetdents fd dirp count
      = (((a :: h :: hs).flatten.length : Int), (a :: h :: hs).flatten))
    (hk : env.kzallocFails = false) (hcf : env.copyFromUserLeft = 0)
    (hct : env.copyToUserLeft = 0)
    (ha : validChunk a) (hna : hideTest (isProc env fd) env.tasks a 0 = false)
    (hhs : ∀ x ∈ h :: hs, hideTest (isProc env fd) env.tasks x 0 = true ∧ validChunk x) :
    ∃ out, hijackedGetdents env fd dirp count = Run.ok (((a :: h :: hs).flatten.length : Int), out)
      ∧ direntAt out 0
          = { direntAt a 0 with d_reclen := (a :: h :: hs).flatten.length % 65536 } := by
  have hv : ∀ c ∈ a :: h :: hs, validChunk c := by
    intro c hc
    rcases List.mem_cons.mp hc with rfl | hc
    · exact ha
    · exact (hhs c hc).2
  have ha18 : 18 ≤ a.length := by have := ha.2; omega
  have hreal2 : env.originalGetdents fd dirp count
      = (((a :: h :: hs).flatten.length : Int), (a :: h :: hs).flatten ++ []) := by
    rw [hreal, List.append_nil]
  have hrun := hijackedGetdents_chunks env fd dirp count (a :: h :: hs) [] hreal2
    (by simp only [List.flatten_cons, List.length_append]; omega) hk hcf hv
  obtain ⟨v, hv1, hv2⟩ := absorbChunks_all_hidden
    (fun c => hideTest (isProc env fd) env.tasks c 0) hs h a hhs ha18
  have hsp : spliceChunks (fun c => hideTest (isProc env fd) env.tasks c 0) (a :: h :: hs)
      = [set_d_reclen a 0 v ++ (h :: hs).flatten] := by
    rw [spliceChunks]
    simp only [hna, Bool.false_eq_true, if_false]
    exact hv1
  have hlen : (set_d_reclen a 0 v ++ (h :: hs).flatten).length = (a :: h :: hs).flatten.length := by
    simp [length_set_d_reclen]
  rw [hsp, hct] at hrun
  simp only [List.flatten_cons, List.flatten_nil, List.append_nil, Nat.sub_zero] at hrun hlen
  rw [List.take_length, hlen, List.drop_length, List.append_nil] at hrun
  refine ⟨_, by simpa using hrun, ?_⟩
  have h1 := direntAt_set_d_reclen a v ha18
  have hn := congrArg linux_dirent.d_name h1
  simp only [direntAt] at hn
  rw [direntAt_append (set_d_reclen a 0 v) (h ++ hs.flatten)
    (by rw [hn, length_set_d_reclen]; exact ha.2), h1, hv2, ha.1]
  simp

theorem sum_reclen_chunks (cs : List (List Nat)) (hv : ∀ c ∈ cs, validChunk c) :
    ((cs.map (fun o => direntAt o 0)).map linux_dirent.d_reclen).sum = cs.flatten.length := by
  induction cs with
  | nil => simp
  | cons c cs ih =>
    have hc : validChunk c := hv c (List.mem_cons_self _ _)
    simp only [List.map_cons, List.sum_cons, List.flatten_cons, List.length_append,
      ih (fun x hx => hv x (List.mem_cons_of_mem _ hx))]
    simp only [direntAt, hc.1]

theorem simple_strtoul_nondigit (name : List Nat) (h : startsWithDigit name = false) :
    simple_strtoul name = 0 := by
  cases name with
  | nil => rfl
  | cons b bs =>
    simp only [startsWithDigit] at h
    simp [simple_strtoul, List.takeWhile_cons, h]

theorem isIncognito_zero (tasks : List task_struct) : isIncognito tasks 0 = 0 := by
  simp [isIncognito]

theorem hiddenRecord_nondigit (tasks : List task_struct) (r : linux_dirent)
    (h : startsWithDigit r.d_name = false) : hiddenRecord true tasks r = false := by
  have e : toPid 0 = 0 := by decide
  simp [hiddenRecord, simple_strtoul_nondigit r.d_name h, e, isIncognito_zero]

set_option maxRecDepth 100000 in
/-- On `overlapListing`, once the offset is 258 the loop body leaves the state
as it is, so no number of iterations ends the loop. -/
theorem overlap_stuck : ∀ fuel,
    filterLoop false [] fuel (set_d_reclen overlapListing 0 257) 357 258 (some 258)
      = Run.diverges := by
  intro fuel
  induction fuel with
  | zero => rfl
  | succ f ih =>
    rw [filterLoop_succ]
    have h : loopBody false [] ⟨set_d_reclen overlapListing 0 257, 357, 258, some 258⟩
        = Run.ok ⟨set_d_reclen overlapListing 0 257, 357, 258, some 258⟩ := by decide
    rw [h]
    simpa using ih

/-! ## The claims -/

set_option maxRecDepth 100000 in
/-- C1, counterexample: on the well-formed directory listing "incognito_secret.txt"
(40 bytes), "notes.txt" (32 bytes), "incognito_secretdir" (40 bytes) the caller
reads back the single record "notes.txt" with `d_reclen` 72, not the input
record "notes.txt" with its `d_reclen` 32. -/
theorem getdents_hides_prefixed_counterexample :
    wellFormed filesListing 112
      ∧ listedRecords (hijackedGetdents (envOf filesListing 112 77 []) 3 [] 4096)
          = some [⟨12, 2, 72, name_notes⟩]
      ∧ (entries filesListing 112).filter (fun r => !(INCOGNITO_PREFIX.isPrefixOf r.d_name))
          = [⟨12, 2, 32, name_notes⟩]
      ∧ listedRecords (hijackedGetdents (envOf filesListing 112 77 []) 3 [] 4096)
          ≠ some ((entries filesListing 112).filter
              (fun r => !(INCOGNITO_PREFIX.isPrefixOf r.d_name))) := by
  refine ⟨by decide, by decide, by decide, by decide⟩

/-- C1, amended: for a well-formed listing of fewer than 65536 bytes that is not
a process listing, the records read back from the output are the input records
whose name does not start with `incognito_secret`, in their order, with the
same inode, offset and name; the `d_reclen` of each is its own plus the
lengths of the matching records that directly followed it (`splice`); no record
read back has a name starting with the prefix. -/
theorem getdents_hides_prefixed (env : GetdentsEnv) (fd : Nat) (dirp : List Nat) (count : Nat)
    (raw : Int) (user : List Nat)
    (hreal : env.originalGetdents fd dirp count = (raw, user))
    (hpos : 0 < raw) (hsmall : raw < 65536)
    (hk : env.kzallocFails = false) (hcf : env.copyFromUserLeft = 0)
    (hct : env.copyToUserLeft = 0) (hproc : isProc env fd = false)
    (hwf : wellFormed user raw.toNat) :
    ∃ (ret : Nat) (out : List Nat),
      hijackedGetdents env fd dirp count = Run.ok ((ret : Int), out)
        ∧ entries out ret
            = splice (fun r => INCOGNITO_PREFIX.isPrefixOf r.d_name) (entries user raw.toNat)
        ∧ (entries out ret).map identity
            = ((entries user raw.toNat).filter
                (fun r => !(INCOGNITO_PREFIX.isPrefixOf r.d_name))).map identity
        ∧ ∀ r ∈ entries out ret, INCOGNITO_PREFIX.isPrefixOf r.d_name = false := by
  obtain ⟨ret, out, hrun, _, hent⟩ :=
    hijackedGetdents_entries env fd dirp count raw user hreal hpos hsmall hk hcf hct hwf
  have hfun : hiddenRecord (isProc env fd) env.tasks
      = fun r => INCOGNITO_PREFIX.isPrefixOf r.d_name := by
    funext r; simp [hiddenRecord, hproc]
  rw [hfun] at hent
  refine ⟨ret, out, hrun, hent, ?_, ?_⟩
  · rw [hent]
    exact (spliceFrom_identity _ _).2
  · rw [hent]
    exact (spliceFrom_hidden (fun r => INCOGNITO_PREFIX.isPrefixOf r.d_name)
      (fun _ _ => rfl) _).2

set_option maxRecDepth 100000 in
/-- C1, witness: the amended claim on the listing of the counterexample. -/
theorem getdents_hides_prefixed_witness :
    wellFormed filesListing (112 : Int).toNat
      ∧ ∃ (ret : Nat) (out : List Nat),
        hijackedGetdents (envOf filesListing 112 77 []) 3 [] 4096 = Run.ok ((ret : Int), out)
          ∧ entries out ret
              = splice (fun r => INCOGNITO_PREFIX.isPrefixOf r.d_name)
                  (entries filesListing (112 : Int).toNat)
          ∧ (entries out ret).map identity
              = ((entries filesListing (112 : Int).toNat).filter
                  (fun r => !(INCOGNITO_PREFIX.isPrefixOf r.d_name))).map identity
          ∧ ∀ r ∈ entries out ret, INCOGNITO_PREFIX.isPrefixOf r.d_name = false :=
  ⟨by decide,
    getdents_hides_prefixed (envOf filesListing 112 77 []) 3 [] 4096 112 filesListing rfl
      (by decide) (by decide) rfl rfl rfl (by decide) (by decide)⟩

set_option maxRecDepth 100000 in
/-- C2, counterexample: on the well-formed process listing with records of 32,
24 and 36 bytes of which the first and the third match, the call returns 60,
not 92 minus the 68 bytes of the matching records. -/
theorem getdents_returned_length_counterexample :
    wellFormed procListing92 92
      ∧ (entries procListing92 92).map
          (fun r => (r.d_reclen, hiddenRecord true [⟨100, INCOGNITO⟩, ⟨300, INCOGNITO⟩] r))
          = [(32, true), (24, false), (36, true)]
      ∧ returnedLength (hijackedGetdents
          (envOf procListing92 92 1 [⟨100, INCOGNITO⟩, ⟨300, INCOGNITO⟩]) 3 [] 4096) = some 60
      ∧ returnedLength (hijackedGetdents
          (envOf procListing92 92 1 [⟨100, INCOGNITO⟩, ⟨300, INCOGNITO⟩]) 3 [] 4096)
        ≠ some (92 - ((((entries procListing92 92).filter
            (hiddenRecord true [⟨100, INCOGNITO⟩, ⟨300, INCOGNITO⟩])).map
              linux_dirent.d_reclen).sum : Nat)) := by
  refine ⟨by decide, by decide, by decide, by decide⟩

/-- C2, amended: for a well-formed listing the call returns the raw length
minus the sum of the `d_reclen` of the matching records that come before the
first surviving record; matching records after a surviving record do not
shorten the returned length. -/
theorem getdents_returned_length (env : GetdentsEnv) (fd : Nat) (dirp : List Nat) (count : Nat)
    (raw : Int) (user : List Nat)
    (hreal : env.originalGetdents fd dirp count = (raw, user))
    (hpos : 0 < raw) (hk : env.kzallocFails = false) (hcf : env.copyFromUserLeft = 0)
    (hwf : wellFormed user raw.toNat) :
    returnedLength (hijackedGetdents env fd dirp count)
      = some (raw - ((((entries user raw.toNat).takeWhile
          (hiddenRecord (isProc env fd) env.tasks)).map linux_dirent.d_reclen).sum : Nat)) := by
  obtain ⟨cs, hv, _, hraw, hent, hrun⟩ :=
    hijackedGetdents_wf env fd dirp count raw user hreal hpos hk hcf hwf
  have hlen := length_spliceChunks (fun c => hideTest (isProc env fd) env.tasks c 0) cs
  have hsum := sum_reclen_takeWhile (fun c => hideTest (isProc env fd) env.tasks c 0)
    (hiddenRecord (isProc env fd) env.tasks) (hideTest_chunk _ _) cs hv
  rw [hrun, hent, hsum, hraw]
  simp only [returnedLength, Option.some.injEq]
  omega

set_option maxRecDepth 100000 in
/-- C2, witness: the amended claim on the listing of the counterexample, where
only the first record (32 bytes) precedes the surviving one. -/
theorem getdents_returned_length_witness :
    wellFormed procListing92 (92 : Int).toNat
      ∧ returnedLength (hijackedGetdents
          (envOf procListing92 92 1 [⟨100, INCOGNITO⟩, ⟨300, INCOGNITO⟩]) 3 [] 4096)
        = some (92 - ((((entries procListing92 (92 : Int).toNat).takeWhile
            (hiddenRecord (isProc (envOf procListing92 92 1 [⟨100, INCOGNITO⟩, ⟨300, INCOGNITO⟩]) 3)
              (envOf procListing92 92 1 [⟨100, INCOGNITO⟩, ⟨300, INCOGNITO⟩]).tasks)).map
                linux_dirent.d_reclen).sum : Nat)) :=
  ⟨by decide,
    getdents_returned_length (envOf procListing92 92 1 [⟨100, INCOGNITO⟩, ⟨300, INCOGNITO⟩]) 3 []
      4096 92 procListing92 rfl (by decide) rfl rfl (by decide)⟩

/-- C3, the code at the failing input: the well-formed directory listing of
65552 bytes made of "notes.txt" (32 bytes) and 1638 matching files of 40 bytes.
The call returns 65552, but the only surviving record has `d_reclen`
65552 mod 65536 = 16, less than its own header; the record read next, at
offset 16, has `d_reclen` 0, so the `d_reclen` of the records visited sum to 16
and the output is not well-formed. -/
theorem getdents_reclen_wraps :
    wellFormed bigFilesListing 65552
      ∧ ∃ out, hijackedGetdents (envOf bigFilesListing 65552 77 []) 3 [] 65552
            = Run.ok (65552, out)
          ∧ d_reclen out 0 = 16 ∧ d_reclen out 16 = 0
          ∧ ((entries out 65552).map linux_dirent.d_reclen).sum = 16
          ∧ ¬ wellFormed out 65552 := by
  obtain ⟨hflat, hlen, hhs⟩ := bigFilesListing_chunks
  obtain ⟨ha, hna, hal⟩ := notes_chunk
  have hv : ∀ c ∈ mkDirent 12 2 32 name_notes :: secretFile 1000 :: secretFiles 1001 1637,
      validChunk c := by
    intro c hc
    rcases List.mem_cons.mp hc with rfl | hc
    · exact ha
    · exact (hhs c hc).2
  constructor
  · have := wellFormed_chunks _ [] hv
    rw [List.append_nil, hlen, ← hflat] at this
    exact this
  · have hreal : (envOf bigFilesListing 65552 77 []).originalGetdents 3 [] 65552
        = (((mkDirent 12 2 32 name_notes :: secretFile 1000 :: secretFiles 1001 1637).flatten.length
            : Int),
          (mkDirent 12 2 32 name_notes :: secretFile 1000 :: secretFiles 1001 1637).flatten) := by
      rw [hlen, ← hflat]; rfl
    obtain ⟨out, hrun, hrec, _, hdrop⟩ := hijackedGetdents_absorb_all
      (envOf bigFilesListing 65552 77 []) 3 [] 65552 _ _ _ hreal rfl rfl rfl ha hna hhs
    rw [hlen] at hrun hrec
    rw [hal] at hdrop
    have hnext : d_reclen out 16 = 0 := by
      have h1 := rdLE_drop 2 out 32 0
      rw [hdrop, List.flatten_cons] at h1
      unfold secretFile at h1
      rw [mkDirent_low_ino] at h1
      unfold d_reclen
      rw [← h1]
    have hsum : ((entries out 65552).map linux_dirent.d_reclen).sum = 16 := by
      have hw : entries out 65552 = direntAt out 0 :: walk out 65552 65551 (0 + d_reclen out 0) := by
        unfold entries
        rw [show (65552 : Nat) = 65551 + 1 from rfl, walk, if_pos (by norm_num)]
      rw [hw, hrec, List.map_cons, List.sum_cons, walk_stuck out 65552 (0 + 16) hnext]
      simp only [direntAt, hrec]
    refine ⟨out, hrun, hrec, hnext, hsum, ?_⟩
    intro hwf
    have := wfFrom_pos out 65552 65552 0 (by norm_num) (by norm_num) hwf.2
    rw [hrec] at this
    omega

/-- C4: on a well-formed listing with a positive raw length in which every
record matches the hide predicate, the call returns 0 (and the caller buffer is
left as the real call wrote it). -/
theorem getdents_all_hidden (env : GetdentsEnv) (fd : Nat) (dirp : List Nat) (count : Nat)
    (raw : Int) (user : List Nat)
    (hreal : env.originalGetdents fd dirp count = (raw, user))
    (hpos : 0 < raw) (hk : env.kzallocFails = false) (hcf : env.copyFromUserLeft = 0)
    (hwf : wellFormed user raw.toNat)
    (hall : ∀ r ∈ entries user raw.toNat, hiddenRecord (isProc env fd) env.tasks r = true) :
    hijackedGetdents env fd dirp count = Run.ok (0, user) := by
  obtain ⟨cs, hv, _, hraw, hent, hrun⟩ :=
    hijackedGetdents_wf env fd dirp count raw user hreal hpos hk hcf hwf
  have hnil : spliceChunks (fun c => hideTest (isProc env fd) env.tasks c 0) cs = [] := by
    apply spliceChunks_all_hidden
    intro c hc
    show hideTest (isProc env fd) env.tasks c 0 = true
    rw [hideTest_eq]
    apply hall
    rw [hent]
    exact List.mem_map_of_mem _ hc
  rw [hrun, hnil]
  simp

set_option maxRecDepth 100000 in
/-- C4, witness: a listing of two matching files, 80 bytes, is filtered to length 0. -/
theorem getdents_all_hidden_witness :
    wellFormed secretListing (80 : Int).toNat
      ∧ hijackedGetdents (envOf secretListing 80 77 []) 3 [] 4096 = Run.ok (0, secretListing) :=
  ⟨by decide,
    getdents_all_hidden (envOf secretListing 80 77 []) 3 [] 4096 80 secretListing rfl
      (by decide) rfl rfl (by decide) (by decide)⟩

/-- C5, the code at the failing input: the well-formed process listing of 65544
bytes made of the record "1" and the records of the 2730 hidden pids 1000 to
3729.  The only input record that is not hidden is "1", but the surviving
record gets `d_reclen` 65544 mod 65536 = 8, so the walk of the output reads at
least two records and their names are not the single name "1". -/
theorem getdents_proc_reclen_wraps :
    wellFormed bigProcListing 65544
      ∧ ((entries bigProcListing 65544).filter
          (fun r => !(hiddenRecord true bigProcTasks r))).map linux_dirent.d_name = [[49]]
      ∧ ∃ out, hijackedGetdents (envOf bigProcListing 65544 1 bigProcTasks) 3 [] 65544
            = Run.ok (65544, out)
          ∧ d_reclen out 0 = 8
          ∧ 2 ≤ ((entries out 65544).map linux_dirent.d_name).length
          ∧ (entries out 65544).map linux_dirent.d_name ≠ [[49]] := by
  obtain ⟨hflat, hlen, hhs⟩ := bigProcListing_chunks
  obtain ⟨ha, hna, _, hnm⟩ := init_chunk
  have hv : ∀ c ∈ mkDirent 21 1 24 [49] :: pidRecord 1000 :: pidRecords 1001 2729,
      validChunk c := by
    intro c hc
    rcases List.mem_cons.mp hc with rfl | hc
    · exact ha
    · exact (hhs c hc).2
  refine ⟨?_, ?_, ?_⟩
  · have := wellFormed_chunks _ [] hv
    rw [List.append_nil, hlen, ← hflat] at this
    exact this
  · have hent := entries_chunks _ [] hv
    rw [List.append_nil, hlen, ← hflat] at hent
    rw [hent, List.map_cons, List.filter_cons]
    have h1 : (!(hiddenRecord true bigProcTasks (direntAt (mkDirent 21 1 24 [49]) 0))) = true := by
      rw [← hideTest_eq, hna]; rfl
    have h2 : List.filter (fun r => !(hiddenRecord true bigProcTasks r))
        (List.map (fun o => direntAt o 0) (pidRecord 1000 :: pidRecords 1001 2729)) = [] := by
      rw [List.filter_eq_nil_iff]
      intro r hr
      obtain ⟨x, hx, rfl⟩ := List.mem_map.mp hr
      rw [← hideTest_eq, (hhs x hx).1]
      simp
    rw [if_pos h1, h2, List.map_cons, List.map_nil, hnm]
  · have hreal : (envOf bigProcListing 65544 1 bigProcTasks).originalGetdents 3 [] 65544
        = (((mkDirent 21 1 24 [49] :: pidRecord 1000 :: pidRecords 1001 2729).flatten.length : Int),
          (mkDirent 21 1 24 [49] :: pidRecord 1000 :: pidRecords 1001 2729).flatten) := by
      rw [hlen, ← hflat]; rfl
    obtain ⟨out, hrun, hrec, _⟩ := hijackedGetdents_absorb_all
      (envOf bigProcListing 65544 1 bigProcTasks) 3 [] 65544 _ _ _ hreal rfl rfl rfl ha hna hhs
    rw [hlen] at hrun hrec
    have h2 : 2 ≤ (entries out 65544).length :=
      walk_two out 65544 65544 (by norm_num) (by norm_num) (by rw [hrec]; norm_num)
    refine ⟨out, hrun, hrec, by rw [List.length_map]; exact h2, ?_⟩
    intro hc
    have := congrArg List.length hc
    rw [List.length_map] at this
    simp at this
    omega

set_option maxRecDepth 100000 in
/-- The scenario of C5 on the code: of the records "100", "200", "300" with
only pid 200 hidden the caller reads back "100" and "300"; in a process listing
a name carrying the prefix is not removed. -/
theorem getdents_proc_scenario :
    (listedRecords (hijackedGetdents (envOf procListing 72 1 [⟨200, INCOGNITO⟩]) 3 [] 4096)).map
        (fun rs => rs.map linux_dirent.d_name) = some [name_100, name_300]
      ∧ (listedRecords (hijackedGetdents (envOf filesListing 112 1 [⟨200, INCOGNITO⟩]) 3 [] 4096)).map
        (fun rs => rs.map linux_dirent.d_name)
          = some [name_secret_txt, name_notes, name_secretdir] := by
  refine ⟨by decide, by decide⟩

set_option maxRecDepth 100000 in
/-- C6, counterexample: process listing "100", "200", "300" (24 bytes each) with
pid 200 hidden.  After `hijackedKill(200, 31)` the second output holds the
record "200", but its other records are not those of the first output: record
"100" has `d_reclen` 24 in the second output and 48 in the first. -/
theorem getdents_after_unhide_counterexample :
    wellFormed procListing 72
      ∧ listedRecords (hijackedGetdents (envOf procListing 72 1 [⟨200, INCOGNITO⟩]) 3 [] 4096)
          = some [⟨21, 1, 48, name_100⟩, ⟨23, 3, 24, name_300⟩]
      ∧ (hijackedKill (fun _ _ s => (0, s)) 200 31
            ⟨1, 1, [⟨200, INCOGNITO⟩], 0, ⟨0, 0, 0, 0, 0, 0, 0, 0⟩, [], list_head.null, false, 1,
              []⟩).2.tasks = [⟨200, 0⟩]
      ∧ listedRecords (hijackedGetdents (envOf procListing 72 1 [⟨200, 0⟩]) 3 [] 4096)
          = some [⟨21, 1, 24, name_100⟩, ⟨22, 2, 24, name_200⟩, ⟨23, 3, 24, name_300⟩]
      ∧ (listedRecords (hijackedGetdents (envOf procListing 72 1 [⟨200, 0⟩]) 3 [] 4096)).map
            (fun rs => rs.filter (fun r => decide (r.d_name ≠ name_200)))
          ≠ listedRecords (hijackedGetdents (envOf procListing 72 1 [⟨200, INCOGNITO⟩]) 3 [] 4096) := by
  refine ⟨by decide, by decide, by decide, by decide, by decide⟩

/-- C6, amended: for a well-formed process listing of fewer than 65536 bytes and
an existing non-zero pid `p` whose hidden bit is set, the records read back from
the first output name no pid `p`; `hijackedKill(p, 31)` returns 0, and filtering
the same raw buffer afterwards gives an output whose records, the ones naming
`p` left out, have the same inode, offset and name, in the same order, as those
of the first output, and whose records naming `p` are those of the raw buffer.
The `d_reclen` of a record may differ between the two outputs. -/
theorem getdents_after_unhide (env : GetdentsEnv) (fd : Nat) (dirp : List Nat) (count : Nat)
    (raw : Int) (user : List Nat) (originalKill : Int → Int → KState → Int × KState)
    (s : KState) (p : Int) (i : Nat)
    (htasks : env.tasks = s.tasks)
    (hreal : env.originalGetdents fd dirp count = (raw, user))
    (hpos : 0 < raw) (hsmall : raw < 65536)
    (hk : env.kzallocFails = false) (hcf : env.copyFromUserLeft = 0)
    (hct : env.copyToUserLeft = 0) (hproc : isProc env fd = true)
    (hwf : wellFormed user raw.toNat)
    (hp0 : p ≠ 0) (hfound : fetchTask s.tasks p = some i)
    (hbit : task_flags s.tasks i &&& INCOGNITO ≠ 0) :
    (hijackedKill originalKill p 31 s).1 = 0
      ∧ ∃ (ret1 : Nat) (out1 : List Nat) (ret2 : Nat) (out2 : List Nat),
          hijackedGetdents env fd dirp count = Run.ok ((ret1 : Int), out1)
          ∧ hijackedGetdents { env with tasks := (hijackedKill originalKill p 31 s).2.tasks }
              fd dirp count = Run.ok ((ret2 : Int), out2)
          ∧ (∀ x ∈ (entries out1 ret1).map identity, namedPid x ≠ p)
          ∧ ((entries out2 ret2).map identity).filter (fun x => decide (namedPid x ≠ p))
              = (entries out1 ret1).map identity
          ∧ ((entries out2 ret2).map identity).filter (fun x => decide (namedPid x = p))
              = ((entries user raw.toNat).map identity).filter (fun x => decide (namedPid x = p)) := by
  have hkill : hijackedKill originalKill p 31 s = (0, { s with tasks := toggleIncognito s.tasks i }) := by
    simp [hijackedKill, SIGHIDE, hfound]
  rw [hkill]
  refine ⟨rfl, ?_⟩
  obtain ⟨ret1, out1, hrun1, _, hent1⟩ :=
    hijackedGetdents_entries env fd dirp count raw user hreal hpos hsmall hk hcf hct hwf
  obtain ⟨ret2, out2, hrun2, _, hent2⟩ :=
    hijackedGetdents_entries { env with tasks := toggleIncognito s.tasks i } fd dirp count raw user
      hreal hpos hsmall hk hcf hct hwf
  have hproc2 : isProc { env with tasks := toggleIncognito s.tasks i } fd = true := hproc
  rw [hproc, htasks] at hent1
  rw [hproc2] at hent2
  simp only [] at hent2
  have hid1 : ∀ r, hiddenRecord true s.tasks r
      = decide (isIncognito s.tasks (namedPid (identity r)) ≠ 0) := by
    intro r; simp [hiddenRecord, namedPid, identity]
  have hid2 : ∀ r, hiddenRecord true (toggleIncognito s.tasks i) r
      = (hiddenRecord true s.tasks r && decide (namedPid (identity r) ≠ p)) := by
    intro r
    rw [hid1 r]
    simp only [hiddenRecord, namedPid, identity, Bool.not_true, Bool.false_and, Bool.false_or,
      Bool.true_and, isIncognito_toggle s.tasks p i hfound hbit]
    by_cases hq : toPid (simple_strtoul r.d_name) = p
    · simp [hq]
    · simp [hq]
  have hidp : ∀ r, namedPid (identity r) = p → hiddenRecord true s.tasks r = true := by
    intro r hr
    rw [hid1 r, hr]
    simp [isIncognito, hp0, hfound, hbit]
  refine ⟨ret1, out1, ret2, out2, hrun1, hrun2, ?_, ?_, ?_⟩
  · intro x hx
    rw [hent1, splice_identity] at hx
    obtain ⟨r, hr, rfl⟩ := List.mem_map.mp hx
    have hnh := (List.mem_filter.mp hr).2
    intro hc
    rw [hidp r hc] at hnh
    simp at hnh
  · rw [hent2, hent1, splice_identity, splice_identity, List.filter_map, List.filter_filter]
    congr 1
    apply List.filter_congr
    intro r _
    rw [hid2 r]
    by_cases hq : namedPid (identity r) = p
    · simp [hq, hidp r hq]
    · simp [hq]
  · rw [hent2, splice_identity, List.filter_map, List.filter_map, List.filter_filter]
    congr 1
    apply List.filter_congr
    intro r _
    rw [hid2 r]
    by_cases hq : namedPid (identity r) = p
    · simp [hq]
    · simp [hq]

set_option maxRecDepth 100000 in
/-- C6, witness: the amended claim on the listing of the counterexample with `p` = 200. -/
theorem getdents_after_unhide_witness :
    wellFormed procListing (72 : Int).toNat
      ∧ (hijackedKill (fun _ _ s => (0, s)) 200 31
          ⟨1, 1, [⟨200, INCOGNITO⟩], 0, ⟨0, 0, 0, 0, 0, 0, 0, 0⟩, [], list_head.null, false, 1,
            []⟩).1 = 0
      ∧ ∃ (ret1 : Nat) (out1 : List Nat) (ret2 : Nat) (out2 : List Nat),
          hijackedGetdents (envOf procListing 72 1 [⟨200, INCOGNITO⟩]) 3 [] 4096
            = Run.ok ((ret1 : Int), out1)
          ∧ hijackedGetdents
              { envOf procListing 72 1 [⟨200, INCOGNITO⟩] with
                tasks := (hijackedKill (fun _ _ s => (0, s)) 200 31
                  ⟨1, 1, [⟨200, INCOGNITO⟩], 0, ⟨0, 0, 0, 0, 0, 0, 0, 0⟩, [], list_head.null,
                    false, 1, []⟩).2.tasks }
              3 [] 4096 = Run.ok ((ret2 : Int), out2)
          ∧ (∀ x ∈ (entries out1 ret1).map identity, namedPid x ≠ 200)
          ∧ ((entries out2 ret2).map identity).filter (fun x => decide (namedPid x ≠ 200))
              = (entries out1 ret1).map identity
          ∧ ((entries out2 ret2).map identity).filter (fun x => decide (namedPid x = 200))
              = ((entries procListing (72 : Int).toNat).map identity).filter
                  (fun x => decide (namedPid x = 200)) :=
  ⟨by decide,
    getdents_after_unhide (envOf procListing 72 1 [⟨200, INCOGNITO⟩]) 3 [] 4096 72 procListing
      (fun _ _ s => (0, s))
      ⟨1, 1, [⟨200, INCOGNITO⟩], 0, ⟨0, 0, 0, 0, 0, 0, 0, 0⟩, [], list_head.null, false, 1, []⟩
      200 0 rfl rfl (by decide) (by decide) rfl rfl rfl (by decide) (by decide) (by decide)
      (by decide) (by decide)⟩

/-- C7: for a signal code other than 31, 1, 64, 63 and 2, `hijackedKill` is the
real call on the same two arguments: same return value and same state after
it, for every target pid; when the real call leaves the state alone, so does
`hijackedKill`. -/
theorem hijackedKill_passthrough (originalKill : Int → Int → KState → Int × KState)
    (pid signal : Int) (s : KState)
    (h31 : signal ≠ 31) (h1 : signal ≠ 1) (h64 : signal ≠ 64) (h63 : signal ≠ 63)
    (h2 : signal ≠ 2) :
    hijackedKill originalKill pid signal s = originalKill pid signal s
      ∧ ∀ r : Int → Int → Int,
          hijackedKill (fun p g st => (r p g, st)) pid signal s = (r pid signal, s) := by
  constructor
  · simp [hijackedKill, SIGHIDE, SIGPROTECT, SIGROOT, SIGMODHIDE, SIGHELP, h31, h1, h64, h63, h2]
  · intro r
    simp [hijackedKill, SIGHIDE, SIGPROTECT, SIGROOT, SIGMODHIDE, SIGHELP, h31, h1, h64, h63, h2]

/-- C7, witness: signal 9 to pid 1234 goes to the real call. -/
theorem hijackedKill_passthrough_witness :
    hijackedKill (fun pid sig s => (pid + sig, { s with refcnt := 7 })) 1234 9
        ⟨1, 1, [], 0, ⟨0, 0, 0, 0, 0, 0, 0, 0⟩, [], list_head.null, false, 0, []⟩
      = (1243, ⟨1, 1, [], 0, ⟨0, 0, 0, 0, 0, 0, 0, 0⟩, [], list_head.null, false, 7, []⟩) :=
  (hijackedKill_passthrough (fun pid sig s => (pid + sig, { s with refcnt := 7 })) 1234 9
    ⟨1, 1, [], 0, ⟨0, 0, 0, 0, 0, 0, 0, 0⟩, [], list_head.null, false, 0, []⟩
    (by decide) (by decide) (by decide) (by decide) (by decide)).1

/-- C8: in a state whose flags hold 0 or 1, `hijackedKill(_, 63)` returns 0 and
inverts `hidden`, and a second one returns 0 and brings `hidden` back to its
value; the same holds for `hijackedKill(_, 1)` and `protected`. -/
theorem hijackedKill_toggles (originalKill : Int → Int → KState → Int × KState)
    (pid pid2 : Int) (s : KState) (hb : flagsBoolean s) :
    (hijackedKill originalKill pid 63 s).1 = 0
      ∧ (hijackedKill originalKill pid 63 s).2.hidden = (if s.hidden = 0 then 1 else 0)
      ∧ (hijackedKill originalKill pid2 63 (hijackedKill originalKill pid 63 s).2).1 = 0
      ∧ (hijackedKill originalKill pid2 63 (hijackedKill originalKill pid 63 s).2).2.hidden
          = s.hidden
      ∧ (hijackedKill originalKill pid 1 s).1 = 0
      ∧ (hijackedKill originalKill pid 1 s).2.protected_ = (if s.protected_ = 0 then 1 else 0)
      ∧ (hijackedKill originalKill pid2 1 (hijackedKill originalKill pid 1 s).2).1 = 0
      ∧ (hijackedKill originalKill pid2 1 (hijackedKill originalKill pid 1 s).2).2.protected_
          = s.protected_ := by
  obtain ⟨hh, hp⟩ := hb
  refine ⟨?_, ?_, ?_, ?_, ?_, ?_, ?_, ?_⟩
  · simp [hijackedKill, SIGHIDE, SIGPROTECT, SIGROOT, SIGMODHIDE, SIGHELP]
  · rcases hh with h | h <;>
      simp [hijackedKill, SIGHIDE, SIGPROTECT, SIGROOT, SIGMODHIDE, SIGHELP, hide, reveal, h]
  · simp [hijackedKill, SIGHIDE, SIGPROTECT, SIGROOT, SIGMODHIDE, SIGHELP]
  · rcases hh with h | h <;>
      simp [hijackedKill, SIGHIDE, SIGPROTECT, SIGROOT, SIGMODHIDE, SIGHELP, hide, reveal, h]
  · simp [hijackedKill, SIGHIDE, SIGPROTECT, SIGROOT, SIGMODHIDE, SIGHELP]
  · rcases hp with h | h <;>
      simp [hijackedKill, SIGHIDE, SIGPROTECT, SIGROOT, SIGMODHIDE, SIGHELP, protect, unprotect, h]
  · simp [hijackedKill, SIGHIDE, SIGPROTECT, SIGROOT, SIGMODHIDE, SIGHELP]
  · rcases hp with h | h <;>
      simp [hijackedKill, SIGHIDE, SIGPROTECT, SIGROOT, SIGMODHIDE, SIGHELP, protect, unprotect, h]

/-- C8, witness: the state after loading (hidden and protected) with the module
unlinked after module 4. -/
theorem hijackedKill_toggles_witness :
    flagsBoolean ⟨1, 1, [], 0, ⟨5, 5, 5, 5, 5, 5, 5, 5⟩, [4, 9], list_head.node 4, false, 1, []⟩
      ∧ (hijackedKill (fun _ _ s => (0, s)) 0 63
          ⟨1, 1, [], 0, ⟨5, 5, 5, 5, 5, 5, 5, 5⟩, [4, 9], list_head.node 4, false, 1, []⟩).2.hidden = 0
      ∧ (hijackedKill (fun _ _ s => (0, s)) 0 63
          (hijackedKill (fun _ _ s => (0, s)) 0 63
            ⟨1, 1, [], 0, ⟨5, 5, 5, 5, 5, 5, 5, 5⟩, [4, 9], list_head.node 4, false, 1,
              []⟩).2).2.hidden = 1 :=
  ⟨by decide,
    (hijackedKill_toggles (fun _ _ s => (0, s)) 0 0
      ⟨1, 1, [], 0, ⟨5, 5, 5, 5, 5, 5, 5, 5⟩, [4, 9], list_head.node 4, false, 1, []⟩
      (by decide)).2.1,
    (hijackedKill_toggles (fun _ _ s => (0, s)) 0 0
      ⟨1, 1, [], 0, ⟨5, 5, 5, 5, 5, 5, 5, 5⟩, [4, 9], list_head.node 4, false, 1, []⟩
      (by decide)).2.2.2.1⟩

/-- C9: `hijackedKill(pid, 31)` returns `-ESRCH` (-3) and leaves the state as it
is, whatever the real kill is, when `fetchTask` finds no process; otherwise it
returns 0 and the only change of the state is that the flag word of the
process found is XORed with 0x10000000: bit 28 is flipped, every other bit of
that word and every other process keep their value. -/
theorem hijackedKill_sighide (originalKill : Int → Int → KState → Int × KState)
    (pid : Int) (s : KState) :
    (fetchTask s.tasks pid = none → hijackedKill originalKill pid 31 s = (-3, s))
      ∧ (∀ i, fetchTask s.tasks pid = some i →
          ∃ t, s.tasks.get? i = some t ∧ t.pid = pid
            ∧ hijackedKill originalKill pid 31 s
                = (0, { s with tasks := s.tasks.set i { t with flags := t.flags ^^^ 0x10000000 } })
            ∧ (∀ k, (t.flags ^^^ 0x10000000).testBit k
                = if k = 28 then !(t.flags.testBit 28) else t.flags.testBit k)
            ∧ (∀ j, j ≠ i →
                (s.tasks.set i { t with flags := t.flags ^^^ 0x10000000 }).get? j = s.tasks.get? j)
            ∧ (s.tasks.set i { t with flags := t.flags ^^^ 0x10000000 }).length = s.tasks.length) := by
  constructor
  · intro h
    simp [hijackedKill, SIGHIDE, h, ESRCH]
  · intro i h
    obtain ⟨t, ht, htp⟩ := fetchTask_some s.tasks pid i h
    refine ⟨t, ht, htp, ?_, testBit_xor_INCOGNITO t.flags, ?_, by simp⟩
    · have ht2 : s.tasks[i]? = some t := by simpa using ht
      simp [hijackedKill, SIGHIDE, h, toggleIncognito, ht2, INCOGNITO]
    · intro j hj
      simp [List.getElem?_set_ne (Ne.symm hj)]

/-- C9, witness: with processes 200 and 100, pid 7 is not found and pid 100 is
found at position 1. -/
theorem hijackedKill_sighide_witness :
    hijackedKill (fun _ _ s => (5, s)) 7 31
        ⟨0, 0, [⟨200, 0x10000040⟩, ⟨100, 0x40⟩], 0, ⟨0, 0, 0, 0, 0, 0, 0, 0⟩, [], list_head.null, false, 0, []⟩
      = (-3, ⟨0, 0, [⟨200, 0x10000040⟩, ⟨100, 0x40⟩], 0, ⟨0, 0, 0, 0, 0, 0, 0, 0⟩, [], list_head.null, false, 0, []⟩)
    ∧ ∃ t, [(⟨200, 0x10000040⟩ : task_struct), ⟨100, 0x40⟩].get? 1 = some t ∧ t.pid = 100
      ∧ hijackedKill (fun _ _ s => (5, s)) 100 31
          ⟨0, 0, [⟨200, 0x10000040⟩, ⟨100, 0x40⟩], 0, ⟨0, 0, 0, 0, 0, 0, 0, 0⟩, [], list_head.null, false, 0, []⟩
        = (0, ⟨0, 0, [(⟨200, 0x10000040⟩ : task_struct), ⟨100, 0x40⟩].set 1 { t with flags := t.flags ^^^ 0x10000000 },
            0, ⟨0, 0, 0, 0, 0, 0, 0, 0⟩, [], list_head.null, false, 0, []⟩) :=
  ⟨(hijackedKill_sighide (fun _ _ s => (5, s)) 7
      ⟨0, 0, [⟨200, 0x10000040⟩, ⟨100, 0x40⟩], 0, ⟨0, 0, 0, 0, 0, 0, 0, 0⟩, [], list_head.null, false, 0, []⟩).1
      (by decide),
   by
    obtain ⟨t, h1, h2, h3, _⟩ := (hijackedKill_sighide (fun _ _ s => (5, s)) 100
      ⟨0, 0, [⟨200, 0x10000040⟩, ⟨100, 0x40⟩], 0, ⟨0, 0, 0, 0, 0, 0, 0, 0⟩, [], list_head.null, false, 0, []⟩).2
      1 (by decide)
    exact ⟨t, h1, h2, h3⟩⟩

set_option maxRecDepth 100000 in
/-- C10, the code at the failing inputs: when `copy_from_user` fails the call
returns the raw length 112 with the caller buffer unfiltered, and when
`copy_to_user` copies nothing the call still returns the filtered length 72
with the caller buffer as the real call left it. -/
theorem getdents_copy_failure_returns_length :
    hijackedGetdents { envOf filesListing 112 77 [] with copyFromUserLeft := 112 } 3 [] 4096
        = Run.ok (112, filesListing)
      ∧ hijackedGetdents { envOf filesListing 112 77 [] with copyToUserLeft := 72 } 3 [] 4096
        = Run.ok (72, filesListing) := by
  refine ⟨by decide, by decide⟩

/-- C11: when the real call returns a value that is not positive, or when
`kzalloc` fails, `hijackedGetdents` returns the result of the real call and the
caller buffer is as the real call left it. -/
theorem getdents_passthrough (env : GetdentsEnv) (fd : Nat) (dirp : List Nat) (count : Nat)
    (h : (env.originalGetdents fd dirp count).1 ≤ 0 ∨ env.kzallocFails = true) :
    hijackedGetdents env fd dirp count = Run.ok (env.originalGetdents fd dirp count) := by
  unfold hijackedGetdents
  rcases h with h | h
  · simp [h]
  · by_cases h0 : (env.originalGetdents fd dirp count).1 ≤ 0
    · simp [h0]
    · simp [h0, h]

set_option maxRecDepth 100000 in
/-- C11, witness: an error result -9 with an untouched buffer, and a listing of
112 bytes for which the allocation fails. -/
theorem getdents_passthrough_witness :
    hijackedGetdents (envOf [7, 7, 7] (-9) 77 []) 3 [] 4096 = Run.ok (-9, [7, 7, 7])
      ∧ hijackedGetdents { envOf filesListing 112 77 [] with kzallocFails := true } 3 [] 4096
          = Run.ok (112, filesListing) :=
  ⟨getdents_passthrough (envOf [7, 7, 7] (-9) 77 []) 3 [] 4096 (Or.inl (by decide)),
    getdents_passthrough { envOf filesListing 112 77 [] with kzallocFails := true } 3 [] 4096
      (Or.inr rfl)⟩

/-- C12: after `incognito_init` on a kernel of version 4.4.0 or later whose
table is found, with the two indices inside the table and distinct, the call
returns 0, the entries at the kill and getdents indices hold the addresses of
`hijackedKill` and `hijackedGetdents`, `originalKill` and `originalGetdents`
hold the former entries, every other entry is unchanged, and `incognito_exit`
after it leaves the table as it was before `incognito_init`. -/
theorem init_exit_table (env : LoadEnv) (s : ModState)
    (hver : KERNEL_VERSION 4 4 0 ≤ env.LINUX_VERSION_CODE)
    (hfound : env.kallsyms_sys_call_table ≠ 0)
    (hk : env.NR_kill < s.table.length) (hg : env.NR_getdents < s.table.length)
    (hne : env.NR_kill ≠ env.NR_getdents) :
    (incognito_init env s).1 = 0
      ∧ (incognito_init env s).2.table.get? env.NR_kill = some env.addr_hijackedKill
      ∧ (incognito_init env s).2.table.get? env.NR_getdents = some env.addr_hijackedGetdents
      ∧ some (incognito_init env s).2.originalKill = s.table.get? env.NR_kill
      ∧ some (incognito_init env s).2.originalGetdents = s.table.get? env.NR_getdents
      ∧ (∀ i, i ≠ env.NR_kill → i ≠ env.NR_getdents →
          (incognito_init env s).2.table.get? i = s.table.get? i)
      ∧ ∃ s2, incognito_exit env (incognito_init env s).2 = Run.ok s2 ∧ s2.table = s.table := by
  obtain ⟨h0, ht, hok, hog, hsys, _, _⟩ := incognito_init_found env s hver hfound
  have hsys2 : (incognito_init env s).2.sys_call_table ≠ 0 := by rw [hsys]; exact hfound
  obtain ⟨s2, hexit, hs2⟩ := incognito_exit_table env (incognito_init env s).2 hsys2
  refine ⟨h0, ?_, ?_, ?_, ?_, ?_, s2, hexit, ?_⟩
  · rw [ht, List.get?_eq_getElem?, List.getElem?_set_ne (Ne.symm hne),
      List.getElem?_set_self hk]
  · rw [ht, List.get?_eq_getElem?, List.getElem?_set_self (by simpa using hg)]
  · rw [hok, List.get?_eq_getElem?, List.getElem?_eq_getElem hk]
    simp [List.getD_eq_getElem?_getD, List.getElem?_eq_getElem hk]
  · rw [hog, List.get?_eq_getElem?, List.getElem?_eq_getElem hg]
    simp [List.getD_eq_getElem?_getD, List.getElem?_set_ne hne, List.getElem?_eq_getElem hg]
  · intro i h1 h2
    rw [ht, List.get?_eq_getElem?, List.get?_eq_getElem?, List.getElem?_set_ne (Ne.symm h2),
      List.getElem?_set_ne (Ne.symm h1)]
  · rw [hs2, ht, hok, hog]
    apply List.ext_getElem?
    intro i
    by_cases h1 : i = env.NR_kill
    · subst h1
      simp [List.getElem?_set_ne hne.symm, List.getElem?_set_self, hk,
        List.getD_eq_getElem?_getD, List.getElem?_eq_getElem hk]
    · by_cases h2 : i = env.NR_getdents
      · subst h2
        simp [List.getElem?_set_ne hne, List.getElem?_set_self, hg,
          List.getD_eq_getElem?_getD, List.getElem?_eq_getElem hg]
      · simp [List.getElem?_set_ne (Ne.symm h1), List.getElem?_set_ne (Ne.symm h2)]

/-- C12, witness: a table of five entries with the kill index 1 and the
getdents index 3. -/
theorem init_exit_table_witness :
    (incognito_init ⟨KERNEL_VERSION 4 15 0, 4096, 1, 3, 901, 903⟩
        (unloaded ⟨0, 0, [], 0, ⟨5, 5, 5, 5, 5, 5, 5, 5⟩, [0, 8], list_head.null, true, 0, []⟩
          [100, 101, 102, 103, 104] 1)).2.table = [100, 901, 102, 903, 104]
      ∧ ∃ s2, incognito_exit ⟨KERNEL_VERSION 4 15 0, 4096, 1, 3, 901, 903⟩
          (incognito_init ⟨KERNEL_VERSION 4 15 0, 4096, 1, 3, 901, 903⟩
            (unloaded ⟨0, 0, [], 0, ⟨5, 5, 5, 5, 5, 5, 5, 5⟩, [0, 8], list_head.null, true, 0, []⟩
              [100, 101, 102, 103, 104] 1)).2 = Run.ok s2
          ∧ s2.table = [100, 101, 102, 103, 104] :=
  ⟨by decide,
    (init_exit_table ⟨KERNEL_VERSION 4 15 0, 4096, 1, 3, 901, 903⟩
      (unloaded ⟨0, 0, [], 0, ⟨5, 5, 5, 5, 5, 5, 5, 5⟩, [0, 8], list_head.null, true, 0, []⟩
        [100, 101, 102, 103, 104] 1)
      (by decide) (by decide) (by decide) (by decide) (by decide)).2.2.2.2.2.2⟩

/-- C13: on a kernel of version 4.4.0 or later, when the lookup of the table
yields null, `incognito_init` returns `-ENOENT` (-2); the table, `originalKill`,
`originalGetdents`, `hidden` and `protected` are as before, so that the flags
of a module not yet loaded stay 0; of the whole state only the kernel log,
which gets the error message, and the global `sys_call_table`, which holds the
null result, are written. -/
theorem init_no_table (env : LoadEnv) (s : ModState)
    (hver : KERNEL_VERSION 4 4 0 ≤ env.LINUX_VERSION_CODE)
    (hnull : env.kallsyms_sys_call_table = 0) :
    incognito_init env s = (-2, logMsg LogMsg.noTable { s with sys_call_table := 0 })
      ∧ (incognito_init env s).2.table = s.table
      ∧ (incognito_init env s).2.originalKill = s.originalKill
      ∧ (incognito_init env s).2.originalGetdents = s.originalGetdents
      ∧ (incognito_init env s).2.k.hidden = s.k.hidden
      ∧ (incognito_init env s).2.k.protected_ = s.k.protected_
      ∧ ∀ k table pte, (incognito_init env (unloaded k table pte)).2.k.hidden = 0
          ∧ (incognito_init env (unloaded k table pte)).2.k.protected_ = 0
          ∧ (incognito_init env (unloaded k table pte)).2.table = table
          ∧ (incognito_init env (unloaded k table pte)).2.originalKill = 0
          ∧ (incognito_init env (unloaded k table pte)).2.originalGetdents = 0
          ∧ (incognito_init env (unloaded k table pte)).2.sys_call_table = 0 := by
  have hv : ¬ (env.LINUX_VERSION_CODE < KERNEL_VERSION 4 4 0) := by omega
  have h1 : ∀ t : ModState,
      incognito_init env t = (-2, logMsg LogMsg.noTable { t with sys_call_table := 0 }) := by
    intro t
    simp only [incognito_init, hv, if_false, hnull, if_true, ENOENT]
  refine ⟨h1 s, ?_, ?_, ?_, ?_, ?_, ?_⟩
  · rw [h1 s]; rfl
  · rw [h1 s]; rfl
  · rw [h1 s]; rfl
  · rw [h1 s]; rfl
  · rw [h1 s]; rfl
  · intro k table pte
    rw [h1 (unloaded k table pte)]
    exact ⟨rfl, rfl, rfl, rfl, rfl, rfl⟩

/-- C13, witness: a load on kernel 4.15.0 with the table not found. -/
theorem init_no_table_witness :
    incognito_init ⟨KERNEL_VERSION 4 15 0, 0, 1, 3, 901, 903⟩
        (unloaded ⟨0, 0, [], 0, ⟨5, 5, 5, 5, 5, 5, 5, 5⟩, [0, 8], list_head.null, true, 0, []⟩
          [100, 101, 102, 103, 104] 1)
      = (-2, logMsg LogMsg.noTable
          { unloaded ⟨0, 0, [], 0, ⟨5, 5, 5, 5, 5, 5, 5, 5⟩, [0, 8], list_head.null, true, 0, []⟩
              [100, 101, 102, 103, 104] 1 with sys_call_table := 0 }) :=
  (init_no_table ⟨KERNEL_VERSION 4 15 0, 0, 1, 3, 901, 903⟩
    (unloaded ⟨0, 0, [], 0, ⟨5, 5, 5, 5, 5, 5, 5, 5⟩, [0, 8], list_head.null, true, 0, []⟩
      [100, 101, 102, 103, 104] 1) (by decide) rfl).1

/-- C14: on a kernel of version 4.4.0 or later, after an `incognito_init` that
finds the table, started with `hidden` = 0 and `protected` = 0, the call has
returned 0 and `hidden` = 1 and `protected` = 1. -/
theorem init_hidden_protected (env : LoadEnv) (s : ModState)
    (hver : KERNEL_VERSION 4 4 0 ≤ env.LINUX_VERSION_CODE)
    (hfound : env.kallsyms_sys_call_table ≠ 0)
    (hh : s.k.hidden = 0) (hp : s.k.protected_ = 0) :
    (incognito_init env s).1 = 0
      ∧ (incognito_init env s).2.k.hidden = 1
      ∧ (incognito_init env s).2.k.protected_ = 1 := by
  obtain ⟨h0, _, _, _, _, h1, h2⟩ := incognito_init_found env s hver hfound
  refine ⟨h0, ?_, ?_⟩
  · rw [h1]; simp [hide, hh]
  · rw [h2]; simp [protect, hp]

/-- C14, witness: a load on kernel 4.15.0 of the module not yet loaded. -/
theorem init_hidden_protected_witness :
    (incognito_init ⟨KERNEL_VERSION 4 15 0, 4096, 1, 3, 901, 903⟩
        (unloaded ⟨0, 0, [], 0, ⟨5, 5, 5, 5, 5, 5, 5, 5⟩, [0, 8], list_head.null, true, 0, []⟩
          [100, 101, 102, 103, 104] 1)).1 = 0
      ∧ (incognito_init ⟨KERNEL_VERSION 4 15 0, 4096, 1, 3, 901, 903⟩
        (unloaded ⟨0, 0, [], 0, ⟨5, 5, 5, 5, 5, 5, 5, 5⟩, [0, 8], list_head.null, true, 0, []⟩
          [100, 101, 102, 103, 104] 1)).2.k.hidden = 1
      ∧ (incognito_init ⟨KERNEL_VERSION 4 15 0, 4096, 1, 3, 901, 903⟩
        (unloaded ⟨0, 0, [], 0, ⟨5, 5, 5, 5, 5, 5, 5, 5⟩, [0, 8], list_head.null, true, 0, []⟩
          [100, 101, 102, 103, 104] 1)).2.k.protected_ = 1 :=
  init_hidden_protected ⟨KERNEL_VERSION 4 15 0, 4096, 1, 3, 901, 903⟩
    (unloaded ⟨0, 0, [], 0, ⟨5, 5, 5, 5, 5, 5, 5, 5⟩, [0, 8], list_head.null, true, 0, []⟩
      [100, 101, 102, 103, 104] 1) (by decide) (by decide) rfl rfl

/-- C15: for every pid and every real kill, `hijackedKill(pid, 64)` returns 0
and the state after it is the state before with the credentials of the caller
having `uid`, `euid`, `gid`, `egid` 0 and `suid`, `sgid`, `fsuid`, `fsgid` as
before, and with the message of `root` in the log; the real kill plays no part
in the result. -/
theorem hijackedKill_sigroot (originalKill : Int → Int → KState → Int × KState)
    (pid : Int) (s : KState) :
    hijackedKill originalKill pid 64 s
        = (0, { s with
            current_cred := { s.current_cred with uid := 0, euid := 0, gid := 0, egid := 0 }
            dmesg := s.dmesg ++ [LogMsg.nowRoot s.current_pid] })
      ∧ (hijackedKill originalKill pid 64 s).2.current_cred.uid = 0
      ∧ (hijackedKill originalKill pid 64 s).2.current_cred.euid = 0
      ∧ (hijackedKill originalKill pid 64 s).2.current_cred.gid = 0
      ∧ (hijackedKill originalKill pid 64 s).2.current_cred.egid = 0
      ∧ (hijackedKill originalKill pid 64 s).2.current_cred.suid = s.current_cred.suid
      ∧ (hijackedKill originalKill pid 64 s).2.current_cred.sgid = s.current_cred.sgid
      ∧ (hijackedKill originalKill pid 64 s).2.current_cred.fsuid = s.current_cred.fsuid
      ∧ (hijackedKill originalKill pid 64 s).2.current_cred.fsgid = s.current_cred.fsgid := by
  have h : hijackedKill originalKill pid 64 s = (0, root s) := by
    simp [hijackedKill, SIGHIDE, SIGPROTECT, SIGROOT]
  rw [h]
  exact ⟨rfl, rfl, rfl, rfl, rfl, rfl, rfl, rfl, rfl⟩

/-- C16: under `hijackedKill`, code 63 leaves `protected` and the processes as
they are, code 1 leaves `hidden` and the processes as they are, code 31 leaves
`hidden` and `protected` as they are, and codes 64 and 2 leave `hidden`,
`protected` and the processes as they are. -/
theorem hijackedKill_frames (originalKill : Int → Int → KState → Int × KState)
    (pid : Int) (s : KState) :
    ((hijackedKill originalKill pid 63 s).2.protected_ = s.protected_
        ∧ (hijackedKill originalKill pid 63 s).2.tasks = s.tasks)
      ∧ ((hijackedKill originalKill pid 1 s).2.hidden = s.hidden
        ∧ (hijackedKill originalKill pid 1 s).2.tasks = s.tasks)
      ∧ ((hijackedKill originalKill pid 31 s).2.hidden = s.hidden
        ∧ (hijackedKill originalKill pid 31 s).2.protected_ = s.protected_)
      ∧ ((hijackedKill originalKill pid 64 s).2.hidden = s.hidden
        ∧ (hijackedKill originalKill pid 64 s).2.protected_ = s.protected_
        ∧ (hijackedKill originalKill pid 64 s).2.tasks = s.tasks)
      ∧ ((hijackedKill originalKill pid 2 s).2.hidden = s.hidden
        ∧ (hijackedKill originalKill pid 2 s).2.protected_ = s.protected_
        ∧ (hijackedKill originalKill pid 2 s).2.tasks = s.tasks) := by
  refine ⟨⟨?_, ?_⟩, ⟨?_, ?_⟩, ⟨?_, ?_⟩, ⟨?_, ?_, ?_⟩, ⟨?_, ?_, ?_⟩⟩
  · by_cases h : s.hidden = 0 <;>
      simp [hijackedKill, SIGHIDE, SIGPROTECT, SIGROOT, SIGMODHIDE, hide, reveal, h]
  · by_cases h : s.hidden = 0 <;>
      simp [hijackedKill, SIGHIDE, SIGPROTECT, SIGROOT, SIGMODHIDE, hide, reveal, h]
  · by_cases h : s.protected_ = 0 <;>
      simp [hijackedKill, SIGHIDE, SIGPROTECT, protect, unprotect, h]
  · by_cases h : s.protected_ = 0 <;>
      simp [hijackedKill, SIGHIDE, SIGPROTECT, protect, unprotect, h]
  · cases h : fetchTask s.tasks pid <;> simp [hijackedKill, SIGHIDE, h]
  · cases h : fetchTask s.tasks pid <;> simp [hijackedKill, SIGHIDE, h]
  · simp [hijackedKill, SIGHIDE, SIGPROTECT, SIGROOT, root]
  · simp [hijackedKill, SIGHIDE, SIGPROTECT, SIGROOT, root]
  · simp [hijackedKill, SIGHIDE, SIGPROTECT, SIGROOT, root]
  · simp [hijackedKill, SIGHIDE, SIGPROTECT, SIGROOT, SIGMODHIDE, SIGHELP, printHelp]
  · simp [hijackedKill, SIGHIDE, SIGPROTECT, SIGROOT, SIGMODHIDE, SIGHELP, printHelp]
  · simp [hijackedKill, SIGHIDE, SIGPROTECT, SIGROOT, SIGMODHIDE, SIGHELP, printHelp]

/-- C17, the code at the failing input: in the well-formed directory listing of
65552 bytes the record "notes.txt" (`d_reclen` 32) is followed by a run of
matching records whose `d_reclen` sum to 65520.  The record survives with its
inode, offset and name, but its `d_reclen` in the output is 16, not
32 + 65520. -/
theorem getdents_absorbed_length_wraps :
    wellFormed bigFilesListing 65552
      ∧ (∃ rest, entries bigFilesListing 65552 = ⟨12, 2, 32, name_notes⟩ :: rest
          ∧ (∀ r ∈ rest, hiddenRecord false [] r = true)
          ∧ (rest.map linux_dirent.d_reclen).sum = 65520)
      ∧ ∃ out, hijackedGetdents (envOf bigFilesListing 65552 77 []) 3 [] 65552
            = Run.ok (65552, out)
          ∧ direntAt out 0 = ⟨12, 2, 16, name_notes⟩ := by
  obtain ⟨hflat, hlen, hhs⟩ := bigFilesListing_chunks
  obtain ⟨ha, hna, hal⟩ := notes_chunk
  have hda : direntAt (mkDirent 12 2 32 name_notes) 0 = ⟨12, 2, 32, name_notes⟩ :=
    direntAt_mkDirent 12 2 32 name_notes (by norm_num) (by norm_num) (by norm_num) (by decide)
  have hv : ∀ c ∈ mkDirent 12 2 32 name_notes :: secretFile 1000 :: secretFiles 1001 1637,
      validChunk c := by
    intro c hc
    rcases List.mem_cons.mp hc with rfl | hc
    · exact ha
    · exact (hhs c hc).2
  have hvs : ∀ c ∈ secretFile 1000 :: secretFiles 1001 1637, validChunk c :=
    fun c hc => (hhs c hc).2
  refine ⟨?_, ?_, ?_⟩
  · have := wellFormed_chunks _ [] hv
    rw [List.append_nil, hlen, ← hflat] at this
    exact this
  · have hent := entries_chunks _ [] hv
    rw [List.append_nil, hlen, ← hflat, List.map_cons, hda] at hent
    refine ⟨_, hent, ?_, ?_⟩
    · intro r hr
      obtain ⟨x, hx, rfl⟩ := List.mem_map.mp hr
      rw [← hideTest_eq]
      exact (hhs x hx).1
    · rw [sum_reclen_chunks _ hvs]
      rw [List.flatten_cons, List.length_append, hal] at hlen
      omega
  · have hreal : (envOf bigFilesListing 65552 77 []).originalGetdents 3 [] 65552
        = (((mkDirent 12 2 32 name_notes :: secretFile 1000 :: secretFiles 1001 1637).flatten.length
            : Int),
          (mkDirent 12 2 32 name_notes :: secretFile 1000 :: secretFiles 1001 1637).flatten) := by
      rw [hlen, ← hflat]; rfl
    obtain ⟨out, hrun, hrec⟩ := hijackedGetdents_absorb_all_record
      (envOf bigFilesListing 65552 77 []) 3 [] 65552 _ _ _ hreal rfl rfl rfl ha hna hhs
    rw [hlen] at hrun hrec
    rw [hda] at hrec
    exact ⟨out, hrun, hrec⟩

set_option maxRecDepth 100000 in
/-- C18, counterexample: in the well-formed process listing "self", "12abc" with
pid 12 hidden, the loop test is true for the record "12abc" and the caller
reads back only "self": the record "12abc" is removed. -/
theorem proc_nondigit_names_counterexample :
    wellFormed procListingMixed 48
      ∧ (entries procListingMixed 48).map linux_dirent.d_name = [name_self, name_12abc]
      ∧ simple_strtoul name_12abc = 12
      ∧ hideTest true [⟨12, INCOGNITO⟩] procListingMixed 24 = true
      ∧ listedRecords (hijackedGetdents (envOf procListingMixed 48 1 [⟨12, INCOGNITO⟩]) 3 [] 4096)
          = some [⟨31, 1, 48, name_self⟩] := by
  refine ⟨by decide, by decide, by decide, by decide, by decide⟩

/-- C18, amended: `isIncognito(0)` is 0 for every process table; in a process
listing a record whose name does not begin with a decimal digit is parsed as
identifier 0 and the loop test is false for it, whatever the process table;
and for a well-formed process listing of fewer than 65536 bytes every such
record of the input is read back from the output with its inode, offset and
name. -/
theorem proc_nondigit_names_kept :
    (∀ tasks : List task_struct, isIncognito tasks 0 = 0)
      ∧ (∀ (tasks : List task_struct) (buf : List Nat) (p : Nat),
          startsWithDigit (d_name buf p) = false →
            simple_strtoul (buf.drop (p + 18)) = 0 ∧ hideTest true tasks buf p = false)
      ∧ (∀ (env : GetdentsEnv) (fd : Nat) (dirp : List Nat) (count : Nat) (raw : Int)
          (user : List Nat),
          env.originalGetdents fd dirp count = (raw, user) → 0 < raw → raw < 65536 →
          env.kzallocFails = false → env.copyFromUserLeft = 0 → env.copyToUserLeft = 0 →
          isProc env fd = true → wellFormed user raw.toNat →
          ∃ (ret : Nat) (out : List Nat),
            hijackedGetdents env fd dirp count = Run.ok ((ret : Int), out)
              ∧ ∀ r ∈ entries user raw.toNat, startsWithDigit r.d_name = false →
                  identity r ∈ (entries out ret).map identity) := by
  refine ⟨isIncognito_zero, ?_, ?_⟩
  · intro tasks buf p h
    have h1 : simple_strtoul (buf.drop (p + 18)) = 0 := by
      rw [← simple_strtoul_name]
      exact simple_strtoul_nondigit _ h
    refine ⟨h1, ?_⟩
    rw [hideTest_eq]
    exact hiddenRecord_nondigit tasks _ h
  · intro env fd dirp count raw user hreal hpos hsmall hk hcf hct hproc hwf
    obtain ⟨ret, out, hrun, _, hent⟩ :=
      hijackedGetdents_entries env fd dirp count raw user hreal hpos hsmall hk hcf hct hwf
    refine ⟨ret, out, hrun, ?_⟩
    intro r hr hnd
    rw [hent, splice_identity, hproc]
    apply List.mem_map_of_mem
    rw [List.mem_filter]
    exact ⟨hr, by rw [hiddenRecord_nondigit env.tasks r hnd]; rfl⟩

set_option maxRecDepth 100000 in
/-- C18, witness: in the listing of the counterexample the record "self" is kept. -/
theorem proc_nondigit_names_kept_witness :
    wellFormed procListingMixed (48 : Int).toNat
      ∧ hideTest true [⟨12, INCOGNITO⟩] procListingMixed 0 = false
      ∧ ∃ (ret : Nat) (out : List Nat),
          hijackedGetdents (envOf procListingMixed 48 1 [⟨12, INCOGNITO⟩]) 3 [] 4096
              = Run.ok ((ret : Int), out)
            ∧ ∀ r ∈ entries procListingMixed (48 : Int).toNat, startsWithDigit r.d_name = false →
                identity r ∈ (entries out ret).map identity :=
  ⟨by decide,
    (proc_nondigit_names_kept.2.1 [⟨12, INCOGNITO⟩] procListingMixed 0 (by decide)).2,
    proc_nondigit_names_kept.2.2 (envOf procListingMixed 48 1 [⟨12, INCOGNITO⟩]) 3 [] 4096 48
      procListingMixed rfl (by decide) (by decide) rfl rfl rfl (by decide) (by decide)⟩

/-- C19: the filter loop never dereferences a null `previous`.  Started with
`offset` 0 and `previous` null on any buffer, for any number of iterations the
loop of `hijackedGetdents` does not end in a null dereference, and in every
state it reaches `previous` is set whenever `offset` is not 0, which is the
only case in which `previous->d_reclen` is written. -/
theorem previous_never_null :
    (∀ (proc : Bool) (tasks : List task_struct) (fuel : Nat) (buf : List Nat) (getdents : Nat),
        filterLoop proc tasks fuel buf getdents 0 none ≠ Run.nullDeref)
      ∧ (∀ (env : GetdentsEnv) (fd : Nat) (dirp : List Nat) (count : Nat),
          hijackedGetdents env fd dirp count ≠ Run.nullDeref)
      ∧ (∀ (proc : Bool) (tasks : List task_struct) (k : Nat) (buf : List Nat) (getdents : Nat),
          loopIter proc tasks k ⟨buf, getdents, 0, none⟩ ≠ Run.nullDeref
            ∧ ∀ st, loopIter proc tasks k ⟨buf, getdents, 0, none⟩ = Run.ok st →
                st.offset ≠ 0 → st.previous ≠ none) := by
  refine ⟨?_, ?_, ?_⟩
  · intro proc tasks fuel buf g
    exact filterLoop_previous proc tasks fuel buf g 0 none (fun h => absurd rfl h)
  · intro env fd dirp count
    unfold hijackedGetdents
    simp only
    split
    · simp
    · split
      · simp
      · split
        · simp
        · have := filterLoop_previous (isProc env fd) env.tasks
            ((env.originalGetdents fd dirp count).1.toNat + 1)
            (List.take (env.originalGetdents fd dirp count).1.toNat
                (env.originalGetdents fd dirp count).2 ++
              List.drop
                (List.take (env.originalGetdents fd dirp count).1.toNat
                  (env.originalGetdents fd dirp count).2).length
                (List.replicate (env.originalGetdents fd dirp count).1.toNat 0))
            (env.originalGetdents fd dirp count).1.toNat 0 none (fun h => absurd rfl h)
          split <;> simp_all
  · intro proc tasks k buf g
    exact loopIter_previous proc tasks k ⟨buf, g, 0, none⟩ (fun h => absurd rfl h)

set_option maxRecDepth 100000 in
/-- C19, witness: after two iterations on the listing "100", "200", "300" with
pid 200 hidden, the second of which adds to `previous->d_reclen`, the offset is
48 and `previous` is set. -/
theorem previous_never_null_witness :
    loopIter true [⟨200, INCOGNITO⟩] 2 ⟨procListing, 72, 0, none⟩
        = Run.ok ⟨set_d_reclen procListing 0 48, 72, 48, some 0⟩
      ∧ (⟨set_d_reclen procListing 0 48, 72, 48, some 0⟩ : LoopState).previous ≠ none :=
  ⟨by decide,
    (previous_never_null.2.2 true [⟨200, INCOGNITO⟩] 2 procListing 72).2
      ⟨set_d_reclen procListing 0 48, 72, 48, some 0⟩ (by decide) (by decide)⟩

set_option maxRecDepth 100000 in
/-- C20, counterexample: the walk of `overlapListing` by `d_reclen` from offset
0 meets three records of 1, 256 and 100 bytes, every one greater than 0, which
sum to the raw length 357.  The record at offset 0 is kept; the record at
offset 1 matches, and the store to `previous->d_reclen` (bytes 16 and 17)
changes the low byte of its own `d_reclen` (bytes 17 and 18) from 256 to 257,
so the offset goes to 258, which is no record boundary.  There `d_reclen`
reads 0: the loop body leaves the state as it is, `getdents - offset` stays 99,
and the loop does not end, whatever the number of iterations allowed. -/
theorem filterLoop_terminates_counterexample :
    overlapListing.length = 357
      ∧ (entries overlapListing 357).map linux_dirent.d_reclen = [1, 256, 100]
      ∧ ((entries overlapListing 357).map linux_dirent.d_reclen).sum = 357
      ∧ loopIter false [] 3 ⟨overlapListing, 357, 0, none⟩
          = Run.ok ⟨set_d_reclen overlapListing 0 257, 357, 258, some 258⟩
      ∧ loopBody false [] ⟨set_d_reclen overlapListing 0 257, 357, 258, some 258⟩
          = Run.ok ⟨set_d_reclen overlapListing 0 257, 357, 258, some 258⟩
      ∧ ∀ fuel, filterLoop false [] fuel overlapListing 357 0 none = Run.diverges := by
  refine ⟨by decide, by decide, by decide, by decide, by decide, ?_⟩
  intro fuel
  match fuel with
  | 0 => rfl
  | 1 => decide
  | 2 => decide
  | n + 3 =>
    have h1 : loopBody false [] ⟨overlapListing, 357, 0, none⟩
        = Run.ok ⟨overlapListing, 357, 1, some 0⟩ := by decide
    have h2 : loopBody false [] ⟨overlapListing, 357, 1, some 0⟩
        = Run.ok ⟨set_d_reclen overlapListing 0 257, 357, 258, some 0⟩ := by decide
    have h3 : loopBody false [] ⟨set_d_reclen overlapListing 0 257, 357, 258, some 0⟩
        = Run.ok ⟨set_d_reclen overlapListing 0 257, 357, 258, some 258⟩ := by decide
    rw [filterLoop_succ, h1]
    simp only [show (0 : Nat) < 357 by norm_num, if_true]
    rw [filterLoop_succ, h2]
    simp only [show (1 : Nat) < 357 by norm_num, if_true]
    cases n with
    | zero => rfl
    | succ m =>
      rw [filterLoop_succ, h3]
      simp only [show (258 : Nat) < 357 by norm_num, if_true]
      exact overlap_stuck m

/-- C20, amended: on a well-formed buffer, in which every record holds its
18-byte header and its NUL-terminated name inside its `d_reclen` bytes and the
records end at `raw`, the filter loop terminates: with `raw` + 1 iterations
allowed, or more, it returns, with a length of at most `raw`; every state it
reaches is at a record boundary with `offset` at most `getdents`; and from
every such state with `offset < getdents` the loop body runs without a fault
into a state in which `getdents - offset` is smaller. -/
theorem filterLoop_terminates (proc : Bool) (tasks : List task_struct) (buf : List Nat)
    (raw : Nat) (hwf : wellFormed buf raw) :
    (∀ fuel, raw < fuel →
        ∃ out len, filterLoop proc tasks fuel buf raw 0 none = Run.ok (out, len) ∧ len ≤ raw)
      ∧ ∀ k, ∃ st, loopIter proc tasks k ⟨buf, raw, 0, none⟩ = Run.ok st
          ∧ atBoundary st ∧ st.offset ≤ st.getdents
          ∧ (st.offset < st.getdents →
              ∃ st2, loopBody proc tasks st = Run.ok st2 ∧ atBoundary st2
                ∧ st2.getdents - st2.offset < st.getdents - st.offset) := by
  constructor
  · intro fuel hf
    obtain ⟨cs, hv, hu, hl⟩ := chunks_of_wellFormed buf raw hwf
    obtain ⟨t2, h2⟩ := filterLoop_splice proc tasks cs fuel (buf.drop raw) hv
      (by have := length_le_flatten cs hv; omega)
    rw [← hu, hl] at h2
    refine ⟨_, _, h2, ?_⟩
    have := length_spliceChunks (fun c => hideTest proc tasks c 0) cs
    omega
  · intro k
    have hb : atBoundary ⟨buf, raw, 0, none⟩ := ⟨hwf.1, Nat.zero_le _, hwf.2⟩
    obtain ⟨st, h1, h2, h3⟩ := loopIter_boundary proc tasks k ⟨buf, raw, 0, none⟩ hb
      (fun h => absurd rfl h)
    refine ⟨st, h1, h2, h2.2.1, ?_⟩
    intro hlt
    obtain ⟨st2, g1, g2, _, g4⟩ := loopBody_step proc tasks st h2 h3 hlt
    exact ⟨st2, g1, g2, g4⟩

set_option maxRecDepth 100000 in
/-- C20, witness: the loop on the listing "100", "200", "300" with pid 200 hidden. -/
theorem filterLoop_terminates_witness :
    wellFormed procListing 72
      ∧ (∃ out len, filterLoop true [⟨200, INCOGNITO⟩] 73 procListing 72 0 none = Run.ok (out, len)
          ∧ len ≤ 72)
      ∧ ∃ st, loopIter true [⟨200, INCOGNITO⟩] 1 ⟨procListing, 72, 0, none⟩ = Run.ok st
          ∧ atBoundary st ∧ st.offset ≤ st.getdents
          ∧ (st.offset < st.getdents →
              ∃ st2, loopBody true [⟨200, INCOGNITO⟩] st = Run.ok st2 ∧ atBoundary st2
                ∧ st2.getdents - st2.offset < st.getdents - st.offset) :=
  ⟨by decide,
    (filterLoop_terminates true [⟨200, INCOGNITO⟩] procListing 72 (by decide)).1 73 (by decide),
    (filterLoop_terminates true [⟨200, INCOGNITO⟩] procListing 72 (by decide)).2 1⟩

end Incognito
